import Mathlib

/-!
A shallow embedding of the NILFS2 checkpoint file (fs/nilfs2/cpfile.c) and a
verification of its specification.

Modelling conventions:
* Machine integers (`__u64`, `__le64`, `__le32`) are `Nat`s; the wrapping
  arithmetic the code performs through `le64_add_cpu` / `le32` stores is made
  explicit through `u64add`, `u64sub`, `u32add`, `u32sub` (reduction mod 2^64
  or 2^32 exactly where the C code wraps).
* The on-disk state is a `CpfileState`: the MDT parameters
  (`mi_entries_per_block` as `E`, `mi_first_entry_offset` as `F`, the
  monotone counter `nilfs_mdt_cno` as `nextCno`), the header entry of block 0,
  a block-existence map (`blkExists`, holes are `false`), and a map `cp` from
  checkpoint number to the checkpoint record stored in its slot.  The census
  word of block b lives, as on disk, in the `cp_checkpoints_count` field of
  the record in the first slot of block b.
* Buffer management (`kmap_local_folio`, `brelse`, `mark_buffer_dirty`,
  `nilfs_mdt_mark_dirty`) does not change the modelled state and is dropped.
  `nilfs_err` / `nilfs_error` diagnostics are counted by the `log` field where
  the mutating operations emit them.
* The MDT block layer (mdt.c, not part of this tree) is deterministic and
  error-free in the model: block reads succeed for existing blocks and report
  `-ENOENT` for holes; allocation and deletion succeed.  `-ENOMEM`/`-EROFS`
  and I/O faults are therefore absent.
* The embedded ifile inode of an entry is abstracted to a payload `cp_ifile`
  plus a flag `cp_ifile_ok` meaning "nilfs_read_inode_common succeeds on it".
-/

/-! ### Machine arithmetic -/

def U64 : Nat := 2 ^ 64

def U32 : Nat := 2 ^ 32

/-- `~(__u64)0`, the snapshot-iteration terminator. -/
def UMAX : Nat := U64 - 1

def u64add (x n : Nat) : Nat := (x + n) % U64

def u64sub (x n : Nat) : Nat := (x + (U64 - n % U64)) % U64

def u32add (x n : Nat) : Nat := (x + n) % U32

def u32sub (x n : Nat) : Nat := (x + (U32 - n % U32)) % U32

/-! ### Error codes (negative POSIX-style integers, as returned by the C) -/

def einval : Int := -22

def enoent : Int := -2

def eio : Int := -5

def ebusy : Int := -16

/-- Checkpoint mode constants of the uapi header. -/
def NILFS_CHECKPOINT : Nat := 0

def NILFS_SNAPSHOT : Nat := 1

/-! ### Data model -/

/-- One on-disk checkpoint record (`struct nilfs_checkpoint`).  The three
flag bits used by cpfile.c (INVALID, SNAPSHOT, MINOR) are split out of
`cp_flags`; the snapshot list pointers are inlined (`ssl_next`, `ssl_prev`).
`cp_checkpoints_count` is the per-block census word, meaningful only in the
first slot of a block other than block 0. -/
structure Checkpoint where
  cp_invalid : Bool
  cp_snapshot : Bool
  cp_minor : Bool
  cp_checkpoints_count : Nat
  cp_cno : Nat
  cp_create : Nat
  cp_nblk_inc : Nat
  cp_inodes_count : Nat
  cp_blocks_count : Nat
  ssl_next : Nat
  ssl_prev : Nat
  cp_ifile : Nat
  cp_ifile_ok : Bool
deriving Repr, DecidableEq

/-- The all-zero record, as found in freshly zero-filled metadata blocks. -/
def Checkpoint.zero : Checkpoint :=
  ⟨false, false, false, 0, 0, 0, 0, 0, 0, 0, 0, 0, true⟩

/-- The header entry in slot 0 of block 0 (`struct nilfs_cpfile_header`). -/
structure CpfileHeader where
  ch_ncheckpoints : Nat
  ch_nsnapshots : Nat
  ssl_next : Nat
  ssl_prev : Nat
deriving Repr, DecidableEq

/-- The nilfs root object configured by `nilfs_cpfile_read_checkpoint`. -/
structure NilfsRoot where
  inodes_count : Nat
  blocks_count : Nat
  ifile : Nat
deriving Repr, DecidableEq

/-- The summary record copied out by the enumeration paths
(`struct nilfs_cpinfo`); `ci_flags` is split into its three used bits. -/
structure Cpinfo where
  ci_invalid : Bool
  ci_snapshot : Bool
  ci_minor : Bool
  ci_cno : Nat
  ci_create : Nat
  ci_nblk_inc : Nat
  ci_inodes_count : Nat
  ci_blocks_count : Nat
  ci_next : Nat
deriving Repr, DecidableEq

def cpinfoDefault : Cpinfo := ⟨false, false, false, 0, 0, 0, 0, 0, 0⟩

/-- The whole cpfile state.  `E` is `mi_entries_per_block`, `F` is
`mi_first_entry_offset` (1 for the cpfile), `nextCno` is `nilfs_mdt_cno`,
`log` counts emitted `nilfs_err`/`nilfs_error` diagnostics. -/
structure CpfileState where
  E : Nat
  F : Nat
  nextCno : Nat
  header : CpfileHeader
  blkExists : Nat → Bool
  cp : Nat → Checkpoint
  log : Nat

/-! ### Block-layout calculator -/

/-- `nilfs_cpfile_get_blkoff`: block number containing checkpoint `cno`. -/
def nilfs_cpfile_get_blkoff (s : CpfileState) (cno : Nat) : Nat :=
  (cno + s.F - 1) / s.E

/-- `nilfs_cpfile_get_offset`: slot of checkpoint `cno` inside its block. -/
def nilfs_cpfile_get_offset (s : CpfileState) (cno : Nat) : Nat :=
  (cno + s.F - 1) % s.E

/-- `nilfs_cpfile_first_checkpoint_in_block`. -/
def nilfs_cpfile_first_checkpoint_in_block (s : CpfileState) (b : Nat) : Nat :=
  s.E * b + 1 - s.F

/-- `nilfs_cpfile_checkpoints_in_block`: number of slots from `curr` to the
end of its block, capped by `max_`. -/
def nilfs_cpfile_checkpoints_in_block (s : CpfileState) (curr max_ : Nat) : Nat :=
  min (s.E - nilfs_cpfile_get_offset s curr) (max_ - curr)

/-- `nilfs_cpfile_is_in_first`. -/
def nilfs_cpfile_is_in_first (s : CpfileState) (cno : Nat) : Bool :=
  nilfs_cpfile_get_blkoff s cno == 0

/-! ### State helpers -/

/-- Overwrite the record stored in the slot of checkpoint `c`. -/
def setCp (s : CpfileState) (c : Nat) (e : Checkpoint) : CpfileState :=
  { s with cp := fun d => if d = c then e else s.cp d }

/-- One `nilfs_err`/`nilfs_error` diagnostic. -/
def logged (s : CpfileState) : CpfileState := { s with log := s.log + 1 }

/-- Modelled from the spec: `nilfs_mdt_get_block` with `create = 1` on a hole
(mdt.c is not in this tree).  The MDT allocates the block zero-filled and then
runs the supplied `nilfs_cpfile_block_init`, which marks every slot INVALID. -/
def allocBlock (s : CpfileState) (b : Nat) : CpfileState :=
  { s with
    blkExists := fun d => if d = b then true else s.blkExists d,
    cp := fun d =>
      if nilfs_cpfile_get_blkoff s d = b then { Checkpoint.zero with cp_invalid := true }
      else s.cp d }

/-- `nilfs_cpfile_block_add_valid_checkpoints`: bump the census word stored in
the first slot of block `b` (a `__le32`, hence mod 2^32) and report it. -/
def nilfs_cpfile_block_add_valid_checkpoints (s : CpfileState) (b n : Nat) :
    CpfileState × Nat :=
  let c0 := nilfs_cpfile_first_checkpoint_in_block s b
  let cnt := u32add (s.cp c0).cp_checkpoints_count n
  (setCp s c0 { s.cp c0 with cp_checkpoints_count := cnt }, cnt)

/-- `nilfs_cpfile_block_sub_valid_checkpoints`. -/
def nilfs_cpfile_block_sub_valid_checkpoints (s : CpfileState) (b n : Nat) :
    CpfileState × Nat :=
  let c0 := nilfs_cpfile_first_checkpoint_in_block s b
  let cnt := u32sub (s.cp c0).cp_checkpoints_count n
  (setCp s c0 { s.cp c0 with cp_checkpoints_count := cnt }, cnt)

/-- `nilfs_cpfile_delete_checkpoint_block`: drop the block containing `cno`. -/
def nilfs_cpfile_delete_checkpoint_block (s : CpfileState) (cno : Nat) : CpfileState :=
  { s with
    blkExists := fun d =>
      if d = nilfs_cpfile_get_blkoff s cno then false else s.blkExists d }

/-- `ssl_next` of a snapshot-list node; node 0 is the header sentinel. -/
def sslNextOf (s : CpfileState) (a : Nat) : Nat :=
  if a = 0 then s.header.ssl_next else (s.cp a).ssl_next

/-- `ssl_prev` of a snapshot-list node; node 0 is the header sentinel. -/
def sslPrevOf (s : CpfileState) (a : Nat) : Nat :=
  if a = 0 then s.header.ssl_prev else (s.cp a).ssl_prev

/-- Write `ssl_next` of node `a` (header sentinel when `a = 0`). -/
def setSslNext (s : CpfileState) (a v : Nat) : CpfileState :=
  if a = 0 then { s with header := { s.header with ssl_next := v } }
  else setCp s a { s.cp a with ssl_next := v }

/-- Write `ssl_prev` of node `a` (header sentinel when `a = 0`). -/
def setSslPrev (s : CpfileState) (a v : Nat) : CpfileState :=
  if a = 0 then { s with header := { s.header with ssl_prev := v } }
  else setCp s a { s.cp a with ssl_prev := v }

/-! ### nilfs_cpfile_read_checkpoint -/

/-- `nilfs_cpfile_read_checkpoint`.  Read-only with respect to the cpfile;
returns the error code and the (possibly updated) root object.  A failing
`nilfs_read_inode_common` (modelled by `cp_ifile_ok = false`) is reclassified
to `-EIO`. -/
def nilfs_cpfile_read_checkpoint (s : CpfileState) (cno : Nat) (root : NilfsRoot)
    (ifile : Nat) : Int × NilfsRoot :=
  if cno < 1 ∨ s.nextCno < cno then (einval, root)
  else if s.blkExists (nilfs_cpfile_get_blkoff s cno) = false then (einval, root)
  else
    let e := s.cp cno
    if e.cp_invalid then (einval, root)
    else if e.cp_ifile_ok = false then (eio, root)
    else
      (0, { root with
              inodes_count := e.cp_inodes_count,
              blocks_count := e.cp_blocks_count,
              ifile := ifile })

/-! ### nilfs_cpfile_create_checkpoint -/

/-- `nilfs_cpfile_create_checkpoint`.  `WARN_ON_ONCE(cno < 1)` returns `-EIO`
before anything is read or locked; a missing header block is `-EIO` with a
diagnostic. -/
def nilfs_cpfile_create_checkpoint (s : CpfileState) (cno : Nat) : Int × CpfileState :=
  if cno < 1 then (eio, s)
  else if s.blkExists 0 = false then (eio, logged s)
  else
    let b := nilfs_cpfile_get_blkoff s cno
    let s1 := if s.blkExists b then s else allocBlock s b
    let e := s1.cp cno
    if e.cp_invalid then
      let s2 := setCp s1 cno { e with cp_invalid := false }
      let s3 :=
        if nilfs_cpfile_is_in_first s2 cno then s2
        else (nilfs_cpfile_block_add_valid_checkpoints s2 (nilfs_cpfile_get_blkoff s2 cno) 1).1
      (0, { s3 with header := { s3.header with
              ch_ncheckpoints := u64add s3.header.ch_ncheckpoints 1 } })
    else (0, s1)

/-! ### nilfs_cpfile_finalize_checkpoint -/

/-- `nilfs_cpfile_finalize_checkpoint`.  A hole (`-ENOENT` from the block
read) or an INVALID entry is escalated to `-EIO` with one metadata-corruption
diagnostic. -/
def nilfs_cpfile_finalize_checkpoint (s : CpfileState) (cno : Nat) (root : NilfsRoot)
    (blkinc ctime : Nat) (minor : Bool) : Int × CpfileState :=
  if cno < 1 then (eio, s)
  else if s.blkExists (nilfs_cpfile_get_blkoff s cno) = false then (eio, logged s)
  else
    let e := s.cp cno
    if e.cp_invalid then (eio, logged s)
    else
      (0, setCp s cno
        { e with
          ssl_next := 0, ssl_prev := 0,
          cp_inodes_count := root.inodes_count,
          cp_blocks_count := root.blocks_count,
          cp_nblk_inc := blkinc,
          cp_create := ctime,
          cp_cno := cno,
          cp_minor := minor,
          cp_ifile := root.ifile,
          cp_ifile_ok := true })

/-! ### nilfs_cpfile_delete_checkpoints -/

/-- The in-block scan of `nilfs_cpfile_delete_checkpoints`: walk `n` slots
from `cno`; count snapshots (`nss` increments, not touched), mark valid
non-snapshot entries INVALID and count them (`nicps`).  Returns
(state, nicps, nss-increment). -/
def markRange : CpfileState → Nat → Nat → CpfileState × Nat × Nat
  | s, _, 0 => (s, 0, 0)
  | s, cno, n + 1 =>
    let e := s.cp cno
    if e.cp_snapshot then
      let r := markRange s (cno + 1) n
      (r.1, r.2.1, r.2.2 + 1)
    else if e.cp_invalid = false then
      let r := markRange (setCp s cno { e with cp_invalid := true }) (cno + 1) n
      (r.1, r.2.1 + 1, r.2.2)
    else markRange s (cno + 1) n

/-- The block-stride loop of `nilfs_cpfile_delete_checkpoints`.  One fuel unit
per iteration; `end_ - start` units suffice because each iteration advances
`cno` by `ncps ≥ 1` whenever `E ≥ 1` (with `E = 0` the C loop would not
terminate at all).  Returns (ret, state, tnicps, nss). -/
def nilfs_cpfile_delete_loop (end_ : Nat) :
    CpfileState → Nat → Nat → Nat → Nat → Int × CpfileState × Nat × Nat
  | s, _, tnicps, nss, 0 => (0, s, tnicps, nss)
  | s, cno, tnicps, nss, fuel + 1 =>
    if cno < end_ then
      let ncps := nilfs_cpfile_checkpoints_in_block s cno end_
      if s.blkExists (nilfs_cpfile_get_blkoff s cno) then
        let r := markRange s cno ncps
        let nss' := nss + r.2.2
        if r.2.1 = 0 then
          nilfs_cpfile_delete_loop end_ r.1 (cno + ncps) tnicps nss' fuel
        else if nilfs_cpfile_is_in_first r.1 cno then
          nilfs_cpfile_delete_loop end_ r.1 (cno + ncps) (tnicps + r.2.1) nss' fuel
        else
          let rr := nilfs_cpfile_block_sub_valid_checkpoints r.1
                      (nilfs_cpfile_get_blkoff r.1 cno) r.2.1
          if rr.2 ≠ 0 then
            nilfs_cpfile_delete_loop end_ rr.1 (cno + ncps) (tnicps + r.2.1) nss' fuel
          else
            nilfs_cpfile_delete_loop end_ (nilfs_cpfile_delete_checkpoint_block rr.1 cno)
              (cno + ncps) (tnicps + r.2.1) nss' fuel
      else nilfs_cpfile_delete_loop end_ s (cno + ncps) tnicps nss fuel
    else (0, s, tnicps, nss)

/-- `nilfs_cpfile_delete_checkpoints` over the half-open range `[start, end_)`.
Rejects `start = 0` and `start > end_` with `-EINVAL` and a diagnostic; after
the loop, decrements the header `ch_ncheckpoints` by the accumulated `tnicps`
(a wrapping `le64_add_cpu`), and reports `-EBUSY` when snapshots were seen. -/
def nilfs_cpfile_delete_checkpoints (s : CpfileState) (start end_ : Nat) :
    Int × CpfileState :=
  if start = 0 ∨ end_ < start then (einval, logged s)
  else if s.blkExists 0 = false then (eio, logged s)
  else
    let r := nilfs_cpfile_delete_loop end_ s start 0 0 (end_ - start)
    let s1 := r.2.1
    let s2 :=
      if 0 < r.2.2.1 then
        { s1 with header := { s1.header with
            ch_ncheckpoints := u64sub s1.header.ch_ncheckpoints r.2.2.1 } }
      else s1
    (if 0 < r.2.2.2 then ebusy else r.1, s2)

/-! ### Enumeration: checkpoint mode -/

/-- `nilfs_cpfile_checkpoint_to_cpinfo`. -/
def nilfs_cpfile_checkpoint_to_cpinfo (e : Checkpoint) : Cpinfo :=
  ⟨e.cp_invalid, e.cp_snapshot, e.cp_minor, e.cp_cno, e.cp_create,
   e.cp_nblk_inc, e.cp_inodes_count, e.cp_blocks_count, e.ssl_next⟩

/-- `nilfs_mdt_find_block` restricted to what cpfile uses: the first existing
block in `[from_, from_ + n)`. -/
def findBlockFrom (s : CpfileState) : Nat → Nat → Option Nat
  | _, 0 => none
  | f, n + 1 => if s.blkExists f then some f else findBlockFrom s (f + 1) n

/-- `nilfs_cpfile_find_checkpoint_block` over `[start_cno, end_cno]`
(inclusive): the checkpoint number to continue from, or `none` for
`-ENOENT`. -/
def nilfs_cpfile_find_checkpoint_block (s : CpfileState) (start_cno end_cno : Nat) :
    Option Nat :=
  if end_cno < start_cno then none
  else
    let sb := nilfs_cpfile_get_blkoff s start_cno
    match findBlockFrom s sb (nilfs_cpfile_get_blkoff s end_cno + 1 - sb) with
    | none => none
    | some b =>
      some (if b = sb then start_cno else nilfs_cpfile_first_checkpoint_in_block s b)

/-- The in-block scan of `nilfs_cpfile_do_get_cpinfo`: copy out up to `cap`
valid entries among the `n` slots from `cno`. -/
def scanValid (s : CpfileState) : Nat → Nat → Nat → List Cpinfo
  | _, 0, _ => []
  | cno, n + 1, cap =>
    if cap = 0 then []
    else if (s.cp cno).cp_invalid then scanValid s (cno + 1) n cap
    else nilfs_cpfile_checkpoint_to_cpinfo (s.cp cno) :: scanValid s (cno + 1) n (cap - 1)

/-- The outer loop of `nilfs_cpfile_do_get_cpinfo`.  `cur` is the value of
`nilfs_mdt_cno` sampled at entry.  Fuel decreases once per iteration;
`cur + 1` units suffice since `cno` strictly increases below `cur`.
Returns (ret, new `*cnop` if it is written, emitted records). -/
def cpinfoLoop (s : CpfileState) (cur nci : Nat) :
    Nat → Nat → List Cpinfo → Int × Option Nat × List Cpinfo
  | 0, _, acc => ((acc.length : Int), acc.getLast?.map (fun ci => ci.ci_cno + 1), acc)
  | fuel + 1, cno, acc =>
    if acc.length < nci then
      match nilfs_cpfile_find_checkpoint_block s cno (cur - 1) with
      | none => ((acc.length : Int), acc.getLast?.map (fun ci => ci.ci_cno + 1), acc)
      | some c' =>
        let ncps := nilfs_cpfile_checkpoints_in_block s c' cur
        cpinfoLoop s cur nci fuel (c' + ncps) (acc ++ scanValid s c' ncps (nci - acc.length))
    else ((acc.length : Int), acc.getLast?.map (fun ci => ci.ci_cno + 1), acc)

/-- `nilfs_cpfile_do_get_cpinfo`: enumerate valid checkpoints starting at
`*cnop`.  `*cnop = 0` is `-ENOENT`; on success with at least one record,
`*cnop` becomes the last emitted cno + 1. -/
def nilfs_cpfile_do_get_cpinfo (s : CpfileState) (cnop nci : Nat) :
    Int × Nat × List Cpinfo :=
  if cnop = 0 then (enoent, cnop, [])
  else
    let r := cpinfoLoop s s.nextCno nci (s.nextCno + 1) cnop []
    (r.1, r.2.1.getD cnop, r.2.2)

/-! ### Enumeration: snapshot mode -/

/-- The list walk of `nilfs_cpfile_do_get_ssinfo`.  One fuel unit per emitted
record (the C loop runs `while (n < nci)`), entered with `fuel = nci`.
`none` in the middle component means `*cnop` is not written (the error path
crossing into a missing block, where the C does `WARN_ON(ret == -ENOENT)` and
bails out with the error). -/
def ssLoop (s : CpfileState) : Nat → Nat → Nat → List Cpinfo → Int × Option Nat × List Cpinfo
  | 0, node, _, acc => ((acc.length : Int), some node, acc)
  | fuel + 1, node, nodeb, acc =>
    let e := s.cp node
    if e.cp_invalid || !e.cp_snapshot then ((acc.length : Int), some UMAX, acc)
    else
      let acc' := acc ++ [nilfs_cpfile_checkpoint_to_cpinfo e]
      if e.ssl_next = 0 then ((acc'.length : Int), some UMAX, acc')
      else
        let nb := nilfs_cpfile_get_blkoff s e.ssl_next
        if nb ≠ nodeb ∧ s.blkExists nb = false then (enoent, none, acc')
        else ssLoop s fuel e.ssl_next nb acc'

/-- Entry into the walk once the starting node `c` is known: a hole at the
starting node is "no snapshots", reported as 0. -/
def ssStart (s : CpfileState) (cnop nci c : Nat) : Int × Nat × List Cpinfo :=
  if s.blkExists (nilfs_cpfile_get_blkoff s c) = false then (0, cnop, [])
  else
    let r := ssLoop s nci c (nilfs_cpfile_get_blkoff s c) []
    (r.1, r.2.1.getD cnop, r.2.2)

/-- `nilfs_cpfile_do_get_ssinfo`: traverse the snapshot list from `*cnop`
(0 = from the header sentinel, `~0` = terminator). -/
def nilfs_cpfile_do_get_ssinfo (s : CpfileState) (cnop nci : Nat) :
    Int × Nat × List Cpinfo :=
  if cnop = 0 then
    if s.blkExists 0 = false then (eio, cnop, [])
    else
      let c := s.header.ssl_next
      if c = 0 then (0, cnop, [])
      else ssStart s cnop nci c
  else if cnop = UMAX then (0, cnop, [])
  else ssStart s cnop nci cnop

/-- `nilfs_cpfile_get_cpinfo`: dispatch on the mode. -/
def nilfs_cpfile_get_cpinfo (s : CpfileState) (cnop mode nci : Nat) :
    Int × Nat × List Cpinfo :=
  if mode = NILFS_CHECKPOINT then nilfs_cpfile_do_get_cpinfo s cnop nci
  else if mode = NILFS_SNAPSHOT then nilfs_cpfile_do_get_ssinfo s cnop nci
  else (einval, cnop, [])

/-! ### nilfs_cpfile_delete_checkpoint (single) -/

/-- `nilfs_cpfile_delete_checkpoint`: probe through the checkpoint-mode
enumeration with `nci = 1`, then delegate to the range delete. -/
def nilfs_cpfile_delete_checkpoint (s : CpfileState) (cno : Nat) : Int × CpfileState :=
  let r := nilfs_cpfile_do_get_cpinfo s cno 1
  if r.1 < 0 then (r.1, s)
  else if r.1 = 0 ∨ (r.2.2.headD cpinfoDefault).ci_cno ≠ cno then (enoent, s)
  else if (r.2.2.headD cpinfoDefault).ci_snapshot then (ebusy, s)
  else nilfs_cpfile_delete_checkpoints s cno (cno + 1)

/-! ### nilfs_cpfile_set_snapshot -/

/-- The backward walk of `nilfs_cpfile_set_snapshot`: starting from the
header (`curr = 0`, `prev = header.ssl_prev`), follow `ssl_prev` while
`prev > cno`; a block is re-read only when the walk crosses a block boundary,
and a hole there surfaces as `-ENOENT`.  Fuel exhaustion yields `-EIO`; it is
unreachable for well-formed snapshot lists (on a cyclic list the C loop would
not terminate). -/
def snapWalk (s : CpfileState) (cno : Nat) : Nat → Nat → Nat → Nat → Except Int (Nat × Nat)
  | 0, _, _, _ => Except.error eio
  | fuel + 1, curr, currb, prev =>
    if cno < prev then
      let prevb := nilfs_cpfile_get_blkoff s prev
      if currb ≠ prevb ∧ s.blkExists prevb = false then Except.error enoent
      else snapWalk s cno fuel prev prevb (s.cp prev).ssl_prev
    else Except.ok (curr, prev)

/-- `nilfs_cpfile_set_snapshot`: promote a valid plain checkpoint to a
snapshot, inserting it into the ordered list between `(prev, curr)` found by
the backward walk, in the order: curr's `ssl_prev`, the entry itself, prev's
`ssl_next`, the header count. -/
def nilfs_cpfile_set_snapshot (s : CpfileState) (cno fuel : Nat) : Int × CpfileState :=
  if cno = 0 then (enoent, s)
  else if s.blkExists 0 = false then (eio, logged s)
  else if s.blkExists (nilfs_cpfile_get_blkoff s cno) = false then (enoent, s)
  else
    let e := s.cp cno
    if e.cp_invalid then (enoent, s)
    else if e.cp_snapshot then (0, s)
    else
      match snapWalk s cno fuel 0 0 s.header.ssl_prev with
      | Except.error err => (err, s)
      | Except.ok (curr, prev) =>
        if prev ≠ 0 ∧ s.blkExists (nilfs_cpfile_get_blkoff s prev) = false then (enoent, s)
        else
          let s1 := setSslPrev s curr cno
          let s2 := setCp s1 cno
            { s1.cp cno with ssl_next := curr, ssl_prev := prev, cp_snapshot := true }
          let s3 := setSslNext s2 prev cno
          (0, { s3 with header := { s3.header with
                  ch_nsnapshots := u64add s3.header.ch_nsnapshots 1 } })

/-! ### nilfs_cpfile_clear_snapshot -/

/-- `nilfs_cpfile_clear_snapshot`: demote a snapshot back to a plain
checkpoint, unlinking it in the order: next's `ssl_prev`, prev's `ssl_next`,
the entry itself, the header count. -/
def nilfs_cpfile_clear_snapshot (s : CpfileState) (cno : Nat) : Int × CpfileState :=
  if cno = 0 then (enoent, s)
  else if s.blkExists 0 = false then (eio, logged s)
  else if s.blkExists (nilfs_cpfile_get_blkoff s cno) = false then (enoent, s)
  else
    let e := s.cp cno
    if e.cp_invalid then (enoent, s)
    else if e.cp_snapshot = false then (0, s)
    else
      let next := e.ssl_next
      let prev := e.ssl_prev
      if next ≠ 0 ∧ s.blkExists (nilfs_cpfile_get_blkoff s next) = false then (enoent, s)
      else if prev ≠ 0 ∧ s.blkExists (nilfs_cpfile_get_blkoff s prev) = false then (enoent, s)
      else
        let s1 := setSslPrev s next prev
        let s2 := setSslNext s1 prev next
        let s3 := setCp s2 cno
          { s2.cp cno with ssl_next := 0, ssl_prev := 0, cp_snapshot := false }
        (0, { s3 with header := { s3.header with
                ch_nsnapshots := u64sub s3.header.ch_nsnapshots 1 } })

/-! ### Specification-side predicates -/

/-- Pairwise linkage of the snapshot list: from node `p` (0 = header), each
listed node is reached by `ssl_next` and points back with `ssl_prev`. -/
def linkedB (s : CpfileState) : Nat → List Nat → Bool
  | _, [] => true
  | p, c :: l => (sslNextOf s p == c) && (sslPrevOf s c == p) && linkedB s c l

/-- The snapshot list of the state is exactly `l`: pairwise linked from the
header, the last node's `ssl_next` is 0, and the header's `ssl_prev` closes
the cycle back to the last node. -/
def chainB (s : CpfileState) (l : List Nat) : Bool :=
  linkedB s 0 l && (sslNextOf s (l.getLastD 0) == 0) && (sslPrevOf s 0 == l.getLastD 0)

/-- Strictly ascending with strict lower bound `p`. -/
def strictSortedB : Nat → List Nat → Bool
  | _, [] => true
  | p, c :: l => decide (p < c) && strictSortedB c l

/-- Well-formed snapshot list `l`: the chain is exactly `l`, strictly
ascending and positive, and every member is a valid snapshot entry whose
block exists. -/
def snapListOkB (s : CpfileState) (l : List Nat) : Bool :=
  chainB s l && strictSortedB 0 l &&
  l.all fun c =>
    !(s.cp c).cp_invalid && (s.cp c).cp_snapshot &&
    s.blkExists (nilfs_cpfile_get_blkoff s c)

/-- Ordered insertion into a sorted list of checkpoint numbers. -/
def snapInsert (cno : Nat) : List Nat → List Nat
  | [] => [cno]
  | c :: l => if c < cno then c :: snapInsert cno l else cno :: c :: l

/-- Count the `c ∈ [a, a + n)` satisfying `p`. -/
def countInRange (p : Nat → Bool) : Nat → Nat → Nat
  | _, 0 => 0
  | a, n + 1 => (if p a then 1 else 0) + countInRange p (a + 1) n

/-- Number of valid non-snapshot entries in `[a, e)` lying on existing
blocks — exactly what one call to the range delete removes. -/
def countValidNonSnap (s : CpfileState) (a e : Nat) : Nat :=
  countInRange
    (fun c => s.blkExists (nilfs_cpfile_get_blkoff s c) &&
      !(s.cp c).cp_invalid && !(s.cp c).cp_snapshot) a (e - a)

/-- Number of snapshot-flagged entries in `[a, e)` lying on existing blocks —
exactly what the range delete counts into `nss`. -/
def countSnapIn (s : CpfileState) (a e : Nat) : Nat :=
  countInRange
    (fun c => s.blkExists (nilfs_cpfile_get_blkoff s c) && (s.cp c).cp_snapshot)
    a (e - a)

/-- Number of valid entries among the `E` slots of block `b` (for `b ≥ 1`,
with `F = 1`, the slots are the checkpoint numbers `[E·b, E·b + E)`). -/
def validCount (s : CpfileState) (b : Nat) : Nat :=
  countInRange (fun c => !(s.cp c).cp_invalid) (s.E * b) s.E

/-- A checkpoint record with its per-block census word masked out: the
"entry data" of the spec's data model, where `checkpoints_count` is block
metadata rather than entry content. -/
def cpData (e : Checkpoint) : Checkpoint := { e with cp_checkpoints_count := 0 }

/-- A checkpoint record with both its census word and its INVALID bit masked
out: everything the range-delete loop can never touch. -/
def cpRest (e : Checkpoint) : Checkpoint :=
  { e with cp_invalid := false, cp_checkpoints_count := 0 }

/-- Per-block contribution of one range delete over `[a, e)` to block `b`:
the valid non-snapshot entries in the intersection of the range with the
block (`F = 1` layout). -/
def nicsOf (s : CpfileState) (a e b : Nat) : Nat :=
  countValidNonSnap s (max a (s.E * b)) (min e (s.E * b + s.E))

/-! ### Concrete states used by witnesses and counterexamples -/

/-- An entirely-invalid entry map. -/
def allInvalid : Nat → Checkpoint := fun _ => { Checkpoint.zero with cp_invalid := true }

/-- A state whose only valid checkpoint is `1` and whose MDT counter is `1`:
the `cno = nextCno` edge of `nilfs_cpfile_read_checkpoint`. -/
def wsReadEdge : CpfileState :=
  { E := 4, F := 1, nextCno := 1,
    header := ⟨1, 0, 0, 0⟩,
    blkExists := fun b => b == 0,
    cp := fun c => if c == 1 then { Checkpoint.zero with cp_cno := 1 } else allInvalid c,
    log := 0 }

def wRoot : NilfsRoot := ⟨0, 0, 0⟩

/-- A state with two plain checkpoints and an empty snapshot list. -/
def wsEmptyList : CpfileState :=
  { E := 4, F := 1, nextCno := 3,
    header := ⟨2, 0, 0, 0⟩,
    blkExists := fun b => b == 0,
    cp := fun c => if c == 1 || c == 2 then { Checkpoint.zero with cp_cno := c } else allInvalid c,
    log := 0 }

/-- A fresh cpfile: header block only, no checkpoints, `nextCno = 2`. -/
def wsFresh : CpfileState :=
  { E := 4, F := 1, nextCno := 2,
    header := ⟨0, 0, 0, 0⟩,
    blkExists := fun b => b == 0,
    cp := allInvalid,
    log := 0 }

/-- `wsFresh` after `create_checkpoint(1)`: a valid entry whose stored
`cp_cno` is still 0 because it was never finalized. -/
def wsCreated : CpfileState := (nilfs_cpfile_create_checkpoint wsFresh 1).2

/-- Snapshots `{2}`, plain checkpoints `1` and `3`; used to exercise the
snapshot-list insertion and the set/clear round trip. -/
def wsSnapOne : CpfileState :=
  { E := 4, F := 1, nextCno := 5,
    header := ⟨4, 1, 2, 2⟩,
    blkExists := fun b => b == 0 || b == 1,
    cp := fun c =>
      if c == 2 then { Checkpoint.zero with cp_snapshot := true, cp_cno := 2 }
      else if c == 1 || c == 3 then { Checkpoint.zero with cp_cno := c }
      else allInvalid c,
    log := 0 }

/-- The spec's range-delete scenario: snapshots `{7}`, plain `{5, 6, 8, 9}`,
`E = 4`, so block 1 holds `{4..7}` and block 2 holds `{8..11}`; the census
words (slots 4 and 8) match the valid counts of their blocks. -/
def wsRangeDel : CpfileState :=
  { E := 4, F := 1, nextCno := 10,
    header := ⟨5, 1, 7, 7⟩,
    blkExists := fun b => b == 0 || b == 1 || b == 2,
    cp := fun c =>
      if c == 5 || c == 6 || c == 9 then { Checkpoint.zero with cp_cno := c }
      else if c == 7 then { Checkpoint.zero with cp_snapshot := true, cp_cno := 7 }
      else if c == 4 then { Checkpoint.zero with cp_invalid := true, cp_checkpoints_count := 3 }
      else if c == 8 then { Checkpoint.zero with cp_cno := 8, cp_checkpoints_count := 2 }
      else allInvalid c,
    log := 0 }

/-- The effect of the delete loop over the checkpoint range `[a, e)`:
aggregates and parameters untouched, INVALID set exactly on the valid
non-snapshot entries of existing blocks in the range, every other entry field
preserved, per-block census words decremented by the per-block delete count,
and blocks whose census word reaches zero deleted. -/
def LoopShape (s s' : CpfileState) (a e : Nat) : Prop :=
  s'.E = s.E ∧ s'.F = s.F ∧ s'.header = s.header ∧ s'.nextCno = s.nextCno ∧ s'.log = s.log ∧
  (∀ c, (s'.cp c).cp_invalid =
      ((s.cp c).cp_invalid ||
        (decide (a ≤ c) && decide (c < e) &&
          s.blkExists (nilfs_cpfile_get_blkoff s c) && !(s.cp c).cp_snapshot))) ∧
  (∀ c, cpRest (s'.cp c) = cpRest (s.cp c)) ∧
  (∀ c, (∀ b, 1 ≤ b → c ≠ s.E * b) →
      (s'.cp c).cp_checkpoints_count = (s.cp c).cp_checkpoints_count) ∧
  (∀ b, 1 ≤ b → (s'.cp (s.E * b)).cp_checkpoints_count =
      (if s.blkExists b = true ∧ 0 < nicsOf s a e b
       then u32sub (s.cp (s.E * b)).cp_checkpoints_count (nicsOf s a e b)
       else (s.cp (s.E * b)).cp_checkpoints_count)) ∧
  (∀ b, s'.blkExists b =
      (if 1 ≤ b ∧ s.blkExists b = true ∧ 0 < nicsOf s a e b ∧
          u32sub (s.cp (s.E * b)).cp_checkpoints_count (nicsOf s a e b) = 0
       then false else s.blkExists b))

/-- The success-path state transform of `nilfs_cpfile_set_snapshot`, with the
walk result `(curr, prev_)` made explicit: curr's `ssl_prev`, the entry
itself, prev's `ssl_next`, the header count, in source order. -/
def snapInsertState (s : CpfileState) (cno curr prev_ : Nat) : CpfileState :=
  let s1 := setSslPrev s curr cno
  let s2 := setCp s1 cno
    { s1.cp cno with ssl_next := curr, ssl_prev := prev_, cp_snapshot := true }
  let s3 := setSslNext s2 prev_ cno
  { s3 with header := { s3.header with
      ch_nsnapshots := u64add s3.header.ch_nsnapshots 1 } }

/-- The success-path state transform of `nilfs_cpfile_clear_snapshot`, with
the entry's stored neighbours `(next, prev_)` made explicit: next's
`ssl_prev`, prev's `ssl_next`, the entry itself, the header count, in source
order. -/
def snapRemoveState (s : CpfileState) (cno next prev_ : Nat) : CpfileState :=
  let s1 := setSslPrev s next prev_
  let s2 := setSslNext s1 prev_ next
  let s3 := setCp s2 cno
    { s2.cp cno with ssl_next := 0, ssl_prev := 0, cp_snapshot := false }
  { s3 with header := { s3.header with
      ch_nsnapshots := u64sub s3.header.ch_nsnapshots 1 } }

/-- Backward-pointer chain: from each listed node, `ssl_prev` reaches the next
listed node, the last one reaching `stop`. -/
def prevSeqB (s : CpfileState) (stop : Nat) : List Nat → Bool
  | [] => true
  | v :: m => ((s.cp v).ssl_prev == m.headD stop) && prevSeqB s stop m

/-! ### Theorems -/

/-! #### Small facts about the state helpers -/

theorem setCp_E (s : CpfileState) (c : Nat) (e : Checkpoint) : (setCp s c e).E = s.E := rfl

theorem setCp_F (s : CpfileState) (c : Nat) (e : Checkpoint) : (setCp s c e).F = s.F := rfl

theorem setCp_blkExists (s : CpfileState) (c : Nat) (e : Checkpoint) :
    (setCp s c e).blkExists = s.blkExists := rfl

theorem setCp_header (s : CpfileState) (c : Nat) (e : Checkpoint) :
    (setCp s c e).header = s.header := rfl

theorem setCp_cp (s : CpfileState) (c : Nat) (e : Checkpoint) (d : Nat) :
    (setCp s c e).cp d = if d = c then e else s.cp d := rfl

theorem get_blkoff_setCp (s : CpfileState) (c : Nat) (e : Checkpoint) (x : Nat) :
    nilfs_cpfile_get_blkoff (setCp s c e) x = nilfs_cpfile_get_blkoff s x := rfl

/-- Claim C9: `create_checkpoint` called with `cno = 0` returns `-EIO` and
leaves the whole cpfile state (blocks, entries, header, diagnostics count)
unchanged; the failure happens before any block is read. -/
theorem create_checkpoint_cno_zero (s : CpfileState) :
    nilfs_cpfile_create_checkpoint s 0 = (eio, s) := by
  simp [nilfs_cpfile_create_checkpoint]

theorem setCp_nextCno (s : CpfileState) (c : Nat) (e : Checkpoint) :
    (setCp s c e).nextCno = s.nextCno := rfl

theorem setCp_log (s : CpfileState) (c : Nat) (e : Checkpoint) : (setCp s c e).log = s.log := rfl

theorem setCp_cp_same (s : CpfileState) (c : Nat) (e : Checkpoint) : (setCp s c e).cp c = e := by
  simp [setCp]

theorem setCp_cp_ne (s : CpfileState) (c : Nat) (e : Checkpoint) (d : Nat) (h : d ≠ c) :
    (setCp s c e).cp d = s.cp d := by simp [setCp, h]

theorem allocBlock_E (s : CpfileState) (b : Nat) : (allocBlock s b).E = s.E := rfl

theorem allocBlock_F (s : CpfileState) (b : Nat) : (allocBlock s b).F = s.F := rfl

theorem allocBlock_header (s : CpfileState) (b : Nat) : (allocBlock s b).header = s.header := rfl

theorem allocBlock_blkExists (s : CpfileState) (b d : Nat) :
    (allocBlock s b).blkExists d = if d = b then true else s.blkExists d := rfl

theorem allocBlock_cp (s : CpfileState) (b d : Nat) :
    (allocBlock s b).cp d =
      if nilfs_cpfile_get_blkoff s d = b then { Checkpoint.zero with cp_invalid := true }
      else s.cp d := rfl

theorem get_blkoff_allocBlock (s : CpfileState) (b x : Nat) :
    nilfs_cpfile_get_blkoff (allocBlock s b) x = nilfs_cpfile_get_blkoff s x := rfl

theorem first_in_block_setCp (s : CpfileState) (c : Nat) (e : Checkpoint) (b : Nat) :
    nilfs_cpfile_first_checkpoint_in_block (setCp s c e) b
      = nilfs_cpfile_first_checkpoint_in_block s b := rfl

theorem first_in_block_allocBlock (s : CpfileState) (b' b : Nat) :
    nilfs_cpfile_first_checkpoint_in_block (allocBlock s b') b
      = nilfs_cpfile_first_checkpoint_in_block s b := rfl

theorem is_in_first_setCp (s : CpfileState) (c : Nat) (e : Checkpoint) (x : Nat) :
    nilfs_cpfile_is_in_first (setCp s c e) x = nilfs_cpfile_is_in_first s x := rfl

theorem is_in_first_allocBlock (s : CpfileState) (b x : Nat) :
    nilfs_cpfile_is_in_first (allocBlock s b) x = nilfs_cpfile_is_in_first s x := rfl

theorem addValid_fst (s : CpfileState) (b n : Nat) :
    (nilfs_cpfile_block_add_valid_checkpoints s b n).1 =
      setCp s (nilfs_cpfile_first_checkpoint_in_block s b)
        { s.cp (nilfs_cpfile_first_checkpoint_in_block s b) with
          cp_checkpoints_count :=
            u32add (s.cp (nilfs_cpfile_first_checkpoint_in_block s b)).cp_checkpoints_count n } := rfl

theorem subValid_fst (s : CpfileState) (b n : Nat) :
    (nilfs_cpfile_block_sub_valid_checkpoints s b n).1 =
      setCp s (nilfs_cpfile_first_checkpoint_in_block s b)
        { s.cp (nilfs_cpfile_first_checkpoint_in_block s b) with
          cp_checkpoints_count :=
            u32sub (s.cp (nilfs_cpfile_first_checkpoint_in_block s b)).cp_checkpoints_count n } := rfl

theorem subValid_snd (s : CpfileState) (b n : Nat) :
    (nilfs_cpfile_block_sub_valid_checkpoints s b n).2 =
      u32sub (s.cp (nilfs_cpfile_first_checkpoint_in_block s b)).cp_checkpoints_count n := rfl

theorem setCp_cp_invalid_census (s : CpfileState) (c : Nat) (v : Nat) (d : Nat) :
    ((setCp s c { s.cp c with cp_checkpoints_count := v }).cp d).cp_invalid
      = (s.cp d).cp_invalid := by
  by_cases h : d = c
  · subst h; rw [setCp_cp_same]
  · rw [setCp_cp_ne s c _ d h]

/-- Postcondition of a successful `create_checkpoint`: the call succeeds and
afterwards the header block and the target block exist and the entry is
valid.  (In the error-free MDT model the only failure modes are `cno = 0` and
a missing header block, both excluded here.) -/
theorem create_checkpoint_post (s : CpfileState) (cno : Nat) (hc : 1 ≤ cno)
    (hh : s.blkExists 0 = true) :
    (nilfs_cpfile_create_checkpoint s cno).1 = 0 ∧
    ((nilfs_cpfile_create_checkpoint s cno).2).E = s.E ∧
    ((nilfs_cpfile_create_checkpoint s cno).2).F = s.F ∧
    ((nilfs_cpfile_create_checkpoint s cno).2).blkExists 0 = true ∧
    ((nilfs_cpfile_create_checkpoint s cno).2).blkExists (nilfs_cpfile_get_blkoff s cno) = true ∧
    (((nilfs_cpfile_create_checkpoint s cno).2).cp cno).cp_invalid = false := by
  have hcc : ¬ cno < 1 := by omega
  by_cases hb : s.blkExists (nilfs_cpfile_get_blkoff s cno) = true
  · by_cases hi : (s.cp cno).cp_invalid = true
    · simp only [nilfs_cpfile_create_checkpoint, hcc, hh, hb, hi, if_false, if_true,
        ite_true, ite_false, Bool.true_eq_false, is_in_first_setCp, addValid_fst,
        get_blkoff_setCp, first_in_block_setCp, setCp_E, setCp_F, setCp_blkExists,
        setCp_cp_invalid_census, setCp_cp_same]
      split <;> simp [setCp_E, setCp_F, setCp_cp_same, setCp_cp_invalid_census, setCp_blkExists, hh, hb]
    · have hi' : (s.cp cno).cp_invalid = false := by revert hi; cases (s.cp cno).cp_invalid <;> simp
      simp [nilfs_cpfile_create_checkpoint, hcc, hh, hb, hi']
  · have hb' : s.blkExists (nilfs_cpfile_get_blkoff s cno) = false := by
      revert hb; cases s.blkExists (nilfs_cpfile_get_blkoff s cno) <;> simp
    simp only [nilfs_cpfile_create_checkpoint, hcc, hh, hb', if_false, if_true,
      ite_true, ite_false, Bool.true_eq_false, Bool.false_eq_true, allocBlock_cp,
      eq_self_iff_true, is_in_first_setCp, is_in_first_allocBlock, addValid_fst,
      get_blkoff_setCp, get_blkoff_allocBlock, first_in_block_setCp, first_in_block_allocBlock,
      setCp_E, setCp_F, setCp_blkExists, allocBlock_E, allocBlock_F, allocBlock_blkExists,
      setCp_cp_invalid_census, setCp_cp_same]
    split <;>
      simp [setCp_E, setCp_F, allocBlock_E, allocBlock_F, setCp_cp_same,
        setCp_cp_invalid_census, setCp_blkExists, allocBlock_blkExists, hh]

/-- Claim C6: `create_checkpoint` is idempotent.  With the header block
present and `cno ≥ 1`, the first call returns success, and a second call
returns success and leaves the whole state — entry fields, header
`ncheckpoints`, everything — exactly as the first call left it (the second
call finds the entry already valid and only re-marks buffers dirty). -/
theorem create_checkpoint_idempotent (s : CpfileState) (cno : Nat) (hc : 1 ≤ cno)
    (hh : s.blkExists 0 = true) :
    (nilfs_cpfile_create_checkpoint s cno).1 = 0 ∧
    nilfs_cpfile_create_checkpoint (nilfs_cpfile_create_checkpoint s cno).2 cno
      = (0, (nilfs_cpfile_create_checkpoint s cno).2) := by
  obtain ⟨h0, hE, hF, hh', hb', hv⟩ := create_checkpoint_post s cno hc hh
  refine ⟨h0, ?_⟩
  have hcc : ¬ cno < 1 := by omega
  have hb2 : ((nilfs_cpfile_create_checkpoint s cno).2).blkExists
      (nilfs_cpfile_get_blkoff (nilfs_cpfile_create_checkpoint s cno).2 cno) = true := by
    have hq : nilfs_cpfile_get_blkoff (nilfs_cpfile_create_checkpoint s cno).2 cno
        = nilfs_cpfile_get_blkoff s cno := by
      unfold nilfs_cpfile_get_blkoff; rw [hE, hF]
    rw [hq]; exact hb'
  set t := (nilfs_cpfile_create_checkpoint s cno).2 with ht
  simp [nilfs_cpfile_create_checkpoint, hcc, hh', hb2, hv]

/-- Witness for `create_checkpoint_idempotent` at a fresh cpfile and cno 1. -/
theorem create_checkpoint_idempotent_witness :
    (nilfs_cpfile_create_checkpoint wsFresh 1).1 = 0 ∧
    nilfs_cpfile_create_checkpoint (nilfs_cpfile_create_checkpoint wsFresh 1).2 1
      = (0, (nilfs_cpfile_create_checkpoint wsFresh 1).2) :=
  create_checkpoint_idempotent wsFresh 1 (by decide) (by decide)

/-- Claim C8: for `cno ≥ 1`, `finalize_checkpoint` escalates absence to
corruption — a hole at the entry's block or an INVALID entry yields `-EIO`
with exactly one logged metadata-corruption diagnostic and no other state
change; otherwise it returns 0, zeroes both snapshot-list pointers, copies
`inodes_count`/`blocks_count` from the root, sets `nblk_inc`, the creation
time and `cp_cno`, sets or clears MINOR per the argument, and leaves every
other entry, the header and the block map untouched. -/
theorem finalize_checkpoint_spec (s : CpfileState) (cno : Nat) (root : NilfsRoot)
    (blkinc ctime : Nat) (minor : Bool) (hc : 1 ≤ cno) :
    ((s.blkExists (nilfs_cpfile_get_blkoff s cno) = false ∨ (s.cp cno).cp_invalid = true) →
        nilfs_cpfile_finalize_checkpoint s cno root blkinc ctime minor = (eio, logged s)) ∧
    (s.blkExists (nilfs_cpfile_get_blkoff s cno) = true → (s.cp cno).cp_invalid = false →
        (nilfs_cpfile_finalize_checkpoint s cno root blkinc ctime minor).1 = 0 ∧
        (((nilfs_cpfile_finalize_checkpoint s cno root blkinc ctime minor).2).cp cno).ssl_next = 0 ∧
        (((nilfs_cpfile_finalize_checkpoint s cno root blkinc ctime minor).2).cp cno).ssl_prev = 0 ∧
        (((nilfs_cpfile_finalize_checkpoint s cno root blkinc ctime minor).2).cp cno).cp_inodes_count
          = root.inodes_count ∧
        (((nilfs_cpfile_finalize_checkpoint s cno root blkinc ctime minor).2).cp cno).cp_blocks_count
          = root.blocks_count ∧
        (((nilfs_cpfile_finalize_checkpoint s cno root blkinc ctime minor).2).cp cno).cp_nblk_inc
          = blkinc ∧
        (((nilfs_cpfile_finalize_checkpoint s cno root blkinc ctime minor).2).cp cno).cp_create
          = ctime ∧
        (((nilfs_cpfile_finalize_checkpoint s cno root blkinc ctime minor).2).cp cno).cp_cno = cno ∧
        (((nilfs_cpfile_finalize_checkpoint s cno root blkinc ctime minor).2).cp cno).cp_minor
          = minor ∧
        (∀ d, d ≠ cno →
          ((nilfs_cpfile_finalize_checkpoint s cno root blkinc ctime minor).2).cp d = s.cp d) ∧
        ((nilfs_cpfile_finalize_checkpoint s cno root blkinc ctime minor).2).header = s.header ∧
        ((nilfs_cpfile_finalize_checkpoint s cno root blkinc ctime minor).2).blkExists
          = s.blkExists ∧
        ((nilfs_cpfile_finalize_checkpoint s cno root blkinc ctime minor).2).log = s.log) := by
  have hcc : ¬ cno < 1 := by omega
  constructor
  · rintro (hb | hi)
    · simp [nilfs_cpfile_finalize_checkpoint, hcc, hb]
    · by_cases hb : s.blkExists (nilfs_cpfile_get_blkoff s cno) = true
      · simp [nilfs_cpfile_finalize_checkpoint, hcc, hb, hi]
      · have hb' : s.blkExists (nilfs_cpfile_get_blkoff s cno) = false := by
          revert hb; cases s.blkExists (nilfs_cpfile_get_blkoff s cno) <;> simp
        simp [nilfs_cpfile_finalize_checkpoint, hcc, hb', hi]
  · intro hb hi
    simp only [nilfs_cpfile_finalize_checkpoint, hcc, hb, hi, if_false, if_true,
      ite_true, ite_false, Bool.true_eq_false, Bool.false_eq_true, setCp_header,
      setCp_blkExists, setCp_log, setCp_cp_same, ne_eq, true_and, and_true]
    intro d hd
    rw [setCp_cp_ne _ _ _ _ hd]

/-- Witness for `finalize_checkpoint_spec`: the corruption case on a fresh
cpfile (entry 1 INVALID) and the success case on a created entry. -/
theorem finalize_checkpoint_spec_witness :
    nilfs_cpfile_finalize_checkpoint wsFresh 1 wRoot 3 9 false = (eio, logged wsFresh) ∧
    (nilfs_cpfile_finalize_checkpoint wsCreated 1 wRoot 3 9 true).1 = 0 ∧
    (((nilfs_cpfile_finalize_checkpoint wsCreated 1 wRoot 3 9 true).2).cp 1).cp_cno = 1 :=
  ⟨(finalize_checkpoint_spec wsFresh 1 wRoot 3 9 false (by decide)).1 (Or.inr (by decide)),
   ((finalize_checkpoint_spec wsCreated 1 wRoot 3 9 true (by decide)).2 (by decide) (by decide)).1,
   ((finalize_checkpoint_spec wsCreated 1 wRoot 3 9 true (by decide)).2 (by decide)
      (by decide)).2.2.2.2.2.2.2.1⟩

/-- Counterexample to claim C1 as stated: the code validates
`cno > next_cno`, not `cno ≥ next_cno`.  In a state with `next_cno = 1` and a
valid entry 1, `read_checkpoint(1)` — where `cno = next_cno` — returns 0,
not `-EINVAL`. -/
theorem read_checkpoint_range_counterexample :
    wsReadEdge.nextCno ≤ 1 ∧
    (nilfs_cpfile_read_checkpoint wsReadEdge 1 wRoot 7).1 ≠ einval ∧
    (nilfs_cpfile_read_checkpoint wsReadEdge 1 wRoot 7).1 = 0 := by decide

/-- Claim C1, amended: `read_checkpoint` validates `1 ≤ cno ≤ next_cno`
(the code rejects only `cno = 0` and `cno > next_cno`): those return
`-EINVAL` without modifying the root object, and so do a hole at the
addressed block and an INVALID entry. -/
theorem read_checkpoint_validates_range (s : CpfileState) (cno : Nat) (root : NilfsRoot)
    (ifile : Nat) :
    (cno = 0 ∨ s.nextCno < cno →
        nilfs_cpfile_read_checkpoint s cno root ifile = (einval, root)) ∧
    (s.blkExists (nilfs_cpfile_get_blkoff s cno) = false →
        nilfs_cpfile_read_checkpoint s cno root ifile = (einval, root)) ∧
    ((s.cp cno).cp_invalid = true →
        nilfs_cpfile_read_checkpoint s cno root ifile = (einval, root)) := by
  refine ⟨?_, ?_, ?_⟩
  · intro h
    have hc : cno < 1 ∨ s.nextCno < cno := by omega
    unfold nilfs_cpfile_read_checkpoint
    rw [if_pos hc]
  · intro hb
    unfold nilfs_cpfile_read_checkpoint
    split <;> simp [hb]
  · intro hi
    unfold nilfs_cpfile_read_checkpoint
    split <;> simp [hi]

/-- Witness for `read_checkpoint_validates_range`: cno 0, cno beyond
`next_cno`, and a hole block. -/
theorem read_checkpoint_validates_range_witness :
    nilfs_cpfile_read_checkpoint wsReadEdge 0 wRoot 7 = (einval, wRoot) ∧
    nilfs_cpfile_read_checkpoint wsReadEdge 2 wRoot 7 = (einval, wRoot) ∧
    nilfs_cpfile_read_checkpoint wsReadEdge 5 wRoot 7 = (einval, wRoot) :=
  ⟨(read_checkpoint_validates_range wsReadEdge 0 wRoot 7).1 (Or.inl rfl),
   (read_checkpoint_validates_range wsReadEdge 2 wRoot 7).1 (Or.inr (by decide)),
   (read_checkpoint_validates_range wsReadEdge 5 wRoot 7).2.1 (by decide)⟩

/-- Counterexample to claim C4 as stated: SNAPSHOT-mode `get_cpinfo` with
`*cno = 0` on an empty snapshot list returns 0 (no records), not
`-ENOENT`. -/
theorem get_cpinfo_empty_list_counterexample :
    wsEmptyList.header.ssl_next = 0 ∧
    (nilfs_cpfile_get_cpinfo wsEmptyList 0 NILFS_SNAPSHOT 5).1 ≠ enoent ∧
    (nilfs_cpfile_get_cpinfo wsEmptyList 0 NILFS_SNAPSHOT 5).1 = 0 := by decide

/-- Claim C4, amended: SNAPSHOT-mode `get_cpinfo` with `*cno = 0` and an
empty snapshot list (header sentinel's `ssl_next = 0`) returns 0 with no
records emitted and `*cno` unchanged. -/
theorem get_cpinfo_empty_snapshot_list (s : CpfileState) (nci : Nat)
    (hh : s.blkExists 0 = true) (he : s.header.ssl_next = 0) :
    nilfs_cpfile_get_cpinfo s 0 NILFS_SNAPSHOT nci = (0, 0, []) := by
  simp [nilfs_cpfile_get_cpinfo, NILFS_SNAPSHOT, NILFS_CHECKPOINT,
        nilfs_cpfile_do_get_ssinfo, hh, he]

/-- Witness for `get_cpinfo_empty_snapshot_list`. -/
theorem get_cpinfo_empty_snapshot_list_witness :
    nilfs_cpfile_get_cpinfo wsEmptyList 0 NILFS_SNAPSHOT 5 = (0, 0, []) :=
  get_cpinfo_empty_snapshot_list wsEmptyList 5 (by decide) (by decide)

/-- Claim C10: the single delete keys on the stored `cp_cno` field.  When
the probe through the enumeration path finds a first valid entry at or after
`cno` whose stored `cp_cno` differs from `cno`, `delete_checkpoint` returns
`-ENOENT` and changes nothing. -/
theorem delete_checkpoint_stored_cno_mismatch (s : CpfileState) (cno : Nat)
    (h1 : (nilfs_cpfile_do_get_cpinfo s cno 1).1 = 1)
    (h2 : ((nilfs_cpfile_do_get_cpinfo s cno 1).2.2.headD cpinfoDefault).ci_cno ≠ cno) :
    nilfs_cpfile_delete_checkpoint s cno = (enoent, s) := by
  simp only [List.headD_eq_head?] at h2
  simp [nilfs_cpfile_delete_checkpoint, h1, h2]

/-- Witness for `delete_checkpoint_stored_cno_mismatch`: an entry created
but never finalized keeps `cp_cno = 0`, so it cannot be removed through the
single-delete path. -/
theorem delete_checkpoint_stored_cno_mismatch_witness :
    (nilfs_cpfile_do_get_cpinfo wsCreated 1 1).1 = 1 ∧
    ((nilfs_cpfile_do_get_cpinfo wsCreated 1 1).2.2.headD cpinfoDefault).ci_cno = 0 ∧
    nilfs_cpfile_delete_checkpoint wsCreated 1 = (enoent, wsCreated) :=
  ⟨by decide, by decide,
   delete_checkpoint_stored_cno_mismatch wsCreated 1 (by decide) (by decide)⟩

/-! ### The range-delete loop: counting lemmas and the loop effect -/

/-! Counting helpers -/

theorem countInRange_congr (p q : Nat → Bool) : ∀ (n a : Nat),
    (∀ c, a ≤ c → c < a + n → p c = q c) →
    countInRange p a n = countInRange q a n
  | 0, _, _ => rfl
  | n + 1, a, h => by
    rw [countInRange, countInRange, h a (Nat.le_refl a) (by omega),
        countInRange_congr p q n (a + 1) (fun c h1 h2 => h c (by omega) (by omega))]

theorem countInRange_split (p : Nat → Bool) : ∀ (m : Nat) (a n : Nat),
    countInRange p a (m + n) = countInRange p a m + countInRange p (a + m) n
  | 0, a, n => by simp [countInRange]
  | m + 1, a, n => by
    have h1 : m + 1 + n = (m + n) + 1 := by omega
    rw [h1, countInRange, countInRange, countInRange_split p m (a + 1) n]
    have h2 : a + 1 + m = a + (m + 1) := by omega
    rw [h2]; omega

theorem countInRange_false (p : Nat → Bool) : ∀ (n a : Nat),
    (∀ c, a ≤ c → c < a + n → p c = false) → countInRange p a n = 0
  | 0, _, _ => rfl
  | n + 1, a, h => by
    rw [countInRange, h a (Nat.le_refl a) (by omega),
        countInRange_false p n (a + 1) (fun c h1 h2 => h c (by omega) (by omega))]
    rfl

theorem countInRange_pos (p : Nat → Bool) : ∀ (n a c : Nat),
    a ≤ c → c < a + n → p c = true → 0 < countInRange p a n
  | 0, a, c, h1, h2, _ => by omega
  | n + 1, a, c, h1, h2, h3 => by
    rw [countInRange]
    by_cases hac : c = a
    · subst hac; simp [h3]
    · have := countInRange_pos p n (a + 1) c (by omega) (by omega) h3
      omega

theorem countInRange_le (p : Nat → Bool) : ∀ (n a : Nat), countInRange p a n ≤ n
  | 0, _ => Nat.le_refl 0
  | n + 1, a => by
    rw [countInRange]
    have := countInRange_le p n (a + 1)
    split <;> omega

/-- Splitting a count along a second predicate. -/
theorem countInRange_add_pred (p q : Nat → Bool) : ∀ (n a : Nat),
    countInRange p a n
      = countInRange (fun c => p c && q c) a n + countInRange (fun c => p c && !q c) a n
  | 0, _ => rfl
  | n + 1, a => by
    rw [countInRange, countInRange, countInRange, countInRange_add_pred p q n (a + 1)]
    cases hp : p a <;> cases hq : q a <;> simp <;> omega

/-! Chunk arithmetic (plain `Nat` forms) -/

theorem chunk_pos (E cno end_ : Nat) (hE : 1 ≤ E) (h : cno < end_) :
    1 ≤ min (E - cno % E) (end_ - cno) := by
  have h1 : cno % E < E := Nat.mod_lt cno (by omega)
  omega

theorem chunk_same_block (E cno i : Nat) (hE : 1 ≤ E) (hi : i < E - cno % E) :
    (cno + i) / E = cno / E := by
  have h1 : cno % E < E := Nat.mod_lt cno (by omega)
  have h2 : E * (cno / E) + cno % E = cno := Nat.div_add_mod cno E
  have hlo : cno / E ≤ (cno + i) / E := Nat.div_le_div_right (by omega)
  have hup : (cno + i) / E < cno / E + 1 := by
    rw [Nat.div_lt_iff_lt_mul (by omega)]
    have h4 : (cno / E + 1) * E = E * (cno / E) + E := by ring
    omega
  omega

theorem chunk_end (E cno : Nat) (hE : 1 ≤ E) :
    cno + (E - cno % E) = E * (cno / E) + E := by
  have h1 : cno % E < E := Nat.mod_lt cno (by omega)
  have h2 : E * (cno / E) + cno % E = cno := Nat.div_add_mod cno E
  omega

theorem block_start_le (E cno : Nat) : E * (cno / E) ≤ cno := by
  have h2 := Nat.div_add_mod cno E
  omega

/-! markRange characterization -/

theorem markRange_meta : ∀ (n : Nat) (s : CpfileState) (cno : Nat),
    ((markRange s cno n).1).E = s.E ∧ ((markRange s cno n).1).F = s.F ∧
    ((markRange s cno n).1).blkExists = s.blkExists ∧
    ((markRange s cno n).1).header = s.header ∧
    ((markRange s cno n).1).nextCno = s.nextCno ∧
    ((markRange s cno n).1).log = s.log
  | 0, s, cno => ⟨rfl, rfl, rfl, rfl, rfl, rfl⟩
  | n + 1, s, cno => by
    simp only [markRange]
    split
    · exact markRange_meta n s (cno + 1)
    · split
      · have h := markRange_meta n (setCp s cno { s.cp cno with cp_invalid := true }) (cno + 1)
        simpa only [setCp_E, setCp_F, setCp_blkExists, setCp_header, setCp_nextCno,
          setCp_log] using h
      · exact markRange_meta n s (cno + 1)

theorem markRange_cp : ∀ (n : Nat) (s : CpfileState) (cno c : Nat),
    ((markRange s cno n).1).cp c =
      if cno ≤ c ∧ c < cno + n ∧ (s.cp c).cp_snapshot = false ∧ (s.cp c).cp_invalid = false
      then { s.cp c with cp_invalid := true } else s.cp c
  | 0, s, cno, c => by
    have h : ¬(cno ≤ c ∧ c < cno + 0 ∧ (s.cp c).cp_snapshot = false ∧
        (s.cp c).cp_invalid = false) := by
      rintro ⟨h1, h2, -, -⟩; omega
    rw [if_neg h]; rfl
  | n + 1, s, cno, c => by
    simp only [markRange]
    split
    case isTrue hs =>
      rw [markRange_cp n s (cno + 1) c]
      by_cases hc : c = cno
      · subst hc
        have h2 : ¬(c ≤ c ∧ c < c + (n + 1) ∧ (s.cp c).cp_snapshot = false ∧
            (s.cp c).cp_invalid = false) := by
          rintro ⟨-, -, g, -⟩; rw [hs] at g; cases g
        rw [if_neg (by rintro ⟨g, -⟩; omega), if_neg h2]
      · by_cases h1 : cno + 1 ≤ c ∧ c < cno + 1 + n ∧ (s.cp c).cp_snapshot = false ∧
            (s.cp c).cp_invalid = false
        · rw [if_pos h1, if_pos ⟨by omega, by omega, h1.2.2⟩]
        · have h2 : ¬(cno ≤ c ∧ c < cno + (n + 1) ∧ (s.cp c).cp_snapshot = false ∧
              (s.cp c).cp_invalid = false) := by
            rintro ⟨g1, g2, g3, g4⟩
            exact h1 ⟨by omega, by omega, g3, g4⟩
          rw [if_neg h1, if_neg h2]
    case isFalse hs =>
      have hs' : (s.cp cno).cp_snapshot = false := by
        revert hs; cases (s.cp cno).cp_snapshot <;> simp
      split
      case isTrue hi =>
        rw [markRange_cp n _ (cno + 1) c]
        by_cases hc : c = cno
        · subst hc
          rw [setCp_cp_same, if_neg (by rintro ⟨g, -⟩; omega),
              if_pos ⟨Nat.le_refl c, by omega, hs', hi⟩]
        · rw [setCp_cp_ne _ _ _ _ hc]
          by_cases h1 : cno + 1 ≤ c ∧ c < cno + 1 + n ∧ (s.cp c).cp_snapshot = false ∧
              (s.cp c).cp_invalid = false
          · rw [if_pos h1, if_pos ⟨by omega, by omega, h1.2.2⟩]
          · have h2 : ¬(cno ≤ c ∧ c < cno + (n + 1) ∧ (s.cp c).cp_snapshot = false ∧
                (s.cp c).cp_invalid = false) := by
              rintro ⟨g1, g2, g3, g4⟩
              exact h1 ⟨by omega, by omega, g3, g4⟩
            rw [if_neg h1, if_neg h2]
      case isFalse hi =>
        have hi' : (s.cp cno).cp_invalid = true := by
          revert hi; cases (s.cp cno).cp_invalid <;> simp
        rw [markRange_cp n s (cno + 1) c]
        by_cases hc : c = cno
        · subst hc
          have h2 : ¬(c ≤ c ∧ c < c + (n + 1) ∧ (s.cp c).cp_snapshot = false ∧
              (s.cp c).cp_invalid = false) := by
            rintro ⟨-, -, -, g⟩; rw [hi'] at g; cases g
          rw [if_neg (by rintro ⟨g, -⟩; omega), if_neg h2]
        · by_cases h1 : cno + 1 ≤ c ∧ c < cno + 1 + n ∧ (s.cp c).cp_snapshot = false ∧
              (s.cp c).cp_invalid = false
          · rw [if_pos h1, if_pos ⟨by omega, by omega, h1.2.2⟩]
          · have h2 : ¬(cno ≤ c ∧ c < cno + (n + 1) ∧ (s.cp c).cp_snapshot = false ∧
                (s.cp c).cp_invalid = false) := by
              rintro ⟨g1, g2, g3, g4⟩
              exact h1 ⟨by omega, by omega, g3, g4⟩
            rw [if_neg h1, if_neg h2]

theorem markRange_cp_invalid (n : Nat) (s : CpfileState) (cno c : Nat) :
    (((markRange s cno n).1).cp c).cp_invalid
      = ((s.cp c).cp_invalid ||
          (decide (cno ≤ c) && decide (c < cno + n) && !(s.cp c).cp_snapshot)) := by
  rw [markRange_cp]
  split
  case isTrue h => simp [h.1, h.2.1, h.2.2.1, h.2.2.2]
  case isFalse h =>
    by_cases h1 : cno ≤ c <;> by_cases h2 : c < cno + n <;>
      cases hsnap : (s.cp c).cp_snapshot <;> cases hinv : (s.cp c).cp_invalid <;>
        simp_all

theorem markRange_census (n : Nat) (s : CpfileState) (cno c : Nat) :
    (((markRange s cno n).1).cp c).cp_checkpoints_count = (s.cp c).cp_checkpoints_count := by
  rw [markRange_cp]; split <;> rfl

theorem markRange_cpRest (n : Nat) (s : CpfileState) (cno c : Nat) :
    cpRest (((markRange s cno n).1).cp c) = cpRest (s.cp c) := by
  rw [markRange_cp]; split <;> rfl

theorem markRange_cp_outside (n : Nat) (s : CpfileState) (cno c : Nat)
    (h : c < cno ∨ cno + n ≤ c) : ((markRange s cno n).1).cp c = s.cp c := by
  rw [markRange_cp, if_neg (by rintro ⟨h1, h2, -, -⟩; omega)]

theorem markRange_nicps : ∀ (n : Nat) (s : CpfileState) (cno : Nat),
    (markRange s cno n).2.1
      = countInRange (fun c => !(s.cp c).cp_invalid && !(s.cp c).cp_snapshot) cno n
  | 0, _, _ => rfl
  | n + 1, s, cno => by
    simp only [markRange]
    split
    case isTrue hs =>
      rw [countInRange, markRange_nicps n s (cno + 1)]
      simp [hs]
    case isFalse hs =>
      have hs' : (s.cp cno).cp_snapshot = false := by
        revert hs; cases (s.cp cno).cp_snapshot <;> simp
      split
      case isTrue hi =>
        rw [countInRange, markRange_nicps n _ (cno + 1)]
        rw [countInRange_congr _
          (fun c => !(s.cp c).cp_invalid && !(s.cp c).cp_snapshot) n (cno + 1)
          (fun c hc1 hc2 => by rw [setCp_cp_ne _ _ _ _ (by omega)])]
        simp [hs', hi]
        omega
      case isFalse hi =>
        have hi' : (s.cp cno).cp_invalid = true := by
          revert hi; cases (s.cp cno).cp_invalid <;> simp
        rw [countInRange, markRange_nicps n s (cno + 1)]
        simp [hi']

theorem markRange_nss : ∀ (n : Nat) (s : CpfileState) (cno : Nat),
    (markRange s cno n).2.2 = countInRange (fun c => (s.cp c).cp_snapshot) cno n
  | 0, _, _ => rfl
  | n + 1, s, cno => by
    simp only [markRange]
    split
    case isTrue hs =>
      rw [countInRange, markRange_nss n s (cno + 1)]
      simp [hs]
      omega
    case isFalse hs =>
      have hs' : (s.cp cno).cp_snapshot = false := by
        revert hs; cases (s.cp cno).cp_snapshot <;> simp
      split
      case isTrue hi =>
        rw [countInRange, markRange_nss n _ (cno + 1)]
        rw [countInRange_congr _ (fun c => (s.cp c).cp_snapshot) n (cno + 1)
          (fun c hc1 hc2 => by rw [setCp_cp_ne _ _ _ _ (by omega)])]
        simp [hs']
      case isFalse hi =>
        rw [countInRange, markRange_nss n s (cno + 1)]
        simp [hs']

/-! Layout with the cpfile parameters (`F = 1`) -/

theorem blkoff_eq (s : CpfileState) (hF : s.F = 1) (c : Nat) :
    nilfs_cpfile_get_blkoff s c = c / s.E := by
  unfold nilfs_cpfile_get_blkoff; rw [hF]; simp

theorem offset_eq (s : CpfileState) (hF : s.F = 1) (c : Nat) :
    nilfs_cpfile_get_offset s c = c % s.E := by
  unfold nilfs_cpfile_get_offset; rw [hF]; simp

theorem ciib_eq (s : CpfileState) (hF : s.F = 1) (c m : Nat) :
    nilfs_cpfile_checkpoints_in_block s c m = min (s.E - c % s.E) (m - c) := by
  unfold nilfs_cpfile_checkpoints_in_block; rw [offset_eq s hF]

theorem fcib_eq (s : CpfileState) (hF : s.F = 1) (b : Nat) :
    nilfs_cpfile_first_checkpoint_in_block s b = s.E * b := by
  unfold nilfs_cpfile_first_checkpoint_in_block; rw [hF]; simp

theorem is_in_first_eq (s : CpfileState) (hF : s.F = 1) (c : Nat) :
    nilfs_cpfile_is_in_first s c = (c / s.E == 0) := by
  unfold nilfs_cpfile_is_in_first; rw [blkoff_eq s hF]

/-! `nicsOf` helpers -/

theorem countValidNonSnap_of_le (s : CpfileState) (a e : Nat) (h : e ≤ a) :
    countValidNonSnap s a e = 0 := by
  unfold countValidNonSnap
  rw [Nat.sub_eq_zero_of_le h]
  rfl

theorem countSnapIn_of_le (s : CpfileState) (a e : Nat) (h : e ≤ a) :
    countSnapIn s a e = 0 := by
  unfold countSnapIn
  rw [Nat.sub_eq_zero_of_le h]
  rfl

theorem nicsOf_zero_of_le (s : CpfileState) (a e b : Nat)
    (h : min e (s.E * b + s.E) ≤ max a (s.E * b)) : nicsOf s a e b = 0 :=
  countValidNonSnap_of_le s _ _ h

/-- Two states agreeing on parameters, on entries in `[a, e)` and on the
blocks of those entries produce the same delete count over the range. -/
theorem countValidNonSnap_congr (s s' : CpfileState) (hE : s'.E = s.E) (hF' : s'.F = s.F)
    (a e : Nat)
    (h : ∀ c, a ≤ c → c < e → s'.cp c = s.cp c ∧
        s'.blkExists (nilfs_cpfile_get_blkoff s c) = s.blkExists (nilfs_cpfile_get_blkoff s c)) :
    countValidNonSnap s' a e = countValidNonSnap s a e := by
  unfold countValidNonSnap
  apply countInRange_congr
  intro c h1 h2
  have h3 := h c h1 (by omega)
  have h4 : nilfs_cpfile_get_blkoff s' c = nilfs_cpfile_get_blkoff s c := by
    unfold nilfs_cpfile_get_blkoff; rw [hE, hF']
  rw [h3.1, h4, h3.2]

theorem countSnapIn_congr (s s' : CpfileState) (hE : s'.E = s.E) (hF' : s'.F = s.F)
    (a e : Nat)
    (h : ∀ c, a ≤ c → c < e → s'.cp c = s.cp c ∧
        s'.blkExists (nilfs_cpfile_get_blkoff s c) = s.blkExists (nilfs_cpfile_get_blkoff s c)) :
    countSnapIn s' a e = countSnapIn s a e := by
  unfold countSnapIn
  apply countInRange_congr
  intro c h1 h2
  have h3 := h c h1 (by omega)
  have h4 : nilfs_cpfile_get_blkoff s' c = nilfs_cpfile_get_blkoff s c := by
    unfold nilfs_cpfile_get_blkoff; rw [hE, hF']
  rw [h3.1, h4, h3.2]

theorem countValidNonSnap_split (s : CpfileState) (a mid e : Nat) (h1 : a ≤ mid)
    (h2 : mid ≤ e) :
    countValidNonSnap s a e = countValidNonSnap s a mid + countValidNonSnap s mid e := by
  unfold countValidNonSnap
  have h3 : e - a = (mid - a) + (e - mid) := by omega
  rw [h3, countInRange_split]
  have h4 : a + (mid - a) = mid := by omega
  rw [h4]

theorem countSnapIn_split (s : CpfileState) (a mid e : Nat) (h1 : a ≤ mid) (h2 : mid ≤ e) :
    countSnapIn s a e = countSnapIn s a mid + countSnapIn s mid e := by
  unfold countSnapIn
  have h3 : e - a = (mid - a) + (e - mid) := by omega
  rw [h3, countInRange_split]
  have h4 : a + (mid - a) = mid := by omega
  rw [h4]

theorem Checkpoint.eq_of_parts (e1 e2 : Checkpoint) (h1 : cpRest e1 = cpRest e2)
    (h2 : e1.cp_invalid = e2.cp_invalid)
    (h3 : e1.cp_checkpoints_count = e2.cp_checkpoints_count) : e1 = e2 := by
  cases e1; cases e2
  simp only [cpRest, Checkpoint.mk.injEq] at h1 ⊢
  simp_all

theorem nicsOf_pos_lt (s : CpfileState) (a e b : Nat) (h : 0 < nicsOf s a e b) :
    s.E * b < e := by
  by_contra hc
  rw [nicsOf_zero_of_le s a e b (by omega)] at h
  omega

theorem LoopShape_cp_frozen (s s' : CpfileState) (a e : Nat) (h : LoopShape s s' a e)
    (c : Nat) (hc : e ≤ c) : s'.cp c = s.cp c := by
  obtain ⟨-, -, -, -, -, hinv, hrest, hcen1, hcen2, -⟩ := h
  apply Checkpoint.eq_of_parts _ _ (hrest c)
  · rw [hinv c]
    have h1 : decide (c < e) = false := by simp; omega
    rw [h1]
    simp
  · by_cases hb : ∃ b, 1 ≤ b ∧ c = s.E * b
    · obtain ⟨b, hb1, hb2⟩ := hb
      subst hb2
      rw [hcen2 b hb1]
      split
      · next hcond =>
          have := nicsOf_pos_lt s a e b hcond.2
          omega
      · rfl
    · exact hcen1 c (fun b h1 h2 => hb ⟨b, h1, h2⟩)

theorem LoopShape_blkExists_frozen (s s' : CpfileState) (a e : Nat)
    (h : LoopShape s s' a e) (b : Nat) (hb : min e (s.E * b + s.E) ≤ max a (s.E * b)) :
    s'.blkExists b = s.blkExists b := by
  obtain ⟨-, -, -, -, -, -, -, -, -, hbx⟩ := h
  rw [hbx b, if_neg]
  rintro ⟨-, -, hpos, -⟩
  rw [nicsOf_zero_of_le s a e b hb] at hpos
  omega

theorem div_eq_block (E b c : Nat) (hE : 1 ≤ E) (h1 : E * b ≤ c) (h2 : c < E * b + E) :
    c / E = b := by
  have hlo : b ≤ c / E := by
    rw [Nat.le_div_iff_mul_le (by omega)]
    have : b * E = E * b := by ring
    omega
  have hhi : c / E < b + 1 := by
    rw [Nat.div_lt_iff_lt_mul (by omega)]
    have : (b + 1) * E = E * b + E := by ring
    omega
  omega

theorem le_div_of_mul_le (E b c : Nat) (hE : 1 ≤ E) (h : E * b ≤ c) : b ≤ c / E := by
  rw [Nat.le_div_iff_mul_le (by omega)]
  have : b * E = E * b := by ring
  omega

theorem LoopShape_compose (s sX s' : CpfileState) (cno m end_ : Nat)
    (hE : 1 ≤ s.E) (hF : s.F = 1)
    (hm0 : cno ≤ m) (hm1 : m ≤ end_)
    (hm3 : m = min end_ (s.E * (cno / s.E) + s.E))
    (h1 : LoopShape s sX cno m)
    (h2 : LoopShape sX s' m end_) :
    LoopShape s s' cno end_ := by
  have hlo : s.E * (cno / s.E) ≤ cno := by
    have := Nat.div_add_mod cno s.E; omega
  obtain ⟨hE1, hF1, hH1, hN1, hL1, hinv1, hrest1, hcenA1, hcenB1, hbx1⟩ := h1
  obtain ⟨hE2, hF2, hH2, hN2, hL2, hinv2, hrest2, hcenA2, hcenB2, hbx2⟩ := h2
  rw [hE1] at hcenA2 hcenB2 hbx2
  -- abbreviations
  set b0 := cno / s.E with hb0
  have hfreeze : ∀ c, m ≤ c → sX.cp c = s.cp c :=
    LoopShape_cp_frozen s sX cno m
      ⟨hE1, hF1, hH1, hN1, hL1, hinv1, hrest1, hcenA1, hcenB1, hbx1⟩
  have hblk_ne : ∀ b, b ≠ b0 → sX.blkExists b = s.blkExists b := by
    intro b hb
    apply LoopShape_blkExists_frozen s sX cno m
      ⟨hE1, hF1, hH1, hN1, hL1, hinv1, hrest1, hcenA1, hcenB1, hbx1⟩
    rcases Nat.lt_or_ge b b0 with hlt | hge
    · have : s.E * b + s.E ≤ s.E * b0 := by
        have : s.E * (b + 1) ≤ s.E * b0 := Nat.mul_le_mul_left s.E (by omega)
        have he : s.E * (b + 1) = s.E * b + s.E := by ring
        omega
      omega
    · have hgt : b0 < b := by omega
      have : s.E * (b0 + 1) ≤ s.E * b := Nat.mul_le_mul_left s.E (by omega)
      have he : s.E * (b0 + 1) = s.E * b0 + s.E := by ring
      omega
  -- the chunk of a block below or above b0, relative to [cno, m), is empty
  have hchunk_empty_lo : ∀ b, b < b0 → min m (s.E * b + s.E) ≤ max cno (s.E * b) := by
    intro b hb
    have : s.E * (b + 1) ≤ s.E * b0 := Nat.mul_le_mul_left s.E (by omega)
    have he : s.E * (b + 1) = s.E * b + s.E := by ring
    omega
  have hchunk_empty_hi : ∀ b, b0 < b → min m (s.E * b + s.E) ≤ max cno (s.E * b) := by
    intro b hb
    have : s.E * (b0 + 1) ≤ s.E * b := Nat.mul_le_mul_left s.E (by omega)
    have he : s.E * (b0 + 1) = s.E * b0 + s.E := by ring
    omega
  -- nicsOf over the tail is the same in s and sX
  have hnics_tail : ∀ b, nicsOf sX m end_ b = nicsOf s m end_ b := by
    intro b
    by_cases hb : b = b0
    · subst hb
      rw [nicsOf_zero_of_le, nicsOf_zero_of_le]
      · omega
      · rw [hE1]; omega
    · unfold nicsOf
      rw [hE1]
      apply countValidNonSnap_congr s sX hE1 hF1
      intro c hc1 hc2
      have hcm : m ≤ c := le_trans (Nat.le_max_left _ _) hc1
      have hcb1 : s.E * b ≤ c := le_trans (Nat.le_max_right _ _) hc1
      have hcb2 : c < s.E * b + s.E := lt_of_lt_of_le hc2 (Nat.min_le_right _ _)
      have hdiv : nilfs_cpfile_get_blkoff s c = b := by
        rw [blkoff_eq s hF]; exact div_eq_block s.E b c hE hcb1 hcb2
      exact ⟨hfreeze c hcm, by rw [hdiv]; exact hblk_ne b hb⟩
  -- census words of blocks other than b0 are untouched by the chunk
  have hcen_ne : ∀ b, b ≠ b0 → (sX.cp (s.E * b)).cp_checkpoints_count
      = (s.cp (s.E * b)).cp_checkpoints_count := by
    intro b hb
    by_cases hb1 : 1 ≤ b
    · rw [hcenB1 b hb1, if_neg]
      rintro ⟨-, hpos⟩
      rcases Nat.lt_or_ge b b0 with hlt | hge
      · rw [nicsOf_zero_of_le s cno m b (hchunk_empty_lo b hlt)] at hpos; omega
      · rw [nicsOf_zero_of_le s cno m b (hchunk_empty_hi b (by omega))] at hpos; omega
    · have hb0' : b = 0 := by omega
      subst hb0'
      apply hcenA1
      intro b' hb' hcon
      have : 1 ≤ s.E * b' := Nat.le_trans hb' (Nat.le_mul_of_pos_left b' (by omega))
      omega
  -- nicsOf of the whole range, per block
  have hnics_b0 : nicsOf s cno end_ b0 = nicsOf s cno m b0 := by
    unfold nicsOf
    have e1 : max cno (s.E * b0) = cno := by omega
    have e2 : min end_ (s.E * b0 + s.E) = m := by omega
    have e3 : min m (s.E * b0 + s.E) = m := by omega
    rw [e1, e2, e3]
  have hnics_full : ∀ b, 1 ≤ b → b ≠ b0 → nicsOf s cno end_ b = nicsOf s m end_ b := by
    intro b _ hb
    rcases Nat.lt_or_ge b b0 with hlt | hge
    · have hmul : s.E * (b + 1) ≤ s.E * b0 := Nat.mul_le_mul_left s.E (by omega)
      have he : s.E * (b + 1) = s.E * b + s.E := by ring
      rw [nicsOf_zero_of_le, nicsOf_zero_of_le]
      · omega
      · omega
    · have hgt : b0 < b := by omega
      have hup : s.E * (b0 + 1) ≤ s.E * b := Nat.mul_le_mul_left s.E (by omega)
      have he : s.E * (b0 + 1) = s.E * b0 + s.E := by ring
      unfold nicsOf
      have e1 : max cno (s.E * b) = s.E * b := by omega
      have e2 : max m (s.E * b) = s.E * b := by omega
      rw [e1, e2]
  -- the parameter equalities for the composite
  refine ⟨by rw [hE2, hE1], by rw [hF2, hF1], by rw [hH2, hH1], by rw [hN2, hN1],
    by rw [hL2, hL1], ?_, ?_, ?_, ?_, ?_⟩
  · -- INVALID characterization
    intro c
    rw [hinv2 c, hinv1 c]
    have hbof : nilfs_cpfile_get_blkoff sX c = nilfs_cpfile_get_blkoff s c := by
      unfold nilfs_cpfile_get_blkoff; rw [hE1, hF1]
    rcases Nat.lt_or_ge c m with hcm | hcm
    · have d1 : decide (m ≤ c) = false := by simp; omega
      have d2 : decide (c < m) = true := by simp; omega
      have d3 : decide (c < end_) = true := by simp; omega
      rw [d1, d2, d3]
      simp
    · have d1 : decide (m ≤ c) = true := by simp; omega
      have d2 : decide (c < m) = false := by simp; omega
      have d4 : decide (cno ≤ c) = true := by simp; omega
      rw [d1, d2, d4]
      rcases Nat.lt_or_ge c end_ with hce | hce
      · -- m ≤ c < end_: the tail arm governs; chunk left everything at c alone
        have hmlt : m < end_ := by omega
        have hmeq : m = s.E * b0 + s.E := by omega
        have hcpe : sX.cp c = s.cp c := hfreeze c hcm
        have hdivge : b0 + 1 ≤ c / s.E := by
          apply le_div_of_mul_le s.E (b0 + 1) c hE
          have : s.E * (b0 + 1) = s.E * b0 + s.E := by ring
          omega
        have hbne : c / s.E ≠ b0 := by omega
        have hbex : sX.blkExists (nilfs_cpfile_get_blkoff s c) =
            s.blkExists (nilfs_cpfile_get_blkoff s c) := by
          rw [blkoff_eq s hF]
          exact hblk_ne (c / s.E) hbne
        rw [hbof, hbex, hcpe]
        simp
      · have d5 : decide (c < end_) = false := by simp; omega
        rw [d5]
        simp
  · -- cpRest is preserved
    intro c
    rw [hrest2 c, hrest1 c]
  · -- census words of non-census slots
    intro c hc
    rw [hcenA2 c hc, hcenA1 c hc]
  · -- census words of census slots
    intro b hb
    by_cases hbb : b = b0
    · subst hbb
      have htail0 : nicsOf sX m end_ b0 = 0 := by
        rw [hnics_tail b0, nicsOf_zero_of_le s m end_ b0 (by omega)]
      rw [hcenB2 b0 hb, htail0]
      simp only [Nat.lt_irrefl, and_false, if_false]
      rw [hcenB1 b0 hb, hnics_b0]
    · rw [hcenB2 b hb, hnics_tail b, hcen_ne b hbb, hblk_ne b hbb,
        hnics_full b hb hbb]
  · -- block existence
    intro b
    rw [hbx2 b]
    by_cases hb1 : 1 ≤ b
    · by_cases hbb : b = b0
      · subst hbb
        have htail0 : nicsOf sX m end_ b0 = 0 := by
          rw [hnics_tail b0, nicsOf_zero_of_le s m end_ b0 (by omega)]
        rw [htail0]
        simp only [Nat.lt_irrefl, and_false, false_and, and_false, if_false]
        rw [hbx1 b0, hnics_b0]
      · rw [hnics_tail b, hcen_ne b hbb, hblk_ne b hbb, hnics_full b hb1 hbb]
    · have hb0' : ¬ (1 ≤ b) := hb1
      rw [if_neg (by rintro ⟨g, -⟩; omega), if_neg (by rintro ⟨g, -⟩; omega)]
      by_cases hbb : b = b0
      · subst hbb
        rw [hbx1 b0, if_neg (by rintro ⟨g, -⟩; omega)]
      · exact hblk_ne b hbb

theorem nicsOf_chunk (s : CpfileState) (cno m : Nat) (hE : 1 ≤ s.E)
    (hm0 : cno ≤ m) (hmle : m ≤ s.E * (cno / s.E) + s.E) (b : Nat) :
    nicsOf s cno m b = if b = cno / s.E then countValidNonSnap s cno m else 0 := by
  have hb0le : s.E * (cno / s.E) ≤ cno := by
    have := Nat.div_add_mod cno s.E; omega
  by_cases hb : b = cno / s.E
  · subst hb
    rw [if_pos rfl]
    unfold nicsOf
    have e1 : max cno (s.E * (cno / s.E)) = cno := by omega
    have e2 : min m (s.E * (cno / s.E) + s.E) = m := by omega
    rw [e1, e2]
  · rw [if_neg hb]
    rcases Nat.lt_or_ge b (cno / s.E) with hlt | hge
    · have hmul : s.E * (b + 1) ≤ s.E * (cno / s.E) := Nat.mul_le_mul_left s.E (by omega)
      have he : s.E * (b + 1) = s.E * b + s.E := by ring
      exact nicsOf_zero_of_le s cno m b (by omega)
    · have hgt : cno / s.E < b := by omega
      have hmul : s.E * (cno / s.E + 1) ≤ s.E * b := Nat.mul_le_mul_left s.E (by omega)
      have he : s.E * (cno / s.E + 1) = s.E * (cno / s.E) + s.E := by ring
      exact nicsOf_zero_of_le s cno m b (by omega)

/-- Adding the (true-on-the-chunk) block-existence conjunct to the marking
formula for the INVALID bit. -/
theorem chunk_invalid_shape (s s1 : CpfileState) (cno m : Nat)
    (hxx : ∀ c, (s1.cp c).cp_invalid =
      ((s.cp c).cp_invalid ||
        (decide (cno ≤ c) && decide (c < m) && !(s.cp c).cp_snapshot)))
    (hblk : ∀ c, cno ≤ c → c < m → s.blkExists (nilfs_cpfile_get_blkoff s c) = true) :
    ∀ c, (s1.cp c).cp_invalid =
      ((s.cp c).cp_invalid ||
        (decide (cno ≤ c) && decide (c < m) &&
          s.blkExists (nilfs_cpfile_get_blkoff s c) && !(s.cp c).cp_snapshot)) := by
  intro c
  rw [hxx c]
  by_cases h1 : cno ≤ c
  · by_cases h2 : c < m
    · rw [hblk c h1 h2]
      have d1 : decide (cno ≤ c) = true := by simp [h1]
      have d2 : decide (c < m) = true := by simp [h2]
      rw [d1, d2]
      simp
    · have d2 : decide (c < m) = false := by simp [h2]
      rw [d2]
      simp
  · have d1 : decide (cno ≤ c) = false := by simp [h1]
    rw [d1]
    simp

theorem setCp_census_cp_invalid (s : CpfileState) (c v d : Nat) :
    ((setCp s c { s.cp c with cp_checkpoints_count := v }).cp d).cp_invalid
      = (s.cp d).cp_invalid := setCp_cp_invalid_census s c v d

theorem setCp_census_cpRest (s : CpfileState) (c v d : Nat) :
    cpRest ((setCp s c { s.cp c with cp_checkpoints_count := v }).cp d)
      = cpRest (s.cp d) := by
  by_cases h : d = c
  · subst h; rw [setCp_cp_same]; simp [cpRest]
  · rw [setCp_cp_ne _ _ _ _ h]

theorem delBlock_E (s : CpfileState) (cno : Nat) :
    (nilfs_cpfile_delete_checkpoint_block s cno).E = s.E := rfl

theorem delBlock_F (s : CpfileState) (cno : Nat) :
    (nilfs_cpfile_delete_checkpoint_block s cno).F = s.F := rfl

theorem delBlock_header (s : CpfileState) (cno : Nat) :
    (nilfs_cpfile_delete_checkpoint_block s cno).header = s.header := rfl

theorem delBlock_nextCno (s : CpfileState) (cno : Nat) :
    (nilfs_cpfile_delete_checkpoint_block s cno).nextCno = s.nextCno := rfl

theorem delBlock_log (s : CpfileState) (cno : Nat) :
    (nilfs_cpfile_delete_checkpoint_block s cno).log = s.log := rfl

theorem delBlock_cp (s : CpfileState) (cno : Nat) :
    (nilfs_cpfile_delete_checkpoint_block s cno).cp = s.cp := rfl

theorem delBlock_blkExists (s : CpfileState) (cno d : Nat) :
    (nilfs_cpfile_delete_checkpoint_block s cno).blkExists d
      = if d = nilfs_cpfile_get_blkoff s cno then false else s.blkExists d := rfl

theorem deleteChunk_spec (end_ fuel : Nat) (s : CpfileState) (cno tnicps nss : Nat)
    (hE : 1 ≤ s.E) (hF : s.F = 1) (hlt : cno < end_) :
    ∃ sX : CpfileState,
      nilfs_cpfile_delete_loop end_ s cno tnicps nss (fuel + 1)
        = nilfs_cpfile_delete_loop end_ sX
            (cno + nilfs_cpfile_checkpoints_in_block s cno end_)
            (tnicps + countValidNonSnap s cno
              (cno + nilfs_cpfile_checkpoints_in_block s cno end_))
            (nss + countSnapIn s cno
              (cno + nilfs_cpfile_checkpoints_in_block s cno end_)) fuel
      ∧ LoopShape s sX cno (cno + nilfs_cpfile_checkpoints_in_block s cno end_) := by
  have hmod := Nat.div_add_mod cno s.E
  have hmodlt : cno % s.E < s.E := Nat.mod_lt cno (by omega)
  have hncps' : nilfs_cpfile_checkpoints_in_block s cno end_
      = min (s.E - cno % s.E) (end_ - cno) := ciib_eq s hF cno end_
  have hnp : 1 ≤ nilfs_cpfile_checkpoints_in_block s cno end_ := by rw [hncps']; omega
  have hm1 : cno + nilfs_cpfile_checkpoints_in_block s cno end_ ≤ end_ := by
    rw [hncps']; omega
  have hb0le : s.E * (cno / s.E) ≤ cno := by omega
  have hmle : cno + nilfs_cpfile_checkpoints_in_block s cno end_
      ≤ s.E * (cno / s.E) + s.E := by rw [hncps']; omega
  have hsame : ∀ c, cno ≤ c → c < cno + nilfs_cpfile_checkpoints_in_block s cno end_ →
      nilfs_cpfile_get_blkoff s c = nilfs_cpfile_get_blkoff s cno := by
    intro c h1 h2
    rw [blkoff_eq s hF, blkoff_eq s hF]
    have h3 : c = cno + (c - cno) := by omega
    rw [h3]
    apply chunk_same_block s.E cno (c - cno) hE
    rw [hncps'] at h2
    omega
  have hbof : nilfs_cpfile_get_blkoff s cno = cno / s.E := blkoff_eq s hF cno
  by_cases hbx : s.blkExists (nilfs_cpfile_get_blkoff s cno) = true
  case neg =>
    have hbx' : s.blkExists (nilfs_cpfile_get_blkoff s cno) = false := by
      revert hbx; cases s.blkExists (nilfs_cpfile_get_blkoff s cno) <;> simp
    have hz1 : countValidNonSnap s cno
        (cno + nilfs_cpfile_checkpoints_in_block s cno end_) = 0 := by
      unfold countValidNonSnap
      apply countInRange_false
      intro c h1 h2
      have h2' : c < cno + nilfs_cpfile_checkpoints_in_block s cno end_ := by omega
      rw [hsame c h1 h2', hbx']
      rfl
    have hz2 : countSnapIn s cno
        (cno + nilfs_cpfile_checkpoints_in_block s cno end_) = 0 := by
      unfold countSnapIn
      apply countInRange_false
      intro c h1 h2
      have h2' : c < cno + nilfs_cpfile_checkpoints_in_block s cno end_ := by omega
      rw [hsame c h1 h2', hbx']
      rfl
    refine ⟨s, ?_, ?_⟩
    · simp only [nilfs_cpfile_delete_loop]
      rw [if_pos hlt, if_neg (by rw [hbx']; simp), hz1, hz2, Nat.add_zero, Nat.add_zero]
    · refine ⟨rfl, rfl, rfl, rfl, rfl, ?_, fun c => rfl, fun c _ => rfl, ?_, ?_⟩
      · intro c
        by_cases h1 : cno ≤ c
        · by_cases h2 : c < cno + nilfs_cpfile_checkpoints_in_block s cno end_
          · rw [hsame c h1 h2, hbx']
            simp
          · have d2 : decide (c < cno + nilfs_cpfile_checkpoints_in_block s cno end_)
                = false := by simp [h2]
            rw [d2]
            simp
        · have d1 : decide (cno ≤ c) = false := by simp [h1]
          rw [d1]
          simp
      · intro b hb
        rw [nicsOf_chunk s cno _ hE (by omega) hmle b]
        by_cases hbb : b = cno / s.E
        · rw [if_pos hbb, hz1]
          simp
        · rw [if_neg hbb]
          simp
      · intro b
        rw [nicsOf_chunk s cno _ hE (by omega) hmle b]
        by_cases hbb : b = cno / s.E
        · rw [if_pos hbb, hz1]
          simp
        · rw [if_neg hbb]
          simp
  case pos =>
    obtain ⟨hmE, hmF, hmB, hmH, hmN, hmL⟩ :=
      markRange_meta (nilfs_cpfile_checkpoints_in_block s cno end_) s cno
    have hcv : countValidNonSnap s cno (cno + nilfs_cpfile_checkpoints_in_block s cno end_)
        = (markRange s cno (nilfs_cpfile_checkpoints_in_block s cno end_)).2.1 := by
      rw [markRange_nicps]
      unfold countValidNonSnap
      have h3 : cno + nilfs_cpfile_checkpoints_in_block s cno end_ - cno
          = nilfs_cpfile_checkpoints_in_block s cno end_ := by omega
      rw [h3]
      apply countInRange_congr
      intro c h1 h2
      rw [hsame c h1 (by omega), hbx]
      simp
    have hcs : countSnapIn s cno (cno + nilfs_cpfile_checkpoints_in_block s cno end_)
        = (markRange s cno (nilfs_cpfile_checkpoints_in_block s cno end_)).2.2 := by
      rw [markRange_nss]
      unfold countSnapIn
      have h3 : cno + nilfs_cpfile_checkpoints_in_block s cno end_ - cno
          = nilfs_cpfile_checkpoints_in_block s cno end_ := by omega
      rw [h3]
      apply countInRange_congr
      intro c h1 h2
      rw [hsame c h1 (by omega), hbx]
      simp
    have hinv1 : ∀ c,
        (((markRange s cno (nilfs_cpfile_checkpoints_in_block s cno end_)).1).cp c).cp_invalid
          = ((s.cp c).cp_invalid ||
            (decide (cno ≤ c) &&
              decide (c < cno + nilfs_cpfile_checkpoints_in_block s cno end_) &&
              s.blkExists (nilfs_cpfile_get_blkoff s c) && !(s.cp c).cp_snapshot)) := by
      apply chunk_invalid_shape
      · intro c
        exact markRange_cp_invalid (nilfs_cpfile_checkpoints_in_block s cno end_) s cno c
      · intro c h1 h2
        rw [hsame c h1 h2]
        exact hbx
    by_cases hn0 : (markRange s cno (nilfs_cpfile_checkpoints_in_block s cno end_)).2.1 = 0
    · -- nothing was deleted in this block
      refine ⟨(markRange s cno (nilfs_cpfile_checkpoints_in_block s cno end_)).1, ?_, ?_⟩
      · simp only [nilfs_cpfile_delete_loop]
        rw [if_pos hlt, if_pos hbx, if_pos hn0, hcv, hcs, hn0, Nat.add_zero]
      · refine ⟨hmE, hmF, hmH, hmN, hmL, hinv1, markRange_cpRest _ s cno,
          fun c _ => markRange_census _ s cno c, ?_, ?_⟩
        · intro b hb
          rw [markRange_census, nicsOf_chunk s cno _ hE (by omega) hmle b]
          by_cases hbb : b = cno / s.E
          · rw [if_pos hbb, hcv, hn0]
            simp
          · rw [if_neg hbb]
            simp
        · intro b
          rw [hmB, nicsOf_chunk s cno _ hE (by omega) hmle b]
          by_cases hbb : b = cno / s.E
          · rw [if_pos hbb, hcv, hn0]
            simp
          · rw [if_neg hbb]
            simp
    · by_cases hfirst : nilfs_cpfile_is_in_first
          (markRange s cno (nilfs_cpfile_checkpoints_in_block s cno end_)).1 cno = true
      · -- block 0: census not maintained, block never deleted
        have hb00 : cno / s.E = 0 := by
          rw [is_in_first_eq _ (by rw [hmF, hF]) cno, hmE] at hfirst
          simpa using hfirst
        refine ⟨(markRange s cno (nilfs_cpfile_checkpoints_in_block s cno end_)).1, ?_, ?_⟩
        · simp only [nilfs_cpfile_delete_loop]
          rw [if_pos hlt, if_pos hbx, if_neg hn0, if_pos hfirst, hcv, hcs]
        · refine ⟨hmE, hmF, hmH, hmN, hmL, hinv1, markRange_cpRest _ s cno,
            fun c _ => markRange_census _ s cno c, ?_, ?_⟩
          · intro b hb
            rw [markRange_census, nicsOf_chunk s cno _ hE (by omega) hmle b]
            have hbne : ¬ b = cno / s.E := by omega
            rw [if_neg hbne]
            simp
          · intro b
            rw [hmB, nicsOf_chunk s cno _ hE (by omega) hmle b]
            by_cases hb1 : 1 ≤ b
            · have hbne : ¬ b = cno / s.E := by omega
              rw [if_neg hbne]
              simp
            · have hbz : b = 0 := by omega
              subst hbz
              simp
      · -- a block b0 ≥ 1: decrement its census, delete it when the census hits 0
        have hb0pos : 1 ≤ cno / s.E := by
          rw [is_in_first_eq _ (by rw [hmF, hF]) cno, hmE] at hfirst
          simp at hfirst
          omega
        have hbof1 : nilfs_cpfile_get_blkoff
            (markRange s cno (nilfs_cpfile_checkpoints_in_block s cno end_)).1 cno
            = cno / s.E := by
          unfold nilfs_cpfile_get_blkoff
          rw [hmE, hmF, hF]
          simp
        have hfcib : nilfs_cpfile_first_checkpoint_in_block
            (markRange s cno (nilfs_cpfile_checkpoints_in_block s cno end_)).1 (cno / s.E)
            = s.E * (cno / s.E) := by
          rw [fcib_eq _ (by rw [hmF, hF]), hmE]
        have hcen0 : ((markRange s cno (nilfs_cpfile_checkpoints_in_block s cno end_)).1.cp
            (s.E * (cno / s.E))).cp_checkpoints_count
            = (s.cp (s.E * (cno / s.E))).cp_checkpoints_count :=
          markRange_census _ s cno _
        have hbxd : s.blkExists (cno / s.E) = true := by rw [← hbof]; exact hbx
        set r1 := (markRange s cno (nilfs_cpfile_checkpoints_in_block s cno end_)).1 with hr1
        set nicp := (markRange s cno (nilfs_cpfile_checkpoints_in_block s cno end_)).2.1
          with hnicp
        have hsub1 : (nilfs_cpfile_block_sub_valid_checkpoints r1
            (nilfs_cpfile_get_blkoff r1 cno) nicp).1
            = setCp r1 (s.E * (cno / s.E))
                { r1.cp (s.E * (cno / s.E)) with
                  cp_checkpoints_count :=
                    u32sub (s.cp (s.E * (cno / s.E))).cp_checkpoints_count nicp } := by
          rw [subValid_fst, hbof1, hfcib, hcen0]
        have hsub2 : (nilfs_cpfile_block_sub_valid_checkpoints r1
            (nilfs_cpfile_get_blkoff r1 cno) nicp).2
            = u32sub (s.cp (s.E * (cno / s.E))).cp_checkpoints_count nicp := by
          rw [subValid_snd, hbof1, hfcib, hcen0]
        have hslot_ne : ∀ b, ¬ b = cno / s.E → s.E * b ≠ s.E * (cno / s.E) := by
          intro b hbb h
          exact hbb (Nat.eq_of_mul_eq_mul_left (by omega) h)
        have hinvS : ∀ c,
            (((setCp r1 (s.E * (cno / s.E))
              { r1.cp (s.E * (cno / s.E)) with
                cp_checkpoints_count :=
                  u32sub (s.cp (s.E * (cno / s.E))).cp_checkpoints_count nicp }).cp c).cp_invalid)
            = ((s.cp c).cp_invalid ||
                (decide (cno ≤ c) &&
                  decide (c < cno + nilfs_cpfile_checkpoints_in_block s cno end_) &&
                  s.blkExists (nilfs_cpfile_get_blkoff s c) && !(s.cp c).cp_snapshot)) := by
          intro c
          rw [setCp_census_cp_invalid]
          exact hinv1 c
        have hrestS : ∀ c,
            cpRest ((setCp r1 (s.E * (cno / s.E))
              { r1.cp (s.E * (cno / s.E)) with
                cp_checkpoints_count :=
                  u32sub (s.cp (s.E * (cno / s.E))).cp_checkpoints_count nicp }).cp c)
            = cpRest (s.cp c) := by
          intro c
          rw [setCp_census_cpRest]
          exact markRange_cpRest _ s cno c
        have hcenAS : ∀ c, (∀ b, 1 ≤ b → c ≠ s.E * b) →
            (((setCp r1 (s.E * (cno / s.E))
              { r1.cp (s.E * (cno / s.E)) with
                cp_checkpoints_count :=
                  u32sub (s.cp (s.E * (cno / s.E))).cp_checkpoints_count nicp }).cp c).cp_checkpoints_count)
            = (s.cp c).cp_checkpoints_count := by
          intro c hc
          rw [setCp_cp_ne _ _ _ c (hc (cno / s.E) hb0pos), markRange_census]
        have hcenBS : ∀ b, 1 ≤ b →
            (((setCp r1 (s.E * (cno / s.E))
              { r1.cp (s.E * (cno / s.E)) with
                cp_checkpoints_count :=
                  u32sub (s.cp (s.E * (cno / s.E))).cp_checkpoints_count nicp }).cp
                (s.E * b)).cp_checkpoints_count)
            = (if s.blkExists b = true ∧
                  0 < nicsOf s cno (cno + nilfs_cpfile_checkpoints_in_block s cno end_) b
               then u32sub (s.cp (s.E * b)).cp_checkpoints_count
                  (nicsOf s cno (cno + nilfs_cpfile_checkpoints_in_block s cno end_) b)
               else (s.cp (s.E * b)).cp_checkpoints_count) := by
          intro b hb
          by_cases hbb : b = cno / s.E
          · rw [hbb, setCp_cp_same]
            rw [nicsOf_chunk s cno _ hE (by omega) hmle (cno / s.E), if_pos rfl, hcv]
            rw [if_pos ⟨hbxd, by omega⟩]
          · rw [setCp_cp_ne _ _ _ _ (hslot_ne b hbb), markRange_census]
            rw [nicsOf_chunk s cno _ hE (by omega) hmle b, if_neg hbb]
            simp
        by_cases hcnt : u32sub (s.cp (s.E * (cno / s.E))).cp_checkpoints_count nicp = 0
        case neg =>
          refine ⟨setCp r1 (s.E * (cno / s.E))
              { r1.cp (s.E * (cno / s.E)) with
                cp_checkpoints_count :=
                  u32sub (s.cp (s.E * (cno / s.E))).cp_checkpoints_count nicp }, ?_, ?_⟩
          · simp only [nilfs_cpfile_delete_loop]
            rw [if_pos hlt, if_pos hbx]
            rw [← hnicp, ← hr1]
            rw [if_neg hn0, if_neg hfirst, hsub2, if_pos hcnt, hsub1, hcv, hcs]
          · refine ⟨by rw [setCp_E, hmE], by rw [setCp_F, hmF], by rw [setCp_header, hmH],
              by rw [setCp_nextCno, hmN], by rw [setCp_log, hmL],
              hinvS, hrestS, hcenAS, hcenBS, ?_⟩
            intro b
            rw [setCp_blkExists, hmB]
            by_cases hbb : b = cno / s.E
            · rw [hbb, nicsOf_chunk s cno _ hE (by omega) hmle (cno / s.E), if_pos rfl,
                hcv]
              rw [if_neg (by rintro ⟨-, -, -, g⟩; exact hcnt g)]
            · rw [nicsOf_chunk s cno _ hE (by omega) hmle b, if_neg hbb]
              simp
        case pos =>
          have hbof2 : nilfs_cpfile_get_blkoff
              (setCp r1 (s.E * (cno / s.E))
                { r1.cp (s.E * (cno / s.E)) with
                  cp_checkpoints_count :=
                    u32sub (s.cp (s.E * (cno / s.E))).cp_checkpoints_count nicp }) cno
              = cno / s.E := by
            unfold nilfs_cpfile_get_blkoff
            rw [setCp_E, setCp_F, hmE, hmF, hF]
            simp
          refine ⟨nilfs_cpfile_delete_checkpoint_block
              (setCp r1 (s.E * (cno / s.E))
                { r1.cp (s.E * (cno / s.E)) with
                  cp_checkpoints_count :=
                    u32sub (s.cp (s.E * (cno / s.E))).cp_checkpoints_count nicp }) cno,
            ?_, ?_⟩
          · simp only [nilfs_cpfile_delete_loop]
            rw [if_pos hlt, if_pos hbx]
            rw [← hnicp, ← hr1]
            rw [if_neg hn0, if_neg hfirst, hsub2, if_neg (by simp [hcnt]), hsub1, hcv, hcs]
          · refine ⟨by rw [delBlock_E, setCp_E, hmE], by rw [delBlock_F, setCp_F, hmF],
              by rw [delBlock_header, setCp_header, hmH],
              by rw [delBlock_nextCno, setCp_nextCno, hmN],
              by rw [delBlock_log, setCp_log, hmL],
              by rw [delBlock_cp]; exact hinvS,
              by rw [delBlock_cp]; exact hrestS,
              by rw [delBlock_cp]; exact hcenAS,
              by rw [delBlock_cp]; exact hcenBS, ?_⟩
            intro b
            rw [delBlock_blkExists, hbof2, setCp_blkExists, hmB]
            by_cases hbb : b = cno / s.E
            · rw [if_pos hbb, hbb]
              rw [nicsOf_chunk s cno _ hE (by omega) hmle (cno / s.E), if_pos rfl, hcv]
              rw [if_pos ⟨hb0pos, hbxd, by omega, hcnt⟩]
            · rw [if_neg hbb]
              rw [nicsOf_chunk s cno _ hE (by omega) hmle b, if_neg hbb]
              simp

theorem LoopShape_refl (s : CpfileState) (a e : Nat) (h : e ≤ a) : LoopShape s s a e := by
  refine ⟨rfl, rfl, rfl, rfl, rfl, ?_, fun c => rfl, fun c _ => rfl, ?_, ?_⟩
  · intro c
    by_cases h1 : a ≤ c
    · have d2 : decide (c < e) = false := by simp; omega
      rw [d2]
      simp
    · have d1 : decide (a ≤ c) = false := by simp [h1]
      rw [d1]
      simp
  · intro b hb
    rw [nicsOf_zero_of_le s a e b (by omega)]
    simp
  · intro b
    rw [nicsOf_zero_of_le s a e b (by omega)]
    simp

theorem LoopShape_blk_outside (s sX : CpfileState) (cno m : Nat) (hE : 1 ≤ s.E)
    (h1 : LoopShape s sX cno m) (hm3 : m ≤ s.E * (cno / s.E) + s.E) :
    ∀ b, b ≠ cno / s.E → sX.blkExists b = s.blkExists b := by
  intro b hb
  apply LoopShape_blkExists_frozen s sX cno m h1
  rcases Nat.lt_or_ge b (cno / s.E) with hlt | hge
  · have hmul : s.E * (b + 1) ≤ s.E * (cno / s.E) := Nat.mul_le_mul_left s.E (by omega)
    have he : s.E * (b + 1) = s.E * b + s.E := by ring
    have hb0le : s.E * (cno / s.E) ≤ cno := by
      have := Nat.div_add_mod cno s.E; omega
    omega
  · have hgt : cno / s.E < b := by omega
    have hmul : s.E * (cno / s.E + 1) ≤ s.E * b := Nat.mul_le_mul_left s.E (by omega)
    have he : s.E * (cno / s.E + 1) = s.E * (cno / s.E) + s.E := by ring
    omega

theorem LoopShape_tail_counts (s sX : CpfileState) (cno m end_ : Nat)
    (hE : 1 ≤ s.E) (hF : s.F = 1) (hm0 : cno ≤ m) (hm1 : m ≤ end_)
    (hm3 : m = min end_ (s.E * (cno / s.E) + s.E)) (h1 : LoopShape s sX cno m) :
    countValidNonSnap sX m end_ = countValidNonSnap s m end_ ∧
    countSnapIn sX m end_ = countSnapIn s m end_ := by
  have hE1 : sX.E = s.E := h1.1
  have hF1 : sX.F = s.F := h1.2.1
  have hpoint : ∀ c, m ≤ c → c < end_ → sX.cp c = s.cp c ∧
      sX.blkExists (nilfs_cpfile_get_blkoff s c) = s.blkExists (nilfs_cpfile_get_blkoff s c) := by
    intro c hc1 hc2
    refine ⟨LoopShape_cp_frozen s sX cno m h1 c hc1, ?_⟩
    rw [blkoff_eq s hF]
    apply LoopShape_blk_outside s sX cno m hE h1 (by omega)
    have hmeq : m = s.E * (cno / s.E) + s.E := by omega
    have hge : cno / s.E + 1 ≤ c / s.E := by
      apply le_div_of_mul_le s.E _ c hE
      have he : s.E * (cno / s.E + 1) = s.E * (cno / s.E) + s.E := by ring
      omega
    omega
  exact ⟨countValidNonSnap_congr s sX hE1 hF1 m end_ hpoint,
    countSnapIn_congr s sX hE1 hF1 m end_ hpoint⟩

theorem deleteLoop_spec (end_ : Nat) : ∀ (fuel : Nat) (s : CpfileState) (cno tnicps nss : Nat),
    1 ≤ s.E → s.F = 1 → cno ≤ end_ → end_ - cno ≤ fuel →
    (nilfs_cpfile_delete_loop end_ s cno tnicps nss fuel).1 = 0 ∧
    (nilfs_cpfile_delete_loop end_ s cno tnicps nss fuel).2.2.1
      = tnicps + countValidNonSnap s cno end_ ∧
    (nilfs_cpfile_delete_loop end_ s cno tnicps nss fuel).2.2.2
      = nss + countSnapIn s cno end_ ∧
    LoopShape s (nilfs_cpfile_delete_loop end_ s cno tnicps nss fuel).2.1 cno end_
  | 0, s, cno, tnicps, nss, hE, hF, hcle, hfuel => by
    have hceq : cno = end_ := by omega
    subst hceq
    simp only [nilfs_cpfile_delete_loop]
    rw [countValidNonSnap_of_le s cno cno (Nat.le_refl cno),
        countSnapIn_of_le s cno cno (Nat.le_refl cno)]
    exact ⟨by simp, by simp, by simp, LoopShape_refl s cno cno (Nat.le_refl cno)⟩
  | fuel + 1, s, cno, tnicps, nss, hE, hF, hcle, hfuel => by
    by_cases hlt : cno < end_
    case neg =>
      have hceq : cno = end_ := by omega
      subst hceq
      simp only [nilfs_cpfile_delete_loop]
      rw [if_neg hlt]
      rw [countValidNonSnap_of_le s cno cno (Nat.le_refl cno),
          countSnapIn_of_le s cno cno (Nat.le_refl cno)]
      exact ⟨by simp, by simp, by simp, LoopShape_refl s cno cno (Nat.le_refl cno)⟩
    case pos =>
      obtain ⟨sX, heq, hshape⟩ := deleteChunk_spec end_ fuel s cno tnicps nss hE hF hlt
      have hmod := Nat.div_add_mod cno s.E
      have hmodlt : cno % s.E < s.E := Nat.mod_lt cno (by omega)
      have hncps' : nilfs_cpfile_checkpoints_in_block s cno end_
          = min (s.E - cno % s.E) (end_ - cno) := ciib_eq s hF cno end_
      have hm0 : cno ≤ cno + nilfs_cpfile_checkpoints_in_block s cno end_ := by omega
      have hnp : 1 ≤ nilfs_cpfile_checkpoints_in_block s cno end_ := by rw [hncps']; omega
      have hm1 : cno + nilfs_cpfile_checkpoints_in_block s cno end_ ≤ end_ := by
        rw [hncps']; omega
      have hm3 : cno + nilfs_cpfile_checkpoints_in_block s cno end_
          = min end_ (s.E * (cno / s.E) + s.E) := by
        rw [hncps']; omega
      have hXE : 1 ≤ sX.E := by rw [hshape.1]; exact hE
      have hXF : sX.F = 1 := by rw [hshape.2.1]; exact hF
      have ih := deleteLoop_spec end_ fuel sX
        (cno + nilfs_cpfile_checkpoints_in_block s cno end_)
        (tnicps + countValidNonSnap s cno
          (cno + nilfs_cpfile_checkpoints_in_block s cno end_))
        (nss + countSnapIn s cno (cno + nilfs_cpfile_checkpoints_in_block s cno end_))
        hXE hXF hm1 (by omega)
      obtain ⟨ihret, iht, ihn, ihshape⟩ := ih
      obtain ⟨htails, htailn⟩ := LoopShape_tail_counts s sX cno
        (cno + nilfs_cpfile_checkpoints_in_block s cno end_) end_ hE hF hm0 hm1 hm3 hshape
      rw [heq]
      refine ⟨ihret, ?_, ?_, ?_⟩
      · rw [iht, htails,
          countValidNonSnap_split s cno (cno + nilfs_cpfile_checkpoints_in_block s cno end_)
            end_ hm0 hm1]
        omega
      · rw [ihn, htailn,
          countSnapIn_split s cno (cno + nilfs_cpfile_checkpoints_in_block s cno end_)
            end_ hm0 hm1]
        omega
      · exact LoopShape_compose s sX _ cno
          (cno + nilfs_cpfile_checkpoints_in_block s cno end_) end_ hE hF hm0 hm1 hm3
          hshape ihshape

theorem u64sub_exact (x n : Nat) (h1 : n ≤ x) (h2 : x < U64) : u64sub x n = x - n := by
  unfold u64sub
  have hU : 0 < U64 := by unfold U64; positivity
  have hn : n % U64 = n := Nat.mod_eq_of_lt (by omega)
  rw [hn]
  have h3 : x + (U64 - n) = (x - n) + U64 := by omega
  rw [h3, Nat.add_mod_right]
  exact Nat.mod_eq_of_lt (by omega)

theorem u32sub_exact (x n : Nat) (h1 : n ≤ x) (h2 : x < U32) : u32sub x n = x - n := by
  unfold u32sub
  have hU : 0 < U32 := by unfold U32; positivity
  have hn : n % U32 = n := Nat.mod_eq_of_lt (by omega)
  rw [hn]
  have h3 : x + (U32 - n) = (x - n) + U32 := by omega
  rw [h3, Nat.add_mod_right]
  exact Nat.mod_eq_of_lt (by omega)

theorem u32sub_self (x : Nat) (h : x < U32) : u32sub x x = 0 := by
  rw [u32sub_exact x x (Nat.le_refl x) h, Nat.sub_self]

theorem countInRange_and_le (p q : Nat → Bool) (a n : Nat) :
    countInRange (fun c => p c && q c) a n ≤ countInRange p a n := by
  rw [countInRange_add_pred p q n a]
  omega

theorem validCount_le (s : CpfileState) (b : Nat) : validCount s b ≤ s.E :=
  countInRange_le _ s.E (s.E * b)


theorem countInRange_middle (p q : Nat → Bool) (a n lo hi : Nat)
    (h1 : a ≤ lo) (h2 : lo ≤ hi) (h3 : hi ≤ a + n)
    (hlow : ∀ c, a ≤ c → c < lo → p c = false)
    (hhigh : ∀ c, hi ≤ c → c < a + n → p c = false)
    (hmid : ∀ c, lo ≤ c → c < hi → p c = q c) :
    countInRange p a n = countInRange q lo (hi - lo) := by
  have hn : n = (lo - a) + ((hi - lo) + (a + n - hi)) := by omega
  rw [hn, countInRange_split, countInRange_split]
  rw [countInRange_false p (lo - a) a ?low]
  case low =>
    intro c hc1 hc2
    exact hlow c hc1 (by omega)
  have ha : a + (lo - a) = lo := by omega
  rw [ha]
  rw [countInRange_false p (a + n - hi) (lo + (hi - lo)) ?high]
  case high =>
    intro c hc1 hc2
    exact hhigh c (by omega) (by omega)
  rw [countInRange_congr p q (hi - lo) lo ?mid]
  case mid =>
    intro c hc1 hc2
    exact hmid c hc1 (by omega)
  omega

/-- After one range delete with the marking formula, the number of valid
entries of an existing block drops by exactly the block's delete count. -/
theorem validCount_after (s s' : CpfileState) (start end_ b : Nat)
    (hE : 1 ≤ s.E) (hF : s.F = 1) (hbx : s.blkExists b = true)
    (hE' : s'.E = s.E)
    (hshape_inv : ∀ c, (s'.cp c).cp_invalid =
        ((s.cp c).cp_invalid ||
          (decide (start ≤ c) && decide (c < end_) &&
            s.blkExists (nilfs_cpfile_get_blkoff s c) && !(s.cp c).cp_snapshot))) :
    validCount s' b = validCount s b - nicsOf s start end_ b ∧
    nicsOf s start end_ b ≤ validCount s b := by
  have hdivb : ∀ c, s.E * b ≤ c → c < s.E * b + s.E → nilfs_cpfile_get_blkoff s c = b := by
    intro c h1 h2
    rw [blkoff_eq s hF]
    exact div_eq_block s.E b c hE h1 h2
  -- the block count in s' equals the count of "valid and kept" in s
  have hv' : validCount s' b
      = countInRange (fun c => !(s.cp c).cp_invalid &&
          !(decide (start ≤ c) && decide (c < end_) && !(s.cp c).cp_snapshot))
          (s.E * b) s.E := by
    unfold validCount
    rw [hE']
    apply countInRange_congr
    intro c h1 h2
    beta_reduce
    rw [hshape_inv c, hdivb c h1 (by omega), hbx]
    cases (s.cp c).cp_invalid <;> cases (s.cp c).cp_snapshot <;>
      cases hd1 : decide (start ≤ c) <;> cases hd2 : decide (c < end_) <;> simp
  -- the per-block delete count, as a count over the whole block
  have hnics : nicsOf s start end_ b
      = countInRange (fun c => !(s.cp c).cp_invalid &&
          (decide (start ≤ c) && decide (c < end_) && !(s.cp c).cp_snapshot))
          (s.E * b) s.E := by
    unfold nicsOf countValidNonSnap
    by_cases hne : max start (s.E * b) < min end_ (s.E * b + s.E)
    · symm
      have hmid := countInRange_middle
        (fun c => !(s.cp c).cp_invalid &&
          (decide (start ≤ c) && decide (c < end_) && !(s.cp c).cp_snapshot))
        (fun c => s.blkExists (nilfs_cpfile_get_blkoff s c) &&
          !(s.cp c).cp_invalid && !(s.cp c).cp_snapshot)
        (s.E * b) s.E (max start (s.E * b)) (min end_ (s.E * b + s.E))
        (Nat.le_max_right _ _) (by omega) (by omega) ?low ?high ?mid
      case low =>
        intro c hc1 hc2
        beta_reduce
        have hd1 : ¬ start ≤ c := by omega
        simp [hd1]
      case high =>
        intro c hc1 hc2
        beta_reduce
        have hd2 : ¬ c < end_ := by omega
        simp [hd2]
      case mid =>
        intro c hc1 hc2
        beta_reduce
        rw [hdivb c (by omega) (by omega), hbx]
        have hd1 : start ≤ c := by omega
        have hd2 : c < end_ := by omega
        simp only [hd1, hd2, decide_True]
        cases (s.cp c).cp_invalid <;> cases (s.cp c).cp_snapshot <;> simp
      exact hmid
    · rw [Nat.sub_eq_zero_of_le (by omega), countInRange]
      symm
      apply countInRange_false
      intro c h1 h2
      by_cases hd1 : start ≤ c
      · have hd2 : decide (c < end_) = false := by simp [Nat.not_lt]; omega
        rw [hd2]
        simp
      · have hd1' : decide (start ≤ c) = false := by simp [hd1]
        rw [hd1']
        simp
  have hadd := countInRange_add_pred (fun c => !(s.cp c).cp_invalid)
    (fun c => decide (start ≤ c) && decide (c < end_) && !(s.cp c).cp_snapshot)
    s.E (s.E * b)
  beta_reduce at hadd
  constructor
  · rw [hv', hnics]
    unfold validCount
    omega
  · have hle := countInRange_and_le (fun c => !(s.cp c).cp_invalid)
      (fun c => decide (start ≤ c) && decide (c < end_) && !(s.cp c).cp_snapshot)
      (s.E * b) s.E
    beta_reduce at hle
    rw [hnics]
    unfold validCount
    omega

theorem cpData_eq_of (e1 e2 : Checkpoint) (h1 : cpRest e1 = cpRest e2)
    (h2 : e1.cp_invalid = e2.cp_invalid) : cpData e1 = cpData e2 := by
  cases e1; cases e2
  simp only [cpRest, cpData, Checkpoint.mk.injEq] at h1 ⊢
  simp_all

/-- C2: a range delete over `[start, end)` that meets at least one snapshot and
`n ≥ 1` deletable plain checkpoints returns `-EBUSY` while still deleting the
plain checkpoints: they are all marked INVALID, `ch_ncheckpoints` drops by
exactly `n`, every snapshot entry keeps all of its record except the per-block
census word, and `ch_nsnapshots` is untouched. -/
theorem delete_checkpoints_partial_success (s : CpfileState) (start end_ : Nat)
    (hE : 1 ≤ s.E) (hF : s.F = 1)
    (hs : 1 ≤ start) (hse : start ≤ end_)
    (hhdr : s.blkExists 0 = true)
    (hsnap : ∃ c, start ≤ c ∧ c < end_ ∧
        s.blkExists (nilfs_cpfile_get_blkoff s c) = true ∧ (s.cp c).cp_snapshot = true)
    (hn : 1 ≤ countValidNonSnap s start end_)
    (hck1 : countValidNonSnap s start end_ ≤ s.header.ch_ncheckpoints)
    (hck2 : s.header.ch_ncheckpoints < U64) :
    (nilfs_cpfile_delete_checkpoints s start end_).1 = ebusy ∧
    (∀ c, start ≤ c → c < end_ →
        s.blkExists (nilfs_cpfile_get_blkoff s c) = true →
        (s.cp c).cp_snapshot = false →
        ((nilfs_cpfile_delete_checkpoints s start end_).2.cp c).cp_invalid = true) ∧
    (nilfs_cpfile_delete_checkpoints s start end_).2.header.ch_ncheckpoints
      = s.header.ch_ncheckpoints - countValidNonSnap s start end_ ∧
    (∀ c, (s.cp c).cp_snapshot = true →
        cpData ((nilfs_cpfile_delete_checkpoints s start end_).2.cp c) = cpData (s.cp c)) ∧
    (nilfs_cpfile_delete_checkpoints s start end_).2.header.ch_nsnapshots
      = s.header.ch_nsnapshots := by
  obtain ⟨hr0, hnicp, hnss, hshape⟩ :=
    deleteLoop_spec end_ (end_ - start) s start 0 0 hE hF hse (Nat.le_refl _)
  set r := nilfs_cpfile_delete_loop end_ s start 0 0 (end_ - start) with hr
  obtain ⟨cS, hc1, hc2, hc3, hc4⟩ := hsnap
  have hnssp : 0 < countSnapIn s start end_ := by
    unfold countSnapIn
    apply countInRange_pos _ _ _ cS hc1 (by omega)
    rw [hc3, hc4]
    rfl
  have htn : 0 < r.2.2.1 := by rw [hnicp]; omega
  have hns : 0 < r.2.2.2 := by rw [hnss]; omega
  have hne : ¬ (start = 0 ∨ end_ < start) := by omega
  have hdc : nilfs_cpfile_delete_checkpoints s start end_
      = (ebusy, { r.2.1 with header := { (r.2.1).header with
          ch_ncheckpoints := u64sub (r.2.1).header.ch_ncheckpoints r.2.2.1 } }) := by
    simp only [nilfs_cpfile_delete_checkpoints]
    rw [← hr, if_neg hne, if_neg (by simp [hhdr]), if_pos htn, if_pos hns]
  have hE' := hshape.1
  have hHdr : (r.2.1).header = s.header := hshape.2.2.1
  have hinv := hshape.2.2.2.2.2.1
  have hrest := hshape.2.2.2.2.2.2.1
  refine ⟨by rw [hdc], ?inv, ?nck, ?snap, ?nss⟩
  case inv =>
    intro c h1 h2 h3 h4
    rw [hdc]
    show ((r.2.1).cp c).cp_invalid = true
    rw [hinv c, h3, h4]
    have hd1 : decide (start ≤ c) = true := by simp; omega
    have hd2 : decide (c < end_) = true := by simp; omega
    rw [hd1, hd2]
    simp
  case nck =>
    rw [hdc]
    show u64sub (r.2.1).header.ch_ncheckpoints r.2.2.1 = _
    rw [hHdr, hnicp, Nat.zero_add]
    exact u64sub_exact _ _ hck1 hck2
  case snap =>
    intro c hcs
    rw [hdc]
    show cpData ((r.2.1).cp c) = cpData (s.cp c)
    apply cpData_eq_of _ _ (hrest c)
    rw [hinv c, hcs]
    simp
  case nss =>
    rw [hdc]
    show (r.2.1).header.ch_nsnapshots = s.header.ch_nsnapshots
    rw [hHdr]

/-- Witness for C2 at the spec's own scenario: deleting `[5, 10)` on
`wsRangeDel` returns `-EBUSY`, drops `ch_ncheckpoints` from 5 to 1 and leaves
`ch_nsnapshots` at 1. -/
theorem delete_checkpoints_partial_success_witness :
    (nilfs_cpfile_delete_checkpoints wsRangeDel 5 10).1 = ebusy ∧
    (nilfs_cpfile_delete_checkpoints wsRangeDel 5 10).2.header.ch_ncheckpoints = 1 ∧
    (nilfs_cpfile_delete_checkpoints wsRangeDel 5 10).2.header.ch_nsnapshots = 1 :=
  have h := delete_checkpoints_partial_success wsRangeDel 5 10 (by decide) (by decide)
    (by decide) (by decide) (by decide) ⟨7, by decide, by decide, by decide, by decide⟩
    (by decide) (by decide) (by decide)
  ⟨h.1, h.2.2.1.trans (by decide), h.2.2.2.2.trans (by decide)⟩

/-- C7: block reclamation through the per-block census.  On a state whose
existing blocks `b ≥ 1` carry an accurate census (`cp_checkpoints_count` of
slot 0 equals the block's valid count) and are non-empty, a range delete
(returning 0 or `-EBUSY`): never deletes block 0 and never touches its census
word; deletes every block whose census it drives to zero (all valid entries
were deletable); and leaves no existing block `b ≥ 1` with zero valid
entries. -/
theorem delete_checkpoints_block_reclamation (s : CpfileState) (start end_ : Nat)
    (hE : 1 ≤ s.E) (hE2 : s.E < U32) (hF : s.F = 1)
    (hs : 1 ≤ start) (hse : start ≤ end_)
    (hhdr : s.blkExists 0 = true)
    (hcen : ∀ b, 1 ≤ b → s.blkExists b = true →
        (s.cp (s.E * b)).cp_checkpoints_count = validCount s b)
    (hnonempty : ∀ b, 1 ≤ b → s.blkExists b = true → 1 ≤ validCount s b) :
    ((nilfs_cpfile_delete_checkpoints s start end_).1 = 0 ∨
     (nilfs_cpfile_delete_checkpoints s start end_).1 = ebusy) ∧
    (nilfs_cpfile_delete_checkpoints s start end_).2.blkExists 0 = true ∧
    ((nilfs_cpfile_delete_checkpoints s start end_).2.cp
        (nilfs_cpfile_first_checkpoint_in_block s 0)).cp_checkpoints_count
      = (s.cp (nilfs_cpfile_first_checkpoint_in_block s 0)).cp_checkpoints_count ∧
    (∀ b, 1 ≤ b → s.blkExists b = true →
        validCount s b = nicsOf s start end_ b →
        (nilfs_cpfile_delete_checkpoints s start end_).2.blkExists b = false) ∧
    (∀ b, 1 ≤ b →
        (nilfs_cpfile_delete_checkpoints s start end_).2.blkExists b = true →
        1 ≤ validCount (nilfs_cpfile_delete_checkpoints s start end_).2 b) := by
  obtain ⟨hr0, hnicp, hnss, hshape⟩ :=
    deleteLoop_spec end_ (end_ - start) s start 0 0 hE hF hse (Nat.le_refl _)
  set r := nilfs_cpfile_delete_loop end_ s start 0 0 (end_ - start) with hr
  have hne : ¬ (start = 0 ∨ end_ < start) := by omega
  have hdc2 : (nilfs_cpfile_delete_checkpoints s start end_).2
      = (if 0 < r.2.2.1
         then { r.2.1 with header := { (r.2.1).header with
             ch_ncheckpoints := u64sub (r.2.1).header.ch_ncheckpoints r.2.2.1 } }
         else r.2.1) := by
    simp only [nilfs_cpfile_delete_checkpoints]
    rw [← hr, if_neg hne, if_neg (by simp [hhdr])]
  have hret : (nilfs_cpfile_delete_checkpoints s start end_).1
      = (if 0 < r.2.2.2 then ebusy else r.1) := by
    simp only [nilfs_cpfile_delete_checkpoints]
    rw [← hr, if_neg hne, if_neg (by simp [hhdr])]
  have hcp : (nilfs_cpfile_delete_checkpoints s start end_).2.cp = (r.2.1).cp := by
    rw [hdc2]; split <;> rfl
  have hbx2 : (nilfs_cpfile_delete_checkpoints s start end_).2.blkExists
      = (r.2.1).blkExists := by
    rw [hdc2]; split <;> rfl
  have hEq : (nilfs_cpfile_delete_checkpoints s start end_).2.E = (r.2.1).E := by
    rw [hdc2]; split <;> rfl
  have hE' : (r.2.1).E = s.E := hshape.1
  have hinv := hshape.2.2.2.2.2.1
  have hcenA := hshape.2.2.2.2.2.2.2.1
  have hcenB := hshape.2.2.2.2.2.2.2.2.1
  have hbxS := hshape.2.2.2.2.2.2.2.2.2
  refine ⟨?ret, ?blk0, ?cen0, ?reclaim, ?live⟩
  case ret =>
    rw [hret]
    by_cases hp : 0 < r.2.2.2
    · rw [if_pos hp]; right; rfl
    · rw [if_neg hp]; left; exact hr0
  case blk0 =>
    rw [hbx2, hbxS 0]
    have h0 : ¬ (1 ≤ 0 ∧ s.blkExists 0 = true ∧ 0 < nicsOf s start end_ 0 ∧
        u32sub (s.cp (s.E * 0)).cp_checkpoints_count (nicsOf s start end_ 0) = 0) := by
      intro hcon; omega
    rw [if_neg h0]
    exact hhdr
  case cen0 =>
    rw [hcp]
    rw [fcib_eq s hF, Nat.mul_zero]
    apply hcenA
    intro b hb
    have : s.E * 1 ≤ s.E * b := Nat.mul_le_mul_left s.E hb
    omega
  case reclaim =>
    intro b hb hbex hall
    rw [hbx2, hbxS b]
    have hvcb := hnonempty b hb hbex
    have hvle : validCount s b ≤ s.E := validCount_le s b
    rw [if_pos ?cond]
    case cond =>
      refine ⟨hb, hbex, by omega, ?hz⟩
      rw [hcen b hb hbex, hall]
      exact u32sub_self _ (by omega)
  case live =>
    intro b hb hbex'
    rw [hbx2, hbxS b] at hbex'
    by_cases hcond : 1 ≤ b ∧ s.blkExists b = true ∧ 0 < nicsOf s start end_ b ∧
        u32sub (s.cp (s.E * b)).cp_checkpoints_count (nicsOf s start end_ b) = 0
    · rw [if_pos hcond] at hbex'
      exact absurd hbex' (by simp)
    · rw [if_neg hcond] at hbex'
      have hva := validCount_after s (r.2.1) start end_ b hE hF hbex' hE' hinv
      have hvcS : validCount (nilfs_cpfile_delete_checkpoints s start end_).2 b
          = validCount (r.2.1) b := by
        unfold validCount
        rw [hcp, hEq]
      rw [hvcS, hva.1]
      have hvcb := hnonempty b hb hbex'
      have hvle : validCount s b ≤ s.E := validCount_le s b
      by_cases hnz : 0 < nicsOf s start end_ b
      · have hneq : u32sub (s.cp (s.E * b)).cp_checkpoints_count
            (nicsOf s start end_ b) ≠ 0 := by
          intro hz
          exact hcond ⟨hb, hbex', hnz, hz⟩
        rw [hcen b hb hbex', u32sub_exact _ _ hva.2 (by omega)] at hneq
        omega
      · omega

/-- Witness for C7 on the spec's scenario: deleting `[5, 10)` on `wsRangeDel`
empties block 2 (entries 8 and 9), so the call deletes block 2, while block 0
survives. -/
theorem delete_checkpoints_block_reclamation_witness :
    (nilfs_cpfile_delete_checkpoints wsRangeDel 5 10).2.blkExists 2 = false ∧
    (nilfs_cpfile_delete_checkpoints wsRangeDel 5 10).2.blkExists 0 = true :=
  have hcen : ∀ b, 1 ≤ b → wsRangeDel.blkExists b = true →
      (wsRangeDel.cp (wsRangeDel.E * b)).cp_checkpoints_count
        = validCount wsRangeDel b := by
    intro b hb hbx
    have hb3 : b = 0 ∨ b = 1 ∨ b = 2 := by
      simp only [wsRangeDel, Bool.or_eq_true, beq_iff_eq] at hbx
      tauto
    rcases hb3 with h | h | h <;> subst h
    · omega
    · decide
    · decide
  have hnonempty : ∀ b, 1 ≤ b → wsRangeDel.blkExists b = true →
      1 ≤ validCount wsRangeDel b := by
    intro b hb hbx
    have hb3 : b = 0 ∨ b = 1 ∨ b = 2 := by
      simp only [wsRangeDel, Bool.or_eq_true, beq_iff_eq] at hbx
      tauto
    rcases hb3 with h | h | h <;> subst h
    · omega
    · decide
    · decide
  have h := delete_checkpoints_block_reclamation wsRangeDel 5 10 (by decide) (by decide)
    (by decide) (by decide) (by decide) (by decide) hcen hnonempty
  ⟨h.2.2.2.1 2 (by decide) (by decide) (by decide), h.2.1⟩

/-! ### The snapshot list: walk correctness, insertion, round trip -/

theorem snapWalk_run (s : CpfileState) (cno stop : Nat) (hstop : stop ≤ cno) :
    ∀ (m : List Nat) (fuel curr currb : Nat), m.length < fuel →
    (∀ x, x ∈ m → cno < x ∧ s.blkExists (nilfs_cpfile_get_blkoff s x) = true) →
    prevSeqB s stop m = true →
    snapWalk s cno fuel curr currb (m.headD stop) = Except.ok (m.getLastD curr, stop)
  | [], fuel + 1, curr, currb, _, _, _ => by
    rw [List.headD_nil, List.getLastD_nil, snapWalk, if_neg (by omega)]
  | v :: m, fuel + 1, curr, currb, hfuel, hmem, hseq => by
    rw [List.headD_cons, snapWalk, if_pos (hmem v (by simp)).1]
    rw [if_neg (by
      intro hcon
      exact absurd (hmem v (by simp)).2 (by rw [hcon.2]; simp))]
    rw [prevSeqB, Bool.and_eq_true, beq_iff_eq] at hseq
    rw [hseq.1, List.getLastD_cons]
    exact snapWalk_run s cno stop hstop m fuel v _ (by simp at hfuel ⊢; omega)
      (fun x hx => hmem x (by simp [hx])) hseq.2

theorem linkedB_append_split (s : CpfileState) :
    ∀ (l1 l2 : List Nat) (p : Nat), linkedB s p (l1 ++ l2) = true →
    linkedB s p l1 = true ∧ linkedB s (l1.getLastD p) l2 = true
  | [], l2, p, h => ⟨rfl, by simpa using h⟩
  | c :: l1, l2, p, h => by
    rw [List.cons_append, linkedB, Bool.and_eq_true, Bool.and_eq_true] at h
    have ih := linkedB_append_split s l1 l2 c h.2
    refine ⟨?_, by rw [List.getLastD_cons]; exact ih.2⟩
    rw [linkedB, Bool.and_eq_true, Bool.and_eq_true]
    exact ⟨h.1, ih.1⟩

theorem linkedB_append_build (s : CpfileState) :
    ∀ (l1 l2 : List Nat) (p : Nat), linkedB s p l1 = true →
    linkedB s (l1.getLastD p) l2 = true → linkedB s p (l1 ++ l2) = true
  | [], l2, p, _, h2 => by simpa using h2
  | c :: l1, l2, p, h1, h2 => by
    rw [linkedB, Bool.and_eq_true, Bool.and_eq_true] at h1
    rw [List.cons_append, linkedB, Bool.and_eq_true, Bool.and_eq_true]
    rw [List.getLastD_cons] at h2
    exact ⟨h1.1, linkedB_append_build s l1 l2 c h1.2 h2⟩

theorem linkedB_congr (s s' : CpfileState) :
    ∀ (m : List Nat) (p : Nat),
    (∀ x, x = p ∨ x ∈ m.dropLast → sslNextOf s' x = sslNextOf s x) →
    (∀ x, x ∈ m → sslPrevOf s' x = sslPrevOf s x) →
    linkedB s' p m = linkedB s p m
  | [], p, _, _ => rfl
  | [c], p, hn, hp => by
    rw [linkedB, linkedB, hn p (Or.inl rfl), hp c (by simp)]
    rfl
  | c :: d :: m, p, hn, hp => by
    have ih := linkedB_congr s s' (d :: m) c
      (by
        intro x hx
        apply hn
        rcases hx with h | h
        · right; rw [h]; simp [List.dropLast]
        · right
          simp only [List.dropLast] at h ⊢
          simp [h]
      )
      (by intro x hx; exact hp x (by simp at hx ⊢; tauto))
    rw [linkedB, ih, hn p (Or.inl rfl), hp c (by simp)]
    rfl

theorem linkedB_prevSeq_snoc (s : CpfileState) (p c : Nat) (hc : (s.cp c).ssl_prev = p) :
    ∀ (m : List Nat), prevSeqB s c m = true → prevSeqB s p (m ++ [c]) = true
  | [], _ => by
    rw [List.nil_append, prevSeqB, prevSeqB, List.headD_nil, Bool.and_eq_true, beq_iff_eq]
    exact ⟨hc, rfl⟩
  | v :: m, h => by
    rw [prevSeqB, Bool.and_eq_true, beq_iff_eq] at h
    rw [List.cons_append, prevSeqB, Bool.and_eq_true, beq_iff_eq]
    constructor
    · rw [h.1]
      cases m <;> simp
    · exact linkedB_prevSeq_snoc s p c hc m h.2

theorem linkedB_prevSeq (s : CpfileState) :
    ∀ (l : List Nat) (p : Nat), linkedB s p l = true → (∀ x, x ∈ l → x ≠ 0) →
    prevSeqB s p l.reverse = true
  | [], p, _, _ => rfl
  | c :: l, p, h, hz => by
    rw [linkedB, Bool.and_eq_true, Bool.and_eq_true, beq_iff_eq, beq_iff_eq] at h
    rw [List.reverse_cons]
    have hprev : (s.cp c).ssl_prev = p := by
      have := h.1.2
      rw [sslPrevOf, if_neg (hz c (by simp))] at this
      exact this
    exact linkedB_prevSeq_snoc s p c hprev l.reverse
      (linkedB_prevSeq s l c h.2 (fun x hx => hz x (by simp [hx])))

theorem strictSortedB_lt_mem : ∀ (l : List Nat) (p : Nat), strictSortedB p l = true →
    ∀ x, x ∈ l → p < x
  | [], _, _, x, hx => absurd hx (by simp)
  | c :: l, p, h, x, hx => by
    rw [strictSortedB, Bool.and_eq_true, decide_eq_true_eq] at h
    rcases List.mem_cons.1 hx with h1 | h1
    · omega
    · have := strictSortedB_lt_mem l c h.2 x h1
      omega

theorem strictSortedB_append_split : ∀ (l1 l2 : List Nat) (p : Nat),
    strictSortedB p (l1 ++ l2) = true →
    strictSortedB p l1 = true ∧ strictSortedB (l1.getLastD p) l2 = true
  | [], l2, p, h => ⟨rfl, by simpa using h⟩
  | c :: l1, l2, p, h => by
    rw [List.cons_append, strictSortedB, Bool.and_eq_true] at h
    have ih := strictSortedB_append_split l1 l2 c h.2
    refine ⟨?_, by rw [List.getLastD_cons]; exact ih.2⟩
    rw [strictSortedB, Bool.and_eq_true]
    exact ⟨h.1, ih.1⟩

theorem strictSortedB_append_build : ∀ (l1 l2 : List Nat) (p : Nat),
    strictSortedB p l1 = true → strictSortedB (l1.getLastD p) l2 = true →
    strictSortedB p (l1 ++ l2) = true
  | [], l2, p, _, h2 => by simpa using h2
  | c :: l1, l2, p, h1, h2 => by
    rw [strictSortedB, Bool.and_eq_true] at h1
    rw [List.cons_append, strictSortedB, Bool.and_eq_true]
    rw [List.getLastD_cons] at h2
    exact ⟨h1.1, strictSortedB_append_build l1 l2 c h1.2 h2⟩

theorem strictSortedB_anchor (l : List Nat) (p q : Nat)
    (h : strictSortedB p l = true) (hq : l = [] ∨ q < l.headD 0) :
    strictSortedB q l = true := by
  cases l with
  | nil => rfl
  | cons c l =>
    rw [strictSortedB, Bool.and_eq_true] at h ⊢
    refine ⟨?_, h.2⟩
    rcases hq with hq | hq
    · exact absurd hq (by simp)
    · simp at hq ⊢; omega

theorem snapInsert_split (cno : Nat) : ∀ (lo hi : List Nat),
    (∀ x, x ∈ lo → x < cno) → (∀ x, x ∈ hi → cno < x) →
    snapInsert cno (lo ++ hi) = lo ++ cno :: hi
  | [], hi, _, hhi => by
    cases hi with
    | nil => rfl
    | cons h t =>
      rw [List.nil_append, snapInsert, if_neg (by have := hhi h (by simp); omega)]
      rfl
  | c :: lo, hi, hlo, hhi => by
    rw [List.cons_append, snapInsert, if_pos (hlo c (by simp)), List.cons_append]
    rw [snapInsert_split cno lo hi (fun x hx => hlo x (by simp [hx])) hhi]

theorem getLastD_append : ∀ (lo hi : List Nat) (d : Nat),
    (lo ++ hi).getLastD d = hi.getLastD (lo.getLastD d)
  | [], hi, d => rfl
  | c :: lo, hi, d => by
    rw [List.cons_append, List.getLastD_cons, List.getLastD_cons]
    exact getLastD_append lo hi c

theorem rev_headD (hi : List Nat) (d : Nat) : (hi.reverse).headD d = hi.getLastD d := by
  rw [List.headD_eq_head?, List.head?_reverse, List.getLastD_eq_getLast?]

theorem rev_getLastD (hi : List Nat) (d : Nat) : (hi.reverse).getLastD d = hi.headD d := by
  rw [List.getLastD_eq_getLast?, List.getLast?_reverse, List.headD_eq_head?]

theorem getLastD_mem : ∀ (l : List Nat) (d : Nat), l = [] ∨ l.getLastD d ∈ l
  | [], _ => Or.inl rfl
  | c :: l, d => by
    right
    rw [List.getLastD_cons]
    rcases getLastD_mem l c with h | h
    · subst h; simp
    · rw [List.mem_cons]
      right
      exact h

theorem setSslPrev_cp_ne (s : CpfileState) (a v x : Nat) (h : x ≠ a) :
    (setSslPrev s a v).cp x = s.cp x := by
  unfold setSslPrev
  split
  · rfl
  · exact setCp_cp_ne s a _ x h

theorem setSslPrev_cp_zero (s : CpfileState) (v : Nat) :
    (setSslPrev s 0 v).cp = s.cp := by
  unfold setSslPrev
  rw [if_pos rfl]

theorem setSslPrev_cp_same (s : CpfileState) (a v : Nat) (h : a ≠ 0) :
    (setSslPrev s a v).cp a = { s.cp a with ssl_prev := v } := by
  unfold setSslPrev
  rw [if_neg h, setCp_cp_same]

theorem setSslPrev_header_zero (s : CpfileState) (v : Nat) :
    (setSslPrev s 0 v).header = { s.header with ssl_prev := v } := by
  unfold setSslPrev
  rw [if_pos rfl]

theorem setSslPrev_header_ne (s : CpfileState) (a v : Nat) (h : a ≠ 0) :
    (setSslPrev s a v).header = s.header := by
  unfold setSslPrev
  rw [if_neg h, setCp_header]

theorem setSslPrev_E (s : CpfileState) (a v : Nat) : (setSslPrev s a v).E = s.E := by
  unfold setSslPrev; split <;> rfl

theorem setSslPrev_F (s : CpfileState) (a v : Nat) : (setSslPrev s a v).F = s.F := by
  unfold setSslPrev; split <;> rfl

theorem setSslPrev_blkExists (s : CpfileState) (a v : Nat) :
    (setSslPrev s a v).blkExists = s.blkExists := by
  unfold setSslPrev; split <;> rfl

theorem setSslPrev_nextCno (s : CpfileState) (a v : Nat) :
    (setSslPrev s a v).nextCno = s.nextCno := by
  unfold setSslPrev; split <;> rfl

theorem setSslPrev_log (s : CpfileState) (a v : Nat) : (setSslPrev s a v).log = s.log := by
  unfold setSslPrev; split <;> rfl

theorem setSslNext_cp_ne (s : CpfileState) (a v x : Nat) (h : x ≠ a) :
    (setSslNext s a v).cp x = s.cp x := by
  unfold setSslNext
  split
  · rfl
  · exact setCp_cp_ne s a _ x h

theorem setSslNext_cp_zero (s : CpfileState) (v : Nat) :
    (setSslNext s 0 v).cp = s.cp := by
  unfold setSslNext
  rw [if_pos rfl]

theorem setSslNext_cp_same (s : CpfileState) (a v : Nat) (h : a ≠ 0) :
    (setSslNext s a v).cp a = { s.cp a with ssl_next := v } := by
  unfold setSslNext
  rw [if_neg h, setCp_cp_same]

theorem setSslNext_header_zero (s : CpfileState) (v : Nat) :
    (setSslNext s 0 v).header = { s.header with ssl_next := v } := by
  unfold setSslNext
  rw [if_pos rfl]

theorem setSslNext_header_ne (s : CpfileState) (a v : Nat) (h : a ≠ 0) :
    (setSslNext s a v).header = s.header := by
  unfold setSslNext
  rw [if_neg h, setCp_header]

theorem setSslNext_E (s : CpfileState) (a v : Nat) : (setSslNext s a v).E = s.E := by
  unfold setSslNext; split <;> rfl

theorem setSslNext_F (s : CpfileState) (a v : Nat) : (setSslNext s a v).F = s.F := by
  unfold setSslNext; split <;> rfl

theorem setSslNext_blkExists (s : CpfileState) (a v : Nat) :
    (setSslNext s a v).blkExists = s.blkExists := by
  unfold setSslNext; split <;> rfl

theorem setSslNext_nextCno (s : CpfileState) (a v : Nat) :
    (setSslNext s a v).nextCno = s.nextCno := by
  unfold setSslNext; split <;> rfl

theorem setSslNext_log (s : CpfileState) (a v : Nat) : (setSslNext s a v).log = s.log := by
  unfold setSslNext; split <;> rfl

theorem snapInsertState_E (s : CpfileState) (cno curr prev_ : Nat) :
    (snapInsertState s cno curr prev_).E = s.E := by
  simp only [snapInsertState, setSslNext_E, setCp_E, setSslPrev_E]

theorem snapInsertState_F (s : CpfileState) (cno curr prev_ : Nat) :
    (snapInsertState s cno curr prev_).F = s.F := by
  simp only [snapInsertState, setSslNext_F, setCp_F, setSslPrev_F]

theorem snapInsertState_blkExists (s : CpfileState) (cno curr prev_ : Nat) :
    (snapInsertState s cno curr prev_).blkExists = s.blkExists := by
  simp only [snapInsertState, setSslNext_blkExists, setCp_blkExists, setSslPrev_blkExists]

theorem snapInsertState_nextCno (s : CpfileState) (cno curr prev_ : Nat) :
    (snapInsertState s cno curr prev_).nextCno = s.nextCno := by
  simp only [snapInsertState, setSslNext_nextCno, setCp_nextCno, setSslPrev_nextCno]

theorem snapInsertState_log (s : CpfileState) (cno curr prev_ : Nat) :
    (snapInsertState s cno curr prev_).log = s.log := by
  simp only [snapInsertState, setSslNext_log, setCp_log, setSslPrev_log]

theorem snapInsertState_header (s : CpfileState) (cno curr prev_ : Nat) :
    (snapInsertState s cno curr prev_).header =
      { ch_ncheckpoints := s.header.ch_ncheckpoints,
        ch_nsnapshots := u64add s.header.ch_nsnapshots 1,
        ssl_next := if prev_ = 0 then cno else s.header.ssl_next,
        ssl_prev := if curr = 0 then cno else s.header.ssl_prev } := by
  simp only [snapInsertState]
  by_cases hp : prev_ = 0
  · subst hp
    rw [if_pos rfl, setSslNext_header_zero, setCp_header]
    by_cases hcz : curr = 0
    · subst hcz
      rw [if_pos rfl, setSslPrev_header_zero]
    · rw [if_neg hcz, setSslPrev_header_ne s curr cno hcz]
  · rw [if_neg hp, setSslNext_header_ne _ _ _ hp, setCp_header]
    by_cases hcz : curr = 0
    · subst hcz
      rw [if_pos rfl, setSslPrev_header_zero]
    · rw [if_neg hcz, setSslPrev_header_ne s curr cno hcz]

theorem snapInsertState_cp_cno (s : CpfileState) (cno curr prev_ : Nat)
    (hc : curr ≠ cno) (hpv : prev_ ≠ cno) :
    (snapInsertState s cno curr prev_).cp cno
      = { s.cp cno with ssl_next := curr, ssl_prev := prev_, cp_snapshot := true } := by
  simp only [snapInsertState]
  rw [setSslNext_cp_ne _ _ _ _ (Ne.symm hpv), setCp_cp_same,
    setSslPrev_cp_ne _ _ _ _ (Ne.symm hc)]

theorem snapInsertState_cp_curr (s : CpfileState) (cno curr prev_ : Nat)
    (hc : curr ≠ cno) (hcz : curr ≠ 0) (hpc : prev_ ≠ curr) :
    (snapInsertState s cno curr prev_).cp curr = { s.cp curr with ssl_prev := cno } := by
  simp only [snapInsertState]
  rw [setSslNext_cp_ne _ _ _ _ (Ne.symm hpc), setCp_cp_ne _ _ _ _ hc,
    setSslPrev_cp_same _ _ _ hcz]

theorem snapInsertState_cp_prev (s : CpfileState) (cno curr prev_ : Nat)
    (hpv : prev_ ≠ cno) (hpz : prev_ ≠ 0) (hpc : prev_ ≠ curr) :
    (snapInsertState s cno curr prev_).cp prev_ = { s.cp prev_ with ssl_next := cno } := by
  simp only [snapInsertState]
  rw [setSslNext_cp_same _ _ _ hpz, setCp_cp_ne _ _ _ _ hpv,
    setSslPrev_cp_ne _ _ _ _ hpc]

theorem snapInsertState_cp_other (s : CpfileState) (cno curr prev_ x : Nat)
    (h1 : x ≠ cno) (h2 : x ≠ curr) (h3 : x ≠ prev_) :
    (snapInsertState s cno curr prev_).cp x = s.cp x := by
  simp only [snapInsertState]
  rw [setSslNext_cp_ne _ _ _ _ h3, setCp_cp_ne _ _ _ _ h1, setSslPrev_cp_ne _ _ _ _ h2]

theorem snapInsertState_next (s : CpfileState) (cno curr prev_ x : Nat)
    (hc : curr ≠ cno) (hpv : prev_ ≠ cno) (hcno : cno ≠ 0)
    (hboth : curr = prev_ → curr = 0) :
    sslNextOf (snapInsertState s cno curr prev_) x
      = if x = prev_ then cno else if x = cno then curr else sslNextOf s x := by
  by_cases hx0 : x = 0
  · subst hx0
    rw [sslNextOf, if_pos rfl, snapInsertState_header]
    by_cases hp0 : prev_ = 0
    · simp [hp0]
    · have h1 : ¬ (0 = prev_) := fun h => hp0 h.symm
      have h2 : ¬ (0 = cno) := fun h => hcno h.symm
      simp [hp0, h1, h2, sslNextOf]
  · rw [sslNextOf, if_neg hx0]
    by_cases hxp : x = prev_
    · have hp0 : prev_ ≠ 0 := fun h => hx0 (hxp.trans h)
      have hpc : prev_ ≠ curr := fun h => hp0 (h.trans (hboth h.symm))
      rw [hxp, snapInsertState_cp_prev s cno curr prev_ hpv hp0 hpc, if_pos rfl]
    · by_cases hxc : x = cno
      · rw [if_neg hxp, hxc, snapInsertState_cp_cno s cno curr prev_ hc hpv, if_pos rfl]
      · rw [if_neg hxp, if_neg hxc]
        by_cases hxu : x = curr
        · have hcz : curr ≠ 0 := fun h => hx0 (hxu.trans h)
          have hpc2 : prev_ ≠ curr := fun h => hxp (hxu.trans h.symm)
          rw [hxu, snapInsertState_cp_curr s cno curr prev_ hc hcz hpc2,
            sslNextOf, if_neg hcz]
        · rw [snapInsertState_cp_other s cno curr prev_ x hxc hxu hxp,
            sslNextOf, if_neg hx0]

theorem snapInsertState_prev (s : CpfileState) (cno curr prev_ x : Nat)
    (hc : curr ≠ cno) (hpv : prev_ ≠ cno) (hcno : cno ≠ 0)
    (hboth : curr = prev_ → curr = 0) :
    sslPrevOf (snapInsertState s cno curr prev_) x
      = if x = curr then cno else if x = cno then prev_ else sslPrevOf s x := by
  by_cases hx0 : x = 0
  · subst hx0
    rw [sslPrevOf, if_pos rfl, snapInsertState_header]
    by_cases hc0 : curr = 0
    · simp [hc0]
    · have h1 : ¬ (0 = curr) := fun h => hc0 h.symm
      have h2 : ¬ (0 = cno) := fun h => hcno h.symm
      simp [hc0, h1, h2, sslPrevOf]
  · rw [sslPrevOf, if_neg hx0]
    by_cases hxu : x = curr
    · have hcz : curr ≠ 0 := fun h => hx0 (hxu.trans h)
      have hpc : prev_ ≠ curr := fun h => hcz (hboth h.symm)
      rw [hxu, snapInsertState_cp_curr s cno curr prev_ hc hcz hpc, if_pos rfl]
    · by_cases hxc : x = cno
      · rw [if_neg hxu, hxc, snapInsertState_cp_cno s cno curr prev_ hc hpv, if_pos rfl]
      · rw [if_neg hxu, if_neg hxc]
        by_cases hxp : x = prev_
        · have hp0 : prev_ ≠ 0 := fun h => hx0 (hxp.trans h)
          have hpc2 : prev_ ≠ curr := fun h => hxu (hxp.trans h)
          rw [hxp, snapInsertState_cp_prev s cno curr prev_ hpv hp0 hpc2,
            sslPrevOf, if_neg hp0]
        · rw [snapInsertState_cp_other s cno curr prev_ x hxc hxu hxp,
            sslPrevOf, if_neg hx0]

theorem set_snapshot_spec (s : CpfileState) (cno fuel : Nat) (lo hi : List Nat)
    (hok : snapListOkB s (lo ++ hi) = true)
    (hlo : ∀ x, x ∈ lo → x < cno) (hhi : ∀ x, x ∈ hi → cno < x)
    (hcno1 : 1 ≤ cno)
    (hhdr : s.blkExists 0 = true)
    (hbx : s.blkExists (nilfs_cpfile_get_blkoff s cno) = true)
    (hval : (s.cp cno).cp_invalid = false)
    (hsnp : (s.cp cno).cp_snapshot = false)
    (hfuel : hi.length + 1 ≤ fuel) :
    nilfs_cpfile_set_snapshot s cno fuel
      = (0, snapInsertState s cno (hi.headD 0) (lo.getLastD 0)) := by
  rw [snapListOkB, Bool.and_eq_true, Bool.and_eq_true] at hok
  obtain ⟨⟨hchain, hsort⟩, hall⟩ := hok
  have hmem : ∀ x, x ∈ lo ++ hi → (s.cp x).cp_invalid = false ∧
      (s.cp x).cp_snapshot = true ∧
      s.blkExists (nilfs_cpfile_get_blkoff s x) = true := by
    intro x hx
    rw [List.all_eq_true] at hall
    have h := hall x hx
    simp only [Bool.and_eq_true, Bool.not_eq_true'] at h
    exact ⟨h.1.1, h.1.2, h.2⟩
  rw [chainB, Bool.and_eq_true, Bool.and_eq_true, beq_iff_eq, beq_iff_eq] at hchain
  obtain ⟨⟨hlink, hlast⟩, hprev0⟩ := hchain
  have hz : ∀ x, x ∈ lo ++ hi → x ≠ 0 := by
    intro x hx
    have := strictSortedB_lt_mem _ 0 hsort x hx
    omega
  have hsplit := linkedB_append_split s lo hi 0 hlink
  have hstople : lo.getLastD 0 ≤ cno := by
    rcases getLastD_mem lo 0 with h | h
    · rw [h, List.getLastD_nil]; omega
    · have := hlo _ h
      omega
  have hseq : prevSeqB s (lo.getLastD 0) hi.reverse = true :=
    linkedB_prevSeq s hi (lo.getLastD 0) hsplit.2
      (fun x hx => hz x (by simp [hx]))
  have hwalk : snapWalk s cno fuel 0 0 s.header.ssl_prev
      = Except.ok (hi.headD 0, lo.getLastD 0) := by
    have h2 : sslPrevOf s 0 = s.header.ssl_prev := by rw [sslPrevOf, if_pos rfl]
    have h1 : s.header.ssl_prev = (hi.reverse).headD (lo.getLastD 0) := by
      rw [← h2, hprev0, getLastD_append, rev_headD]
    rw [h1, snapWalk_run s cno (lo.getLastD 0) hstople hi.reverse fuel 0 0
      (by simp; omega)
      (fun x hx => ⟨hhi x (List.mem_reverse.1 hx),
        (hmem x (by simp [List.mem_reverse.1 hx])).2.2⟩)
      hseq, rev_getLastD]
  have hfin : ¬ (lo.getLastD 0 ≠ 0 ∧
      s.blkExists (nilfs_cpfile_get_blkoff s (lo.getLastD 0)) = false) := by
    rcases getLastD_mem lo 0 with h | h
    · rw [h, List.getLastD_nil]
      simp
    · intro hcon
      rw [(hmem _ (List.mem_append.2 (Or.inl h))).2.2] at hcon
      exact absurd hcon.2 (by simp)
  simp only [nilfs_cpfile_set_snapshot]
  rw [if_neg (by omega), if_neg (by simp [hhdr]), if_neg (by simp [hbx]),
    if_neg (by simp [hval]), if_neg (by simp [hsnp])]
  split
  · next err heq =>
    rw [hwalk] at heq
    cases heq
  · next curr prev heq =>
    rw [hwalk] at heq
    obtain ⟨h1, h2⟩ : curr = hi.headD 0 ∧ prev = lo.getLastD 0 := by
      cases heq
      exact ⟨rfl, rfl⟩
    subst h1
    subst h2
    rw [if_neg hfin]
    rfl

theorem headD_mem : ∀ (l : List Nat) (d : Nat), l = [] ∨ l.headD d ∈ l
  | [], _ => Or.inl rfl
  | c :: l, d => Or.inr (by rw [List.headD_cons]; simp)

theorem getLastD_default_irrel : ∀ (l : List Nat) (d d' : Nat), l ≠ [] →
    l.getLastD d = l.getLastD d'
  | [], _, _, h => absurd rfl h
  | c :: l, d, d', _ => by rw [List.getLastD_cons, List.getLastD_cons]

theorem strictSorted_dropLast_lt : ∀ (l : List Nat) (p d : Nat), strictSortedB p l = true →
    ∀ x, x ∈ l.dropLast → x < l.getLastD d
  | [], _, _, _, x, hx => absurd hx (by simp)
  | [c], _, _, _, x, hx => absurd hx (by simp)
  | c :: e :: l, p, d, h, x, hx => by
    rw [strictSortedB, Bool.and_eq_true] at h
    rw [List.dropLast_cons₂] at hx
    rw [List.getLastD_cons]
    rcases List.mem_cons.1 hx with h1 | h1
    · subst h1
      rcases getLastD_mem (e :: l) x with h2 | h2
      · cases h2
      · exact strictSortedB_lt_mem _ x h.2 _ h2
    · exact strictSorted_dropLast_lt (e :: l) c c h.2 x h1

theorem get_blkoff_congr (s s' : CpfileState) (hE : s'.E = s.E) (hF : s'.F = s.F) (x : Nat) :
    nilfs_cpfile_get_blkoff s' x = nilfs_cpfile_get_blkoff s x := by
  unfold nilfs_cpfile_get_blkoff
  rw [hE, hF]

theorem snapInsertState_cp_zero (s : CpfileState) (cno curr prev_ : Nat)
    (hcno : cno ≠ 0) :
    (snapInsertState s cno curr prev_).cp 0 = s.cp 0 := by
  simp only [snapInsertState]
  by_cases hp : prev_ = 0
  · subst hp
    rw [setSslNext_cp_zero, setCp_cp_ne _ _ _ _ (fun h => hcno h.symm)]
    by_cases hcz : curr = 0
    · subst hcz
      rw [setSslPrev_cp_zero]
    · rw [setSslPrev_cp_ne _ _ _ _ (fun h => hcz h.symm)]
  · rw [setSslNext_cp_ne _ _ _ _ (fun h => hp h.symm),
      setCp_cp_ne _ _ _ _ (fun h => hcno h.symm)]
    by_cases hcz : curr = 0
    · subst hcz
      rw [setSslPrev_cp_zero]
    · rw [setSslPrev_cp_ne _ _ _ _ (fun h => hcz h.symm)]

theorem snapInsertState_ok (s : CpfileState) (cno : Nat) (lo hi : List Nat)
    (hok : snapListOkB s (lo ++ hi) = true)
    (hlo : ∀ x, x ∈ lo → x < cno) (hhi : ∀ x, x ∈ hi → cno < x)
    (hcno1 : 1 ≤ cno)
    (hbx : s.blkExists (nilfs_cpfile_get_blkoff s cno) = true)
    (hval : (s.cp cno).cp_invalid = false) :
    snapListOkB (snapInsertState s cno (hi.headD 0) (lo.getLastD 0))
      (lo ++ cno :: hi) = true := by
  rw [snapListOkB, Bool.and_eq_true, Bool.and_eq_true] at hok
  obtain ⟨⟨hchain, hsort⟩, hall⟩ := hok
  have hmem : ∀ x, x ∈ lo ++ hi → (s.cp x).cp_invalid = false ∧
      (s.cp x).cp_snapshot = true ∧
      s.blkExists (nilfs_cpfile_get_blkoff s x) = true := by
    intro x hx
    rw [List.all_eq_true] at hall
    have h := hall x hx
    simp only [Bool.and_eq_true, Bool.not_eq_true'] at h
    exact ⟨h.1.1, h.1.2, h.2⟩
  rw [chainB, Bool.and_eq_true, Bool.and_eq_true, beq_iff_eq, beq_iff_eq] at hchain
  obtain ⟨⟨hlink, hlast⟩, hprev0⟩ := hchain
  have hz : ∀ x, x ∈ lo ++ hi → x ≠ 0 := by
    intro x hx
    have := strictSortedB_lt_mem _ 0 hsort x hx
    omega
  have hLsplit := linkedB_append_split s lo hi 0 hlink
  have hSsplit := strictSortedB_append_split lo hi 0 hsort
  have hpvlt : lo.getLastD 0 < cno := by
    rcases getLastD_mem lo 0 with h | h
    · rw [h, List.getLastD_nil]; omega
    · exact hlo _ h
  have hq : hi = [] ∨ cno < hi.headD 0 := by
    rcases headD_mem hi 0 with h | h
    · exact Or.inl h
    · exact Or.inr (hhi _ h)
  have hcurr0 : hi.headD 0 = 0 ∨ cno < hi.headD 0 := by
    rcases hq with h | h
    · rw [h]; exact Or.inl rfl
    · exact Or.inr h
  have hc : hi.headD 0 ≠ cno := by rcases hcurr0 with h | h <;> omega
  have hpv : lo.getLastD 0 ≠ cno := by omega
  have hcno : cno ≠ 0 := by omega
  have hboth : hi.headD 0 = lo.getLastD 0 → hi.headD 0 = 0 := by
    intro h
    rcases hcurr0 with h1 | h1
    · exact h1
    · omega
  have hnext := fun x =>
    snapInsertState_next s cno (hi.headD 0) (lo.getLastD 0) x hc hpv hcno hboth
  have hprevf := fun x =>
    snapInsertState_prev s cno (hi.headD 0) (lo.getLastD 0) x hc hpv hcno hboth
  have hA : linkedB (snapInsertState s cno (hi.headD 0) (lo.getLastD 0)) 0 lo = true := by
    by_cases hnil : lo = []
    · rw [hnil]; rfl
    · have hpvmem : lo.getLastD 0 ∈ lo := by
        rcases getLastD_mem lo 0 with h | h
        · exact absurd h hnil
        · exact h
      have hcongr := linkedB_congr s (snapInsertState s cno (hi.headD 0) (lo.getLastD 0)) lo 0
        (by
          intro x hx
          rw [hnext x, if_neg ?h1, if_neg ?h2]
          case h1 =>
            rcases hx with h | h
            · rw [h]
              exact fun h2 => hz _ (List.mem_append.2 (Or.inl hpvmem)) h2.symm
            · have := strictSorted_dropLast_lt lo 0 0 hSsplit.1 x h
              omega
          case h2 =>
            rcases hx with h | h
            · rw [h]; exact fun h2 => hcno h2.symm
            · have := hlo x ((List.dropLast_subset lo) h)
              omega)
        (by
          intro x hx
          have hxlt := hlo x hx
          rw [hprevf x, if_neg ?h3, if_neg (by omega)]
          case h3 =>
            rcases hcurr0 with h1 | h1
            · rw [h1]
              exact hz x (List.mem_append.2 (Or.inl hx))
            · omega)
      rw [hcongr]
      exact hLsplit.1
  have hB : linkedB (snapInsertState s cno (hi.headD 0) (lo.getLastD 0))
      (lo.getLastD 0) (cno :: hi) = true := by
    rw [linkedB, Bool.and_eq_true, Bool.and_eq_true, beq_iff_eq, beq_iff_eq]
    refine ⟨⟨?b1, ?b2⟩, ?b3⟩
    case b1 => rw [hnext (lo.getLastD 0), if_pos rfl]
    case b2 => rw [hprevf cno, if_neg (fun h => hc h.symm), if_pos rfl]
    case b3 =>
      rcases hq with hnil | hlt
      · rw [hnil]; rfl
      · cases hi with
        | nil =>
          rw [List.headD_nil] at hlt
          omega
        | cons h t =>
          simp only [List.headD_cons] at hnext hprevf hlt ⊢
          rw [linkedB, Bool.and_eq_true, Bool.and_eq_true, beq_iff_eq, beq_iff_eq]
          have hlink2 : linkedB s h t = true := by
            have h2 := hLsplit.2
            rw [linkedB, Bool.and_eq_true, Bool.and_eq_true] at h2
            exact h2.2
          have hsort2 : strictSortedB h t = true := by
            have h2 := hSsplit.2
            rw [strictSortedB, Bool.and_eq_true] at h2
            exact h2.2
          refine ⟨⟨?c1, ?c2⟩, ?c3⟩
          case c1 =>
            rw [hnext cno, if_neg (fun hx => hpv hx.symm), if_pos rfl]
          case c2 =>
            rw [hprevf h, if_pos rfl]
          case c3 =>
            have hcongr := linkedB_congr s
              (snapInsertState s cno h (lo.getLastD 0)) t h
              (by
                intro x hx
                have hxgt : cno < x := by
                  rcases hx with h1 | h1
                  · rw [h1]; exact hlt
                  · exact hhi x (by simp [(List.dropLast_subset t) h1])
                rw [hnext x, if_neg (by omega), if_neg (by omega)])
              (by
                intro x hx
                have hxgt : cno < x := hhi x (by simp [hx])
                have hxh : h < x := strictSortedB_lt_mem t h hsort2 x hx
                rw [hprevf x, if_neg (by omega), if_neg (by omega)])
            rw [hcongr]
            exact hlink2
  have hD1 : sslNextOf (snapInsertState s cno (hi.headD 0) (lo.getLastD 0))
      ((lo ++ cno :: hi).getLastD 0) = 0 := by
    rw [getLastD_append, List.getLastD_cons]
    rcases hq with hnil | hlt
    · subst hnil
      simp only [List.headD_nil] at hnext ⊢
      rw [List.getLastD_nil]
      rw [hnext cno, if_neg (fun h => hpv h.symm), if_pos rfl]
    · cases hi with
      | nil =>
        rw [List.headD_nil] at hlt
        omega
      | cons h t =>
        simp only [List.headD_cons] at hnext hprevf hlt ⊢
        have hwmem : (h :: t).getLastD cno ∈ h :: t := by
          rcases getLastD_mem (h :: t) cno with h2 | h2
          · cases h2
          · exact h2
        have hwgt : cno < (h :: t).getLastD cno := hhi _ hwmem
        rw [hnext _, if_neg (by omega), if_neg (by omega)]
        rw [getLastD_append] at hlast
        rw [getLastD_default_irrel (h :: t) (lo.getLastD 0) cno (by simp)] at hlast
        exact hlast
  have hD2 : sslPrevOf (snapInsertState s cno (hi.headD 0) (lo.getLastD 0)) 0
      = (lo ++ cno :: hi).getLastD 0 := by
    rw [getLastD_append, List.getLastD_cons]
    rcases hq with hnil | hlt
    · subst hnil
      simp only [List.headD_nil] at hprevf ⊢
      rw [List.getLastD_nil]
      rw [hprevf 0, if_pos rfl]
    · cases hi with
      | nil =>
        rw [List.headD_nil] at hlt
        omega
      | cons h t =>
        simp only [List.headD_cons] at hprevf ⊢
        have hcne : h ≠ 0 := hz h (List.mem_append.2 (Or.inr (by simp)))
        rw [hprevf 0, if_neg (fun h2 => hcne h2.symm), if_neg (fun h2 => hcno h2.symm)]
        rw [hprev0, getLastD_append, getLastD_default_irrel (h :: t) _ cno (by simp)]
  have hE : strictSortedB 0 (lo ++ cno :: hi) = true := by
    apply strictSortedB_append_build lo (cno :: hi) 0 hSsplit.1
    rw [strictSortedB, Bool.and_eq_true, decide_eq_true_eq]
    exact ⟨hpvlt, strictSortedB_anchor hi _ cno hSsplit.2 hq⟩
  have hflags : ∀ x, x ≠ cno →
      (((snapInsertState s cno (hi.headD 0) (lo.getLastD 0)).cp x).cp_invalid
          = (s.cp x).cp_invalid ∧
        ((snapInsertState s cno (hi.headD 0) (lo.getLastD 0)).cp x).cp_snapshot
          = (s.cp x).cp_snapshot) := by
    intro x hxc
    by_cases hx0 : x = 0
    · rw [hx0, snapInsertState_cp_zero s cno _ _ hcno]
      exact ⟨rfl, rfl⟩
    · by_cases hxu : x = hi.headD 0
      · have hcz : hi.headD 0 ≠ 0 := by rw [← hxu]; exact hx0
        have hpc : lo.getLastD 0 ≠ hi.headD 0 := by
          intro h
          exact hcz (hboth h.symm)
        rw [hxu, snapInsertState_cp_curr s cno _ _ hc hcz hpc]
        exact ⟨rfl, rfl⟩
      · by_cases hxp : x = lo.getLastD 0
        · have hpz : lo.getLastD 0 ≠ 0 := by rw [← hxp]; exact hx0
          have hpc : lo.getLastD 0 ≠ hi.headD 0 := by
            intro h
            rw [← h] at hxu
            exact hxu hxp
          rw [hxp, snapInsertState_cp_prev s cno _ _ hpv hpz hpc]
          exact ⟨rfl, rfl⟩
        · rw [snapInsertState_cp_other s cno _ _ x hxc hxu hxp]
          exact ⟨rfl, rfl⟩
  rw [snapListOkB, Bool.and_eq_true, Bool.and_eq_true]
  refine ⟨⟨?chain, hE⟩, ?all⟩
  case chain =>
    rw [chainB, Bool.and_eq_true, Bool.and_eq_true, beq_iff_eq, beq_iff_eq]
    exact ⟨⟨linkedB_append_build _ lo (cno :: hi) 0 hA hB, hD1⟩, hD2⟩
  case all =>
    rw [List.all_eq_true]
    intro x hx
    have hbk : (snapInsertState s cno (hi.headD 0) (lo.getLastD 0)).blkExists
        (nilfs_cpfile_get_blkoff (snapInsertState s cno (hi.headD 0) (lo.getLastD 0)) x)
        = s.blkExists (nilfs_cpfile_get_blkoff s x) := by
      rw [snapInsertState_blkExists,
        get_blkoff_congr s _ (snapInsertState_E s cno _ _) (snapInsertState_F s cno _ _)]
    by_cases hxc : x = cno
    · rw [hxc] at hbk ⊢
      rw [hbk, snapInsertState_cp_cno s cno _ _ hc hpv]
      simp only [hval, hbx]
      rfl
    · have hxl : x ∈ lo ++ hi := by
        rcases List.mem_append.1 hx with h | h
        · exact List.mem_append.2 (Or.inl h)
        · rcases List.mem_cons.1 h with h1 | h1
          · exact absurd h1 hxc
          · exact List.mem_append.2 (Or.inr h1)
      obtain ⟨hm1, hm2, hm3⟩ := hmem x hxl
      obtain ⟨hf1, hf2⟩ := hflags x hxc
      rw [hbk, hf1, hf2, hm1, hm2, hm3]
      rfl

/-- C3: on a well-formed snapshot list split as `lo ++ hi` around a valid
non-snapshot checkpoint `cno`, a successful `set_snapshot` links `cno` between
its neighbours: afterwards the list read off the state is exactly the ordered
insertion of `cno` (so the forward walk is strictly increasing and includes
`cno`, and the backward walk is its mirror), and `ch_nsnapshots` has grown by
exactly 1. -/
theorem set_snapshot_preserves_order (s : CpfileState) (cno fuel : Nat) (lo hi : List Nat)
    (hok : snapListOkB s (lo ++ hi) = true)
    (hlo : ∀ x, x ∈ lo → x < cno) (hhi : ∀ x, x ∈ hi → cno < x)
    (hcno1 : 1 ≤ cno)
    (hhdr : s.blkExists 0 = true)
    (hbx : s.blkExists (nilfs_cpfile_get_blkoff s cno) = true)
    (hval : (s.cp cno).cp_invalid = false)
    (hsnp : (s.cp cno).cp_snapshot = false)
    (hfuel : hi.length + 1 ≤ fuel)
    (hcap : s.header.ch_nsnapshots + 1 < U64) :
    (nilfs_cpfile_set_snapshot s cno fuel).1 = 0 ∧
    snapListOkB (nilfs_cpfile_set_snapshot s cno fuel).2
      (snapInsert cno (lo ++ hi)) = true ∧
    (nilfs_cpfile_set_snapshot s cno fuel).2.header.ch_nsnapshots
      = s.header.ch_nsnapshots + 1 := by
  rw [set_snapshot_spec s cno fuel lo hi hok hlo hhi hcno1 hhdr hbx hval hsnp hfuel]
  refine ⟨rfl, ?ok, ?cnt⟩
  case ok =>
    rw [snapInsert_split cno lo hi hlo hhi]
    exact snapInsertState_ok s cno lo hi hok hlo hhi hcno1 hbx hval
  case cnt =>
    show (snapInsertState s cno (hi.headD 0) (lo.getLastD 0)).header.ch_nsnapshots = _
    rw [snapInsertState_header]
    show u64add s.header.ch_nsnapshots 1 = _
    unfold u64add
    exact Nat.mod_eq_of_lt hcap

/-- Witness for C3: on `wsSnapOne` (snapshot list `[2]`), `set_snapshot 3`
succeeds, the list becomes `[2, 3]` and remains well formed, and
`ch_nsnapshots` becomes 2. -/
theorem set_snapshot_preserves_order_witness :
    (nilfs_cpfile_set_snapshot wsSnapOne 3 10).1 = 0 ∧
    snapListOkB (nilfs_cpfile_set_snapshot wsSnapOne 3 10).2 [2, 3] = true ∧
    (nilfs_cpfile_set_snapshot wsSnapOne 3 10).2.header.ch_nsnapshots = 2 :=
  have h := set_snapshot_preserves_order wsSnapOne 3 10 [2] [] (by decide)
    (by decide) (by decide) (by decide) (by decide) (by decide) (by decide)
    (by decide) (by decide) (by decide)
  ⟨h.1, h.2.1, h.2.2.trans (by decide)⟩

theorem header_eq_of (a b : CpfileHeader)
    (h1 : a.ch_ncheckpoints = b.ch_ncheckpoints)
    (h2 : a.ch_nsnapshots = b.ch_nsnapshots)
    (h3 : a.ssl_next = b.ssl_next)
    (h4 : a.ssl_prev = b.ssl_prev) : a = b := by
  cases a; cases b
  simp_all

theorem snapRemoveState_blkExists (s : CpfileState) (cno n p : Nat) :
    (snapRemoveState s cno n p).blkExists = s.blkExists := by
  simp only [snapRemoveState, setCp_blkExists, setSslNext_blkExists, setSslPrev_blkExists]

theorem snapRemoveState_header (s : CpfileState) (cno n p : Nat) :
    (snapRemoveState s cno n p).header =
      { ch_ncheckpoints := s.header.ch_ncheckpoints,
        ch_nsnapshots := u64sub s.header.ch_nsnapshots 1,
        ssl_next := (if p = 0 then n else s.header.ssl_next),
        ssl_prev := (if n = 0 then p else s.header.ssl_prev) } := by
  simp only [snapRemoveState, setCp_header]
  by_cases hp : p = 0
  · rw [hp, setSslNext_header_zero]
    by_cases hn : n = 0
    · rw [hn, setSslPrev_header_zero]
      simp [hp, hn]
    · rw [setSslPrev_header_ne _ _ _ hn]
      simp [hp, hn]
  · rw [setSslNext_header_ne _ _ _ hp]
    by_cases hn : n = 0
    · rw [hn, setSslPrev_header_zero]
      simp [hp, hn]
    · rw [setSslPrev_header_ne _ _ _ hn]
      simp [hp, hn]

theorem snapRemoveState_cp_cno (s : CpfileState) (cno n p : Nat)
    (hn : n ≠ cno) (hp : p ≠ cno) :
    (snapRemoveState s cno n p).cp cno
      = { s.cp cno with ssl_next := 0, ssl_prev := 0, cp_snapshot := false } := by
  simp only [snapRemoveState, setCp_cp_same]
  have h2 : (setSslNext (setSslPrev s n p) p n).cp cno = s.cp cno := by
    by_cases hp0 : p = 0
    · rw [hp0, setSslNext_cp_zero]
      by_cases hn0 : n = 0
      · rw [hn0, setSslPrev_cp_zero]
      · rw [setSslPrev_cp_ne _ _ _ _ (fun h => hn h.symm)]
    · rw [setSslNext_cp_ne _ _ _ _ (fun h => hp h.symm)]
      by_cases hn0 : n = 0
      · rw [hn0, setSslPrev_cp_zero]
      · rw [setSslPrev_cp_ne _ _ _ _ (fun h => hn h.symm)]
  rw [h2]

theorem snapRemoveState_cp_next (s : CpfileState) (cno n p : Nat)
    (hn0 : n ≠ 0) (hncno : n ≠ cno) (hpn : p ≠ n) :
    (snapRemoveState s cno n p).cp n = { s.cp n with ssl_prev := p } := by
  simp only [snapRemoveState]
  rw [setCp_cp_ne _ _ _ _ hncno]
  by_cases hp0 : p = 0
  · rw [hp0, setSslNext_cp_zero, setSslPrev_cp_same _ _ _ hn0]
  · rw [setSslNext_cp_ne _ _ _ _ (fun h => hpn h.symm), setSslPrev_cp_same _ _ _ hn0]

theorem snapRemoveState_cp_prev (s : CpfileState) (cno n p : Nat)
    (hp0 : p ≠ 0) (hpcno : p ≠ cno) (hpn : p ≠ n) :
    (snapRemoveState s cno n p).cp p = { s.cp p with ssl_next := n } := by
  simp only [snapRemoveState]
  rw [setCp_cp_ne _ _ _ _ hpcno, setSslNext_cp_same _ _ _ hp0]
  by_cases hn0 : n = 0
  · rw [hn0, setSslPrev_cp_zero]
  · rw [setSslPrev_cp_ne _ _ _ _ hpn]

theorem snapRemoveState_cp_zero (s : CpfileState) (cno n p : Nat) (hcno : cno ≠ 0) :
    (snapRemoveState s cno n p).cp 0 = s.cp 0 := by
  simp only [snapRemoveState]
  rw [setCp_cp_ne _ _ _ _ (fun h => hcno h.symm)]
  by_cases hp0 : p = 0
  · rw [hp0, setSslNext_cp_zero]
    by_cases hn0 : n = 0
    · rw [hn0, setSslPrev_cp_zero]
    · rw [setSslPrev_cp_ne _ _ _ _ (fun h => hn0 h.symm)]
  · rw [setSslNext_cp_ne _ _ _ _ (fun h => hp0 h.symm)]
    by_cases hn0 : n = 0
    · rw [hn0, setSslPrev_cp_zero]
    · rw [setSslPrev_cp_ne _ _ _ _ (fun h => hn0 h.symm)]

theorem snapRemoveState_cp_other (s : CpfileState) (cno n p x : Nat)
    (h1 : x ≠ cno) (h2 : x ≠ n) (h3 : x ≠ p) :
    (snapRemoveState s cno n p).cp x = s.cp x := by
  simp only [snapRemoveState]
  rw [setCp_cp_ne _ _ _ _ h1]
  by_cases hp0 : p = 0
  · rw [hp0, setSslNext_cp_zero]
    by_cases hn0 : n = 0
    · rw [hn0, setSslPrev_cp_zero]
    · rw [setSslPrev_cp_ne _ _ _ _ h2]
  · rw [setSslNext_cp_ne _ _ _ _ h3]
    by_cases hn0 : n = 0
    · rw [hn0, setSslPrev_cp_zero]
    · rw [setSslPrev_cp_ne _ _ _ _ h2]
/-- C5: set then clear on a valid plain checkpoint restores the entry's
record (its flags, in particular) except that both snapshot-list links end up
zeroed; every other entry, the whole header (including `ch_nsnapshots`) and
the block map are restored exactly. -/
theorem snapshot_round_trip (s : CpfileState) (cno fuel : Nat) (lo hi : List Nat)
    (hok : snapListOkB s (lo ++ hi) = true)
    (hlo : ∀ x, x ∈ lo → x < cno) (hhi : ∀ x, x ∈ hi → cno < x)
    (hcno1 : 1 ≤ cno)
    (hhdr : s.blkExists 0 = true)
    (hbx : s.blkExists (nilfs_cpfile_get_blkoff s cno) = true)
    (hval : (s.cp cno).cp_invalid = false)
    (hsnp : (s.cp cno).cp_snapshot = false)
    (hfuel : hi.length + 1 ≤ fuel)
    (hcap : s.header.ch_nsnapshots + 1 < U64) :
    (nilfs_cpfile_set_snapshot s cno fuel).1 = 0 ∧
    (nilfs_cpfile_clear_snapshot (nilfs_cpfile_set_snapshot s cno fuel).2 cno).1 = 0 ∧
    (nilfs_cpfile_clear_snapshot (nilfs_cpfile_set_snapshot s cno fuel).2 cno).2.header
      = s.header ∧
    (nilfs_cpfile_clear_snapshot (nilfs_cpfile_set_snapshot s cno fuel).2 cno).2.cp cno
      = { s.cp cno with ssl_next := 0, ssl_prev := 0 } ∧
    (∀ x, x ≠ cno →
      (nilfs_cpfile_clear_snapshot (nilfs_cpfile_set_snapshot s cno fuel).2 cno).2.cp x
        = s.cp x) ∧
    (nilfs_cpfile_clear_snapshot (nilfs_cpfile_set_snapshot s cno fuel).2 cno).2.blkExists
      = s.blkExists := by
  have hset := set_snapshot_spec s cno fuel lo hi hok hlo hhi hcno1 hhdr hbx hval hsnp hfuel
  have hsnd : (nilfs_cpfile_set_snapshot s cno fuel).2
      = snapInsertState s cno (hi.headD 0) (lo.getLastD 0) := by rw [hset]
  have hfst : (nilfs_cpfile_set_snapshot s cno fuel).1 = 0 := by rw [hset]
  -- shared facts about the original list
  have hok2 := hok
  rw [snapListOkB, Bool.and_eq_true, Bool.and_eq_true] at hok2
  obtain ⟨⟨hchain, hsort⟩, hall⟩ := hok2
  have hmem : ∀ x, x ∈ lo ++ hi → (s.cp x).cp_invalid = false ∧
      (s.cp x).cp_snapshot = true ∧
      s.blkExists (nilfs_cpfile_get_blkoff s x) = true := by
    intro x hx
    rw [List.all_eq_true] at hall
    have h := hall x hx
    simp only [Bool.and_eq_true, Bool.not_eq_true'] at h
    exact ⟨h.1.1, h.1.2, h.2⟩
  rw [chainB, Bool.and_eq_true, Bool.and_eq_true, beq_iff_eq, beq_iff_eq] at hchain
  obtain ⟨⟨hlink, hlast⟩, hprev0⟩ := hchain
  have hz : ∀ x, x ∈ lo ++ hi → x ≠ 0 := by
    intro x hx
    have := strictSortedB_lt_mem _ 0 hsort x hx
    omega
  have hLsplit := linkedB_append_split s lo hi 0 hlink
  have hpvlt : lo.getLastD 0 < cno := by
    rcases getLastD_mem lo 0 with h | h
    · rw [h, List.getLastD_nil]; omega
    · exact hlo _ h
  have hq : hi = [] ∨ cno < hi.headD 0 := by
    rcases headD_mem hi 0 with h | h
    · exact Or.inl h
    · exact Or.inr (hhi _ h)
  have hcurr0 : hi.headD 0 = 0 ∨ cno < hi.headD 0 := by
    rcases hq with h | h
    · rw [h]; exact Or.inl rfl
    · exact Or.inr h
  have hc : hi.headD 0 ≠ cno := by rcases hcurr0 with h | h <;> omega
  have hpv : lo.getLastD 0 ≠ cno := by omega
  have hcno : cno ≠ 0 := by omega
  have hboth : hi.headD 0 = lo.getLastD 0 → hi.headD 0 = 0 := by
    intro h
    rcases hcurr0 with h1 | h1
    · exact h1
    · omega
  have hcz_hi : hi.headD 0 ≠ 0 → hi.headD 0 ∈ hi := by
    intro h
    rcases headD_mem hi 0 with h1 | h1
    · rw [h1, List.headD_nil] at h
      exact absurd rfl h
    · exact h1
  have hpz_lo : lo.getLastD 0 ≠ 0 → lo.getLastD 0 ∈ lo := by
    intro h
    rcases getLastD_mem lo 0 with h1 | h1
    · rw [h1, List.getLastD_nil] at h
      exact absurd rfl h
    · exact h1
  have adjN : sslNextOf s (lo.getLastD 0) = hi.headD 0 := by
    rcases hq with hnil | hlt
    · subst hnil
      rw [List.headD_nil]
      rw [List.append_nil] at hlast
      exact hlast
    · cases hi with
      | nil =>
        rw [List.headD_nil] at hlt
        omega
      | cons h t =>
        have h2 := hLsplit.2
        rw [linkedB, Bool.and_eq_true, Bool.and_eq_true, beq_iff_eq, beq_iff_eq] at h2
        rw [List.headD_cons]
        exact h2.1.1
  have adjP : sslPrevOf s (hi.headD 0) = lo.getLastD 0 := by
    rcases hq with hnil | hlt
    · subst hnil
      rw [List.headD_nil]
      rw [List.append_nil] at hprev0
      exact hprev0
    · cases hi with
      | nil =>
        rw [List.headD_nil] at hlt
        omega
      | cons h t =>
        have h2 := hLsplit.2
        rw [linkedB, Bool.and_eq_true, Bool.and_eq_true, beq_iff_eq, beq_iff_eq] at h2
        rw [List.headD_cons]
        exact h2.1.2
  have hNext0 : lo.getLastD 0 = 0 → s.header.ssl_next = hi.headD 0 := by
    intro hp0
    have h2 : sslNextOf s 0 = s.header.ssl_next := by rw [sslNextOf, if_pos rfl]
    have hlonil : lo = [] := by
      by_contra hcon
      have hmem2 : lo.getLastD 0 ∈ lo := by
        rcases getLastD_mem lo 0 with h1 | h1
        · exact absurd h1 hcon
        · exact h1
      exact hz _ (List.mem_append.2 (Or.inl hmem2)) hp0
    subst hlonil
    cases hi with
    | nil =>
      rw [List.headD_nil, ← h2]
      rw [List.append_nil, List.getLastD_nil] at hlast
      exact hlast
    | cons h t =>
      rw [List.nil_append, linkedB, Bool.and_eq_true, Bool.and_eq_true,
        beq_iff_eq, beq_iff_eq] at hlink
      rw [List.headD_cons, ← h2]
      exact hlink.1.1
  have hPrev0 : hi.headD 0 = 0 → s.header.ssl_prev = lo.getLastD 0 := by
    intro hc0
    have h2 : sslPrevOf s 0 = s.header.ssl_prev := by rw [sslPrevOf, if_pos rfl]
    have hhinil : hi = [] := by
      by_contra hcon
      exact hz _ (List.mem_append.2 (Or.inr (by
        rcases headD_mem hi 0 with h1 | h1
        · exact absurd h1 hcon
        · exact h1))) hc0
    subst hhinil
    rw [List.append_nil] at hprev0
    rw [← h2]
    exact hprev0
  -- resolve the guards of clear_snapshot on the inserted state
  rw [hfst, hsnd]
  have hSScp := snapInsertState_cp_cno s cno (hi.headD 0) (lo.getLastD 0) hc hpv
  have hSSblk := snapInsertState_blkExists s cno (hi.headD 0) (lo.getLastD 0)
  have hSSbko := get_blkoff_congr s (snapInsertState s cno (hi.headD 0) (lo.getLastD 0))
    (snapInsertState_E s cno _ _) (snapInsertState_F s cno _ _)
  have hgN : ¬ ((hi.headD 0) ≠ 0 ∧
      (snapInsertState s cno (hi.headD 0) (lo.getLastD 0)).blkExists
        (nilfs_cpfile_get_blkoff
          (snapInsertState s cno (hi.headD 0) (lo.getLastD 0)) (hi.headD 0)) = false) := by
    intro hcon
    have h1 := (hmem _ (List.mem_append.2 (Or.inr (hcz_hi hcon.1)))).2.2
    rw [hSSbko, hSSblk, h1] at hcon
    exact absurd hcon.2 (by simp)
  have hgP : ¬ ((lo.getLastD 0) ≠ 0 ∧
      (snapInsertState s cno (hi.headD 0) (lo.getLastD 0)).blkExists
        (nilfs_cpfile_get_blkoff
          (snapInsertState s cno (hi.headD 0) (lo.getLastD 0)) (lo.getLastD 0)) = false) := by
    intro hcon
    have h1 := (hmem _ (List.mem_append.2 (Or.inl (hpz_lo hcon.1)))).2.2
    rw [hSSbko, hSSblk, h1] at hcon
    exact absurd hcon.2 (by simp)
  have hred : nilfs_cpfile_clear_snapshot
      (snapInsertState s cno (hi.headD 0) (lo.getLastD 0)) cno
      = (0, snapRemoveState (snapInsertState s cno (hi.headD 0) (lo.getLastD 0)) cno
          (hi.headD 0) (lo.getLastD 0)) := by
    simp only [nilfs_cpfile_clear_snapshot]
    rw [if_neg (by omega), if_neg (by rw [hSSblk, hhdr]; simp),
      if_neg (by rw [hSSbko, hSSblk, hbx]; simp),
      if_neg (by rw [hSScp]; simp [hval]),
      if_neg (by rw [hSScp]; simp)]
    rw [hSScp]
    rw [if_neg hgN, if_neg hgP]
    rfl
  have hclr1 : (nilfs_cpfile_clear_snapshot
      (snapInsertState s cno (hi.headD 0) (lo.getLastD 0)) cno).1 = 0 := by
    rw [hred]
  have hclr2 : (nilfs_cpfile_clear_snapshot
      (snapInsertState s cno (hi.headD 0) (lo.getLastD 0)) cno).2
      = snapRemoveState (snapInsertState s cno (hi.headD 0) (lo.getLastD 0)) cno
          (hi.headD 0) (lo.getLastD 0) := by
    rw [hred]
  rw [hclr1, hclr2]
  have hadd1 : u64add s.header.ch_nsnapshots 1 = s.header.ch_nsnapshots + 1 := by
    unfold u64add
    exact Nat.mod_eq_of_lt hcap
  refine ⟨rfl, rfl, ?hdr, ?cpc, ?cpo, ?blk⟩
  case hdr =>
    apply header_eq_of
    · rw [snapRemoveState_header, snapInsertState_header]
    · rw [snapRemoveState_header, snapInsertState_header]
      show u64sub (u64add s.header.ch_nsnapshots 1) 1 = _
      rw [hadd1, u64sub_exact _ _ (by omega) hcap]
      omega
    · rw [snapRemoveState_header, snapInsertState_header]
      show (if lo.getLastD 0 = 0 then hi.headD 0
        else (if lo.getLastD 0 = 0 then cno else s.header.ssl_next)) = _
      by_cases hp0 : lo.getLastD 0 = 0
      · rw [if_pos hp0, ← hNext0 hp0]
      · rw [if_neg hp0, if_neg hp0]
    · rw [snapRemoveState_header, snapInsertState_header]
      show (if hi.headD 0 = 0 then lo.getLastD 0
        else (if hi.headD 0 = 0 then cno else s.header.ssl_prev)) = _
      by_cases hc0 : hi.headD 0 = 0
      · rw [if_pos hc0, ← hPrev0 hc0]
      · rw [if_neg hc0, if_neg hc0]
  case cpc =>
    rw [snapRemoveState_cp_cno _ cno _ _ hc hpv, hSScp]
    show { s.cp cno with ssl_next := 0, ssl_prev := 0, cp_snapshot := false } = _
    rw [show (false : Bool) = (s.cp cno).cp_snapshot from hsnp.symm]
  case cpo =>
    intro x hxc
    by_cases hx0 : x = 0
    · rw [hx0, snapRemoveState_cp_zero _ cno _ _ hcno,
        snapInsertState_cp_zero s cno _ _ hcno]
    · by_cases hxu : x = hi.headD 0
      · have hcz : hi.headD 0 ≠ 0 := by rw [← hxu]; exact hx0
        have hpc : lo.getLastD 0 ≠ hi.headD 0 := fun h => hcz (hboth h.symm)
        have hprevcur : (s.cp (hi.headD 0)).ssl_prev = lo.getLastD 0 := by
          rw [← adjP, sslPrevOf, if_neg hcz]
        rw [hxu, snapRemoveState_cp_next _ cno _ _ hcz hc hpc,
          snapInsertState_cp_curr s cno _ _ hc hcz hpc]
        show { s.cp (hi.headD 0) with ssl_prev := lo.getLastD 0 } = _
        rw [show lo.getLastD 0 = (s.cp (hi.headD 0)).ssl_prev from hprevcur.symm]
      · by_cases hxp : x = lo.getLastD 0
        · have hpz : lo.getLastD 0 ≠ 0 := by rw [← hxp]; exact hx0
          have hpc : lo.getLastD 0 ≠ hi.headD 0 := fun h => hxu (hxp.trans h)
          have hnextpv : (s.cp (lo.getLastD 0)).ssl_next = hi.headD 0 := by
            rw [← adjN, sslNextOf, if_neg hpz]
          rw [hxp, snapRemoveState_cp_prev _ cno _ _ hpz hpv hpc,
            snapInsertState_cp_prev s cno _ _ hpv hpz hpc]
          show { s.cp (lo.getLastD 0) with ssl_next := hi.headD 0 } = _
          rw [show hi.headD 0 = (s.cp (lo.getLastD 0)).ssl_next from hnextpv.symm]
        · rw [snapRemoveState_cp_other _ cno _ _ x hxc hxu hxp,
            snapInsertState_cp_other s cno _ _ x hxc hxu hxp]
  case blk =>
    rw [snapRemoveState_blkExists, snapInsertState_blkExists]

/-- Witness for C5: on `wsSnapOne`, `set_snapshot 3` then `clear_snapshot 3`
both succeed, the header comes back exactly, and entry 3 is its old record
with both list links zeroed. -/
theorem snapshot_round_trip_witness :
    (nilfs_cpfile_set_snapshot wsSnapOne 3 10).1 = 0 ∧
    (nilfs_cpfile_clear_snapshot (nilfs_cpfile_set_snapshot wsSnapOne 3 10).2 3).1 = 0 ∧
    (nilfs_cpfile_clear_snapshot (nilfs_cpfile_set_snapshot wsSnapOne 3 10).2 3).2.header
      = wsSnapOne.header ∧
    (nilfs_cpfile_clear_snapshot (nilfs_cpfile_set_snapshot wsSnapOne 3 10).2 3).2.cp 3
      = { wsSnapOne.cp 3 with ssl_next := 0, ssl_prev := 0 } :=
  have h := snapshot_round_trip wsSnapOne 3 10 [2] [] (by decide) (by decide) (by decide)
    (by decide) (by decide) (by decide) (by decide) (by decide) (by decide) (by decide)
  ⟨h.1, h.2.1, h.2.2.1, h.2.2.2.1⟩
